import Mathlib

/-!
# Impeller Aiks: recording state machine (`Canvas`) and effect pipeline (`Paint`)

A shallow embedding of `impeller/aiks/canvas.cc` and `impeller/aiks/paint.cc`.

Conventions of the embedding.

* `Scalar` (a C++ `float`) and `Matrix` are type parameters `S` and `M`. The
  matrix product is `*` of an arbitrary `Mul M`, the default-constructed
  `Matrix()` is `1` of an arbitrary `One M`; no algebraic law is assumed.
* A method that can hit undefined behaviour (`back()` of an empty stack, a null
  or dangling `current_pass_`), call an empty `std::function`, or fail an
  `FML_DCHECK` returns `Option`; `none` is that failure. `FML_DCHECK` is
  modelled as in a debug build, where a failed check aborts.
* `xformation_stack_` is stored top first: the head of the list is `back()`,
  `emplace_back` is `cons`, `pop_back` is `tail`.
* The render graph is an arena: a list of passes, a pass pointer is an index,
  index `0` is the pass `base_pass_` owns.
* `size_t` counters (stencil depth, save count) are `Nat`: each unit of either
  is backed by a live stack entry or recorded entity, so they stay far below
  `2^64`.
-/

namespace impeller

/-! ## Geometry value types (impeller/geometry, not part of the sources) -/

/-- Modelled from the spec: `TPoint<Scalar>` of impeller/geometry/point.h. -/
structure Point (S : Type) where
  x : S
  y : S
deriving DecidableEq, Repr

/-- Modelled from the spec: `TSize<Scalar>` of impeller/geometry/size.h. -/
structure Size (S : Type) where
  width : S
  height : S
deriving DecidableEq, Repr

/-- Modelled from the spec: `TSize<int64_t>`, the size an `Image` reports. -/
structure ISize where
  width : Int
  height : Int
deriving DecidableEq, Repr

/-- Modelled from the spec: `TRect<Scalar>` of impeller/geometry/rect.h. -/
structure Rect (S : Type) where
  origin : Point S
  size : Size S
deriving DecidableEq, Repr

/-- Modelled from the spec: `Vector2`, an alias of `Point`. -/
structure Vector2 (S : Type) where
  x : S
  y : S
deriving DecidableEq, Repr

/-- Modelled from the spec: `Vector3` of impeller/geometry/vector.h. -/
structure Vector3 (S : Type) where
  x : S
  y : S
  z : S
deriving DecidableEq, Repr

/-- Modelled from the spec: `Radians`, a wrapper of one scalar. -/
structure Radians (S : Type) where
  radians : S
deriving DecidableEq, Repr

/-- Modelled from the spec: `Color` of impeller/geometry/color.h. -/
structure Color (S : Type) where
  red : S
  green : S
  blue : S
  alpha : S
deriving DecidableEq, Repr

/-- Modelled from the spec: the scalar operations `canvas.cc` uses and whose
definitions are not part of the sources: conversion of an integer literal or an
integer size to `Scalar`, subtraction and product, and the `IsEmpty` tests of
`Size` and `ISize`. They are parameters of the development. -/
class ScalarOps (S : Type) where
  ofInt : Int → S
  sub : S → S → S
  mul : S → S → S
  sizeIsEmpty : Size S → Bool
  isizeIsEmpty : ISize → Bool

/-- Modelled from the spec: the static constructors of `Matrix` that `canvas.cc`
calls; impeller/geometry/matrix.h is not part of the sources, so they are
parameters of the development. -/
class MatrixOps (S M : Type) where
  MakeTranslation : Vector3 S → M
  MakeScale : Vector3 S → M
  MakeScale2 : Vector2 S → M
  MakeSkew : S → S → M
  MakeRotationZ : Radians S → M

section GeometryHelpers
variable {S : Type} [ScalarOps S]

/-- Modelled from the spec: `Size::IsEmpty()`. -/
def Size.IsEmpty (s : Size S) : Bool := ScalarOps.sizeIsEmpty s

/-- Modelled from the spec: `ISize::IsEmpty()`; the scalar type only selects the parameter instance. -/
def ISize.IsEmpty (S : Type) [ScalarOps S] (s : ISize) : Bool :=
  ScalarOps.isizeIsEmpty S s

/-- Modelled from the spec: `Rect::MakeSize(isize)`: origin `(0, 0)` and the size converted to scalars. -/
def Rect.MakeSize (s : ISize) : Rect S :=
  { origin := { x := ScalarOps.ofInt 0, y := ScalarOps.ofInt 0 },
    size := { width := ScalarOps.ofInt s.width, height := ScalarOps.ofInt s.height } }

/-- Modelled from the spec: `Rect::MakeXYWH(x, y, w, h)`. -/
def Rect.MakeXYWH (x y w h : S) : Rect S :=
  { origin := { x := x, y := y }, size := { width := w, height := h } }

/-- Modelled from the spec: `point - size`, componentwise. -/
def Point.subSize (p : Point S) (s : Size S) : Point S :=
  { x := ScalarOps.sub p.x s.width, y := ScalarOps.sub p.y s.height }

/-- Modelled from the spec: `size * scalar`, componentwise. -/
def Size.scale (s : Size S) (k : S) : Size S :=
  { width := ScalarOps.mul s.width k, height := ScalarOps.mul s.height k }

/-- Modelled from the spec: the implicit conversion `Vector3(const Point&)`: `z` is zero. -/
def Point.toVector3 (p : Point S) : Vector3 S :=
  { x := p.x, y := p.y, z := ScalarOps.ofInt 0 }

end GeometryHelpers

/-! ## Enumerations and handles declared outside the sources -/

/-- Modelled from the spec: `BlendMode`; the sources name no enumerator, the
default of `Entity` and of `Save` is source-over. -/
structure BlendMode where
  value : Nat
deriving DecidableEq, Repr

/-- Modelled from the spec: `BlendMode::kSourceOver`, the default blend mode. -/
def BlendMode.kSourceOver : BlendMode := { value := 3 }

/-- Modelled from the spec: `Entity::ClipOperation`. -/
inductive ClipOperation where
  | kDifference
  | kIntersect
deriving DecidableEq, Repr

/-- Modelled from the spec: `FilterContents::BlurStyle`; the sources name only
`kNormal`, the other styles are told apart by a tag. -/
inductive BlurStyle where
  | kNormal
  | other (tag : Nat)
deriving DecidableEq, Repr

/-- Modelled from the spec: `Entity::TileMode`; the sources name only `kDecal`. -/
inductive TileMode where
  | kDecal
  | other (tag : Nat)
deriving DecidableEq, Repr

/-- Modelled from the spec: `Paint::Style`, the two cases `paint.cc` switches on. -/
inductive Style where
  | kFill
  | kStroke
deriving DecidableEq, Repr

/-- Modelled from the spec: `Paint::ColorSourceType`; the sources name only
`kColor`, the other source types are told apart by a tag. -/
inductive ColorSourceType where
  | kColor
  | other (tag : Nat)
deriving DecidableEq, Repr

/-- Modelled from the spec: a texture handle. -/
structure Texture where
  id : Nat
deriving DecidableEq, Repr

/-- Modelled from the spec: `SamplerDescriptor`, forwarded unread. -/
structure SamplerDescriptor where
  id : Nat
deriving DecidableEq, Repr

/-- Modelled from the spec: `TextFrame`, forwarded unread. -/
structure TextFrame where
  id : Nat
deriving DecidableEq, Repr

/-- Modelled from the spec: a `VerticesGeometry` object, forwarded unread. -/
structure VerticesGeometry where
  id : Nat
deriving DecidableEq, Repr

/-- Modelled from the spec: stroke cap and join enumerators, forwarded unread. -/
structure StrokeParam where
  value : Nat
deriving DecidableEq, Repr

/-- Modelled from the spec: the object a non-null `std::shared_ptr<Image>`
points to: its size and its texture. -/
structure Image where
  size : ISize
  texture : Texture
deriving DecidableEq, Repr

/-- Modelled from the spec: `Image::GetSize()`. -/
def Image.GetSize (i : Image) : ISize := i.size

/-- Modelled from the spec: `Image::GetTexture()`. -/
def Image.GetTexture (i : Image) : Texture := i.texture

/-- Modelled from the spec: `Path`, as the values `canvas.cc` can hold: a path
of the caller, the empty path `{}`, and the results of `PathBuilder`. -/
inductive Path (S : Type) where
  | user (id : Nat)
  | empty
  | rect (r : Rect S)
  | roundedRect (r : Rect S) (corner_radius : S)
  | circle (center : Point S) (radius : S)
deriving DecidableEq, Repr

/-- Modelled from the spec: the `Geometry` factories the sources call. -/
inductive Geometry (S : Type) where
  | fillPath (path : Path S)
  | strokePath (path : Path S) (stroke_width stroke_miter : S)
      (stroke_cap stroke_join : StrokeParam)
  | cover
  | rect (r : Rect S)
  | vertices (v : VerticesGeometry)
deriving DecidableEq, Repr

/-- A `std::function`: empty, or holding a target. Calling an empty one throws
`std::bad_function_call`. -/
inductive StdFunction (α : Type) where
  | empty
  | target (f : α)

/-- Invocation of a `std::function` through its call operator. -/
def StdFunction.call {α : Type} : StdFunction α → Option α
  | .empty => none
  | .target f => some f

/-- The comparison `f == nullptr` of a `std::function`. -/
def StdFunction.isNull {α : Type} : StdFunction α → Bool
  | .empty => true
  | .target _ => false

/-! ## Contents (impeller/entity/contents, not part of the sources) -/

/-- Modelled from the spec: the glyph atlas handle of a pass, named by the pass
that owns it. -/
structure LazyGlyphAtlas where
  pass : Nat
deriving DecidableEq, Repr

/-- Modelled from the spec: the object a color source factory returns, with the
two fields the sources set on it; `kind` stands for everything else the factory
put into it. -/
structure ColorSourceContents (S : Type) where
  kind : Nat
  geometry : Option (Geometry S)
  alpha : Option S
deriving DecidableEq, Repr

/-- Modelled from the spec: `ColorSourceContents::SetGeometry`. -/
def ColorSourceContents.SetGeometry {S : Type} (c : ColorSourceContents S)
    (g : Geometry S) : ColorSourceContents S :=
  { c with geometry := some g }

/-- Modelled from the spec: `ColorSourceContents::SetAlpha`. -/
def ColorSourceContents.SetAlpha {S : Type} (c : ColorSourceContents S)
    (a : S) : ColorSourceContents S :=
  { c with alpha := some a }

/-- Modelled from the spec: a `std::shared_ptr<Contents>`: the null pointer, or
one of the drawables the sources construct, each carrying exactly what the
sources set on it. `filter` and `colorFilter` are the objects caller-supplied
filter functions return. -/
inductive Contents (S M : Type) where
  | null
  | solidColor (geometry : Geometry S) (color : Color S)
  | colorSource (c : ColorSourceContents S)
  | rrectShadow (color : Color S) (sigma : S) (rect : Rect S) (corner_radius : S)
  | clip (geometry : Geometry S) (clip_op : ClipOperation)
  | clipRestore
  | texture (dest : Rect S) (texture : Texture) (source_rect : Rect S)
      (sampler : SamplerDescriptor) (opacity : S)
  | text (frame : TextFrame) (glyph_atlas : LazyGlyphAtlas) (color : Color S)
  | vertices (color : Color S) (blend_mode : BlendMode) (geometry : Geometry S)
  | atlas (colors : List (Color S)) (transforms : List M)
      (texture_coordinates : List (Rect S)) (texture : Texture)
      (sampler : SamplerDescriptor) (blend_mode : BlendMode)
      (cull_rect : Option (Rect S)) (alpha : S)
  | gaussianBlur (input : Contents S M) (sigma_x sigma_y : S)
      (blur_style : BlurStyle) (tile_mode : TileMode) (effect_transform : M)
  | borderMaskBlur (input : Contents S M) (sigma_x sigma_y : S)
      (blur_style : BlurStyle) (effect_transform : M)
  | filter (kind : Nat) (input : Contents S M) (effect_transform : M)
  | colorFilter (kind : Nat) (input : Contents S M) (absorb_opacity : Bool)
deriving DecidableEq, Repr

/-- Modelled from the spec: `FilterInput::Ref`: a filter input wrapping a contents pointer. -/
abbrev FilterInput (S M : Type) := Contents S M

/-- Modelled from the spec: `FilterInput::Make(contents)`. -/
def FilterInput.Make {S M : Type} (c : Contents S M) : FilterInput S M := c

/-- Modelled from the spec: the object a non-null
`std::shared_ptr<ColorFilterContents>` points to. -/
structure ColorFilterContents (S M : Type) where
  kind : Nat
  input : Contents S M
  absorb_opacity : Bool
deriving DecidableEq, Repr

/-- Modelled from the spec: `ColorFilterContents::SetAbsorbOpacity`. -/
def ColorFilterContents.SetAbsorbOpacity {S M : Type} (c : ColorFilterContents S M)
    (absorb_opacity : Bool) : ColorFilterContents S M :=
  { c with absorb_opacity := absorb_opacity }

/-- Modelled from the spec: the upcast of a color filter object to `std::shared_ptr<Contents>`. -/
def ColorFilterContents.toContents {S M : Type} (c : ColorFilterContents S M) :
    Contents S M :=
  Contents.colorFilter c.kind c.input c.absorb_opacity

/-- Modelled from the spec: `FilterContents::MakeGaussianBlur`. -/
def FilterContents.MakeGaussianBlur {S M : Type} (input : FilterInput S M)
    (sigma_x sigma_y : S) (blur_style : BlurStyle) (tile_mode : TileMode)
    (effect_transform : M) : Contents S M :=
  Contents.gaussianBlur input sigma_x sigma_y blur_style tile_mode effect_transform

/-- Modelled from the spec: `FilterContents::MakeBorderMaskBlur`. -/
def FilterContents.MakeBorderMaskBlur {S M : Type} (input : FilterInput S M)
    (sigma_x sigma_y : S) (blur_style : BlurStyle) (effect_transform : M) :
    Contents S M :=
  Contents.borderMaskBlur input sigma_x sigma_y blur_style effect_transform

/-! ## Paint (impeller/aiks/paint.cc) -/

/-- Modelled from the spec: `Paint::ColorSourceProc`: a factory without arguments; its result is
dereferenced unchecked, so it is a non-null object. -/
abbrev ColorSourceProc (S : Type) := StdFunction (Unit → ColorSourceContents S)

/-- Modelled from the spec: `Paint::ImageFilterProc`, also the type of a backdrop filter. -/
abbrev ImageFilterProc (S M : Type) := StdFunction (FilterInput S M → M → Contents S M)

/-- Modelled from the spec: `Paint::ColorFilterProc`; `none` as result is a null pointer. -/
abbrev ColorFilterProc (S M : Type) :=
  StdFunction (FilterInput S M → Option (ColorFilterContents S M))

/-- Modelled from the spec: `Paint::MaskBlurDescriptor`. -/
structure MaskBlurDescriptor (S : Type) where
  style : BlurStyle
  sigma : S
deriving DecidableEq, Repr

/-- Modelled from the spec: `Paint`: the fields the sources read. -/
structure Paint (S M : Type) where
  color : Color S
  color_source : Option (ColorSourceProc S)
  color_source_type : ColorSourceType
  stroke_width : S
  stroke_cap : StrokeParam
  stroke_join : StrokeParam
  stroke_miter : S
  style : Style
  blend_mode : BlendMode
  invert_colors : Bool
  image_filter : Option (ImageFilterProc S M)
  color_filter : Option (ColorFilterProc S M)
  invert_color_filter : Option (ColorFilterProc S M)
  mask_blur_descriptor : Option (MaskBlurDescriptor S)

section PaintOps
variable {S M : Type}

/-- Embedding of `Paint::MaskBlurDescriptor::CreateMaskBlur`. -/
def MaskBlurDescriptor.CreateMaskBlur (d : MaskBlurDescriptor S)
    (input : FilterInput S M) (is_solid_color : Bool) (effect_transform : M) :
    Contents S M :=
  if is_solid_color then
    FilterContents.MakeGaussianBlur input d.sigma d.sigma d.style TileMode.kDecal
      effect_transform
  else
    FilterContents.MakeBorderMaskBlur input d.sigma d.sigma d.style effect_transform

/-- Embedding of `Paint::CreateContentsForGeometry`. -/
def Paint.CreateContentsForGeometry (p : Paint S M) (geometry : Geometry S) :
    Option (Contents S M) :=
  match p.color_source with
  | some source =>
    match source.call with
    | none => none
    | some factory =>
      let contents := factory ()
      let contents := contents.SetGeometry geometry
      let contents := contents.SetAlpha p.color.alpha
      some (Contents.colorSource contents)
  | none => some (Contents.solidColor geometry p.color)

/-- Embedding of `Paint::CreateContentsForEntity(path, cover)`. -/
def Paint.CreateContentsForEntity (p : Paint S M) (path : Path S) (cover : Bool) :
    Option (Contents S M) :=
  let geometry : Geometry S :=
    match p.style with
    | Style.kFill => if cover then Geometry.cover else Geometry.fillPath path
    | Style.kStroke =>
      if cover then Geometry.cover
      else Geometry.strokePath path p.stroke_width p.stroke_miter p.stroke_cap
        p.stroke_join
  p.CreateContentsForGeometry geometry

/-- Embedding of `Paint::WithMaskBlur`. -/
def Paint.WithMaskBlur (p : Paint S M) (input : Contents S M) (is_solid_color : Bool)
    (effect_transform : M) : Contents S M :=
  match p.mask_blur_descriptor with
  | some d => d.CreateMaskBlur (FilterInput.Make input) is_solid_color effect_transform
  | none => input

/-- Embedding of `Paint::WithImageFilter`. -/
def Paint.WithImageFilter (p : Paint S M) (input : Contents S M)
    (effect_transform : M) : Option (Contents S M) :=
  match p.image_filter with
  | some filter =>
    match filter.call with
    | none => none
    | some f => some (f (FilterInput.Make input) effect_transform)
  | none => some input

/-- Embedding of `Paint::WithColorFilter(input, filter, absorb_opacity)`; it reads no field of
the paint. -/
def Paint.WithColorFilter (_p : Paint S M) (input : Contents S M)
    (filter : Option (ColorFilterProc S M)) (absorb_opacity : Bool) :
    Option (Contents S M) :=
  match filter with
  | some filter_proc =>
    match filter_proc.call with
    | none => none
    | some f =>
      match f (FilterInput.Make input) with
      | some color_filter_contents =>
        some (color_filter_contents.SetAbsorbOpacity absorb_opacity).toContents
      | none => some Contents.null
  | none => some input

/-- Embedding of `Paint::WithFilters(input, is_solid_color, effect_transform)`. -/
def Paint.WithFilters (p : Paint S M) (input : Contents S M)
    (is_solid_color : Option Bool) (effect_transform : M) : Option (Contents S M) :=
  let is_solid_color_val := is_solid_color.getD (!p.color_source.isSome)
  let input := p.WithMaskBlur input is_solid_color_val effect_transform
  match p.WithImageFilter input effect_transform with
  | none => none
  | some input =>
    match p.WithColorFilter input p.color_filter false with
    | none => none
    | some input =>
      if p.invert_colors then
        if p.invert_color_filter.isSome then
          p.WithColorFilter input p.invert_color_filter false
        else none
      else some input

/-- Embedding of `Paint::WithFiltersForSubpassTarget(input, effect_transform)`. -/
def Paint.WithFiltersForSubpassTarget (p : Paint S M) (input : Contents S M)
    (effect_transform : M) : Option (Contents S M) :=
  let input := p.WithMaskBlur input false effect_transform
  match p.WithImageFilter input effect_transform with
  | none => none
  | some input =>
    match p.WithColorFilter input p.color_filter true with
    | none => none
    | some input =>
      if p.invert_colors then
        if p.invert_color_filter.isSome then
          p.WithColorFilter input p.invert_color_filter true
        else none
      else some input

end PaintOps

/-! ## Entity and EntityPass (impeller/entity, not part of the sources) -/

/-- Modelled from the spec: `Entity`, the draw record
`{transform, stencilDepth, blendMode, contents}`. -/
structure Entity (S M : Type) where
  xformation : M
  stencil_depth : Nat
  blend_mode : BlendMode
  contents : Contents S M
deriving DecidableEq, Repr

section EntityOps
variable {S M : Type}

/-- Modelled from the spec: the default-constructed `Entity`: identity transform, stencil depth zero,
source-over blending, no contents. -/
def Entity.new [One M] : Entity S M :=
  { xformation := 1, stencil_depth := 0, blend_mode := BlendMode.kSourceOver,
    contents := Contents.null }

/-- Modelled from the spec: `Entity::SetTransformation`. -/
def Entity.SetTransformation (e : Entity S M) (t : M) : Entity S M :=
  { e with xformation := t }

/-- Modelled from the spec: `Entity::GetTransformation`. -/
def Entity.GetTransformation (e : Entity S M) : M := e.xformation

/-- Modelled from the spec: `Entity::SetStencilDepth`. -/
def Entity.SetStencilDepth (e : Entity S M) (d : Nat) : Entity S M :=
  { e with stencil_depth := d }

/-- Modelled from the spec: `Entity::IncrementStencilDepth`. -/
def Entity.IncrementStencilDepth (e : Entity S M) (d : Nat) : Entity S M :=
  { e with stencil_depth := e.stencil_depth + d }

/-- Modelled from the spec: `Entity::SetBlendMode`. -/
def Entity.SetBlendMode (e : Entity S M) (b : BlendMode) : Entity S M :=
  { e with blend_mode := b }

/-- Modelled from the spec: `Entity::SetContents`. -/
def Entity.SetContents (e : Entity S M) (c : Contents S M) : Entity S M :=
  { e with contents := c }

end EntityOps

/-- Modelled from the spec: `PaintPassDelegate(paint, bounds)`, the delegate
`SaveLayer` attaches to the new pass. -/
structure PaintPassDelegate (S M : Type) where
  paint : Paint S M
  coverage : Option (Rect S)

/-- Modelled from the spec: one element of a pass, in recording order: a draw
record, or a child pass (named by its index in the arena). -/
inductive Element (S M : Type) where
  | entity (e : Entity S M)
  | subpass (id : Nat)
deriving DecidableEq, Repr

/-- Modelled from the spec: `EntityPass`, a render-graph node: its ordered draw
records and child passes, the non-owning back-reference to its parent, and the
annotations `Canvas` sets on it. -/
structure EntityPass (S M : Type) where
  elements_ : List (Element S M)
  superpass_ : Option Nat
  xformation_ : M
  stencil_depth_ : Nat
  blend_mode_ : BlendMode
  backdrop_filter_proc_ : Option (ImageFilterProc S M)
  delegate_ : Option (PaintPassDelegate S M)
  lazy_glyph_atlas_ : List TextFrame

/-- Modelled from the spec: the render graph as an arena of passes; a pass pointer is an index. -/
abbrev RenderGraph (S M : Type) := List (EntityPass S M)

section PassOps
variable {S M : Type}

/-- Modelled from the spec: the draw record of an element, if it is one. -/
def Element.entity? : Element S M → Option (Entity S M)
  | .entity e => some e
  | .subpass _ => none

/-- Modelled from the spec: the child pass of an element, if it is one. -/
def Element.subpass? : Element S M → Option Nat
  | .entity _ => none
  | .subpass id => some id

/-- Modelled from the spec: the draw records of a pass, in recording order. -/
def EntityPass.entities (p : EntityPass S M) : List (Entity S M) :=
  p.elements_.filterMap Element.entity?

/-- Modelled from the spec: the child passes of a pass, in recording order. -/
def EntityPass.subpasses (p : EntityPass S M) : List Nat :=
  p.elements_.filterMap Element.subpass?

/-- Modelled from the spec: the default-constructed `EntityPass`. -/
def EntityPass.new [One M] : EntityPass S M :=
  { elements_ := [], superpass_ := none, xformation_ := 1, stencil_depth_ := 0,
    blend_mode_ := BlendMode.kSourceOver, backdrop_filter_proc_ := none,
    delegate_ := none, lazy_glyph_atlas_ := [] }

/-- Modelled from the spec: `EntityPass::AddEntity`: append a draw record. -/
def EntityPass.AddEntity (p : EntityPass S M) (e : Entity S M) : EntityPass S M :=
  { p with elements_ := p.elements_ ++ [Element.entity e] }

/-- Modelled from the spec: `EntityPass::SetBackdropFilter`. -/
def EntityPass.SetBackdropFilter (p : EntityPass S M)
    (f : Option (ImageFilterProc S M)) : EntityPass S M :=
  { p with backdrop_filter_proc_ := f }

/-- Modelled from the spec: `EntityPass::SetBlendMode`. -/
def EntityPass.SetBlendMode (p : EntityPass S M) (b : BlendMode) : EntityPass S M :=
  { p with blend_mode_ := b }

/-- Modelled from the spec: `EntityPass::SetTransformation`. -/
def EntityPass.SetTransformation (p : EntityPass S M) (t : M) : EntityPass S M :=
  { p with xformation_ := t }

/-- Modelled from the spec: `EntityPass::SetStencilDepth`. -/
def EntityPass.SetStencilDepth (p : EntityPass S M) (d : Nat) : EntityPass S M :=
  { p with stencil_depth_ := d }

/-- Modelled from the spec: `EntityPass::SetDelegate`. -/
def EntityPass.SetDelegate (p : EntityPass S M) (d : PaintPassDelegate S M) :
    EntityPass S M :=
  { p with delegate_ := some d }

/-- Modelled from the spec: `EntityPass::GetSuperpass`. -/
def EntityPass.GetSuperpass (p : EntityPass S M) : Option Nat := p.superpass_

/-- Modelled from the spec: `LazyGlyphAtlas::AddTextFrame` on the atlas of a pass. -/
def EntityPass.AddTextFrame (p : EntityPass S M) (f : TextFrame) : EntityPass S M :=
  { p with lazy_glyph_atlas_ := p.lazy_glyph_atlas_ ++ [f] }

/-- Modelled from the spec: a write through a pass pointer: `none` when the pointer is dangling. -/
def RenderGraph.update (g : RenderGraph S M) (pass : Nat)
    (f : EntityPass S M → EntityPass S M) : Option (RenderGraph S M) :=
  match g[pass]? with
  | none => none
  | some p => some (g.set pass (f p))

/-- Modelled from the spec: `EntityPass::AddSubpass` on the pass `parent`: the new pass gets `parent` as
its superpass and becomes the last element of `parent`; the result carries the
pointer to the new pass. -/
def RenderGraph.AddSubpass (g : RenderGraph S M) (parent : Nat)
    (pass : EntityPass S M) : Option (RenderGraph S M × Nat) :=
  match g[parent]? with
  | none => none
  | some p =>
    if pass.superpass_.isNone then
      let id := g.length
      let pass := { pass with superpass_ := some parent }
      let p := { p with elements_ := p.elements_ ++ [Element.subpass id] }
      some (g.set parent p ++ [pass], id)
    else none

/-- Modelled from the spec: `EntityPass::GetSubpassesDepth` of the pass `i`: one more than the largest
depth among its child passes; `fuel` bounds the descent. -/
def RenderGraph.subpassesDepth (g : RenderGraph S M) : Nat → Nat → Nat
  | 0, _ => 1
  | fuel + 1, i =>
    match g[i]? with
    | none => 1
    | some p => (p.subpasses.map (RenderGraph.subpassesDepth g fuel)).foldl max 0 + 1

/-- Modelled from the spec: `EntityPass::GetSubpassesDepth` of the root of a graph. -/
def RenderGraph.GetSubpassesDepth (g : RenderGraph S M) : Nat :=
  RenderGraph.subpassesDepth g g.length 0

/-- Modelled from the spec: `EntityPass::Clone`: a deep copy; a copy of a value is the value. -/
def RenderGraph.Clone (g : RenderGraph S M) : RenderGraph S M := g

/-- Modelled from the spec: `EntityPass::IterateAllEntities` with a visitor that always returns true:
the visitor rewrites every draw record of every pass of the graph. -/
def RenderGraph.IterateAllEntities (g : RenderGraph S M)
    (visit : Entity S M → Entity S M) : RenderGraph S M :=
  g.map (fun p =>
    { p with elements_ := p.elements_.map (fun el =>
        match el with
        | Element.entity e => Element.entity (visit e)
        | Element.subpass id => Element.subpass id) })

/-- Modelled from the spec: all draw records of a graph. -/
def RenderGraph.allEntities (g : RenderGraph S M) : List (Entity S M) :=
  g.flatMap EntityPass.entities

end PassOps

/-- Modelled from the spec: `Picture`: a detached render graph, or nothing. -/
structure Picture (S M : Type) where
  pass : Option (RenderGraph S M)

/-! ## Canvas (impeller/aiks/canvas.cc) -/

/-- Modelled from the spec: `CanvasStackEntry`: the four fields `canvas.cc` reads and writes. -/
structure CanvasStackEntry (M : Type) where
  xformation : M
  stencil_depth : Nat
  is_subpass : Bool
  contains_clips : Bool
deriving DecidableEq, Repr

/-- Modelled from the spec: `CanvasStackEntry{}`: identity transform, depth zero, both flags false. -/
def CanvasStackEntry.new {M : Type} [One M] : CanvasStackEntry M :=
  { xformation := 1, stencil_depth := 0, is_subpass := false, contains_clips := false }

/-- Modelled from the spec: `Canvas`: the three data members. `base_pass_` owns the render graph,
`current_pass_` points into it, `xformation_stack_` is kept top first. -/
structure Canvas (S M : Type) where
  base_pass_ : Option (RenderGraph S M)
  current_pass_ : Option Nat
  xformation_stack_ : List (CanvasStackEntry M)

section CanvasOps
variable {S M : Type}

/-- Embedding of `Canvas::GetSaveCount`. -/
def Canvas.GetSaveCount (c : Canvas S M) : Nat := c.xformation_stack_.length

/-- Embedding of `xformation_stack_.back()`; undefined on an empty stack. -/
def Canvas.back (c : Canvas S M) : Option (CanvasStackEntry M) :=
  c.xformation_stack_.head?

/-- A write to `xformation_stack_.back()`. -/
def Canvas.setBack (c : Canvas S M) (f : CanvasStackEntry M → CanvasStackEntry M) :
    Option (Canvas S M) :=
  match c.xformation_stack_ with
  | [] => none
  | top :: rest => some { c with xformation_stack_ := f top :: rest }

/-- Embedding of `Canvas::GetCurrentTransformation`. -/
def Canvas.GetCurrentTransformation (c : Canvas S M) : Option M :=
  c.back.map (fun e => e.xformation)

/-- Embedding of `Canvas::GetStencilDepth`. -/
def Canvas.GetStencilDepth (c : Canvas S M) : Option Nat :=
  c.back.map (fun e => e.stencil_depth)

/-- Embedding of `Canvas::GetCurrentPass`: the check that `current_pass_` is not null, then
the pointer. -/
def Canvas.GetCurrentPass (c : Canvas S M) : Option Nat := c.current_pass_

/-- A read through `GetCurrentPass()`. -/
def Canvas.readCurrentPass (c : Canvas S M) : Option (EntityPass S M) :=
  match c.GetCurrentPass, c.base_pass_ with
  | some i, some g => g[i]?
  | _, _ => none

/-- A write through `GetCurrentPass()`. -/
def Canvas.writeCurrentPass (c : Canvas S M) (f : EntityPass S M → EntityPass S M) :
    Option (Canvas S M) :=
  match c.GetCurrentPass, c.base_pass_ with
  | some i, some g =>
    match g.update i f with
    | none => none
    | some g1 => some { c with base_pass_ := some g1 }
  | _, _ => none

/-- Embedding of `GetCurrentPass().AddEntity(entity)`. -/
def Canvas.AddEntity (c : Canvas S M) (e : Entity S M) : Option (Canvas S M) :=
  c.writeCurrentPass (fun p => p.AddEntity e)

/-- Embedding of `Canvas::Initialize`. -/
def Canvas.Initialize [One M] (c : Canvas S M) : Option (Canvas S M) :=
  let base_pass : RenderGraph S M := [EntityPass.new]
  let c : Canvas S M :=
    { base_pass_ := some base_pass, current_pass_ := some 0,
      xformation_stack_ := CanvasStackEntry.new :: c.xformation_stack_ }
  if c.GetSaveCount = 1 then
    if base_pass.GetSubpassesDepth = 1 then some c else none
  else none

/-- Embedding of `Canvas::Reset`. -/
def Canvas.Reset (_c : Canvas S M) : Canvas S M :=
  { base_pass_ := none, current_pass_ := none, xformation_stack_ := [] }

/-- Embedding of `Canvas::Canvas()`: the members are default-initialised, then `Initialize`
runs. -/
def Canvas.create [One M] : Option (Canvas S M) :=
  Canvas.Initialize { base_pass_ := none, current_pass_ := none, xformation_stack_ := [] }

/-- Embedding of `Canvas::Save(create_subpass, blend_mode, backdrop_filter)`. -/
def Canvas.SaveWith [One M] (c : Canvas S M) (create_subpass : Bool)
    (blend_mode : BlendMode) (backdrop_filter : Option (ImageFilterProc S M)) :
    Option (Canvas S M) :=
  match c.back with
  | none => none
  | some back =>
    let entry : CanvasStackEntry M :=
      { (CanvasStackEntry.new : CanvasStackEntry M) with
        xformation := back.xformation, stencil_depth := back.stencil_depth }
    if create_subpass then
      let entry := { entry with is_subpass := true }
      let subpass : EntityPass S M := EntityPass.new
      let subpass := subpass.SetBackdropFilter backdrop_filter
      let subpass := subpass.SetBlendMode blend_mode
      match c.GetCurrentPass, c.base_pass_ with
      | some cur, some g =>
        match g.AddSubpass cur subpass with
        | none => none
        | some (g1, id) =>
          match g1.update id (fun p => p.SetTransformation back.xformation) with
          | none => none
          | some g2 =>
            match g2.update id (fun p => p.SetStencilDepth back.stencil_depth) with
            | none => none
            | some g3 =>
              some { base_pass_ := some g3, current_pass_ := some id,
                     xformation_stack_ := entry :: c.xformation_stack_ }
      | _, _ => none
    else
      some { c with xformation_stack_ := entry :: c.xformation_stack_ }

/-- Embedding of `Canvas::Save()`. -/
def Canvas.Save [One M] (c : Canvas S M) : Option (Canvas S M) :=
  c.SaveWith false BlendMode.kSourceOver none

/-- Embedding of `Canvas::RestoreClip`. -/
def Canvas.RestoreClip [One M] (c : Canvas S M) : Option (Canvas S M) :=
  match c.GetCurrentTransformation with
  | none => none
  | some t =>
    let entity : Entity S M := Entity.new
    let entity := entity.SetTransformation t
    let entity := entity.SetContents Contents.clipRestore
    match c.GetStencilDepth with
    | none => none
    | some d =>
      let entity := entity.SetStencilDepth d
      c.AddEntity entity

/-- Embedding of `Canvas::Restore`; the result pairs the returned flag with the new state. -/
def Canvas.Restore [One M] (c : Canvas S M) : Option (Bool × Canvas S M) :=
  if c.xformation_stack_.length > 0 then
    if c.xformation_stack_.length = 1 then some (false, c)
    else
      match c.xformation_stack_ with
      | [] => none
      | back :: rest =>
        let repointed : Option (Canvas S M) :=
          if back.is_subpass then
            match c.readCurrentPass with
            | none => none
            | some p =>
              match p.GetSuperpass with
              | none => none
              | some parent => some { c with current_pass_ := some parent }
          else some c
        match repointed with
        | none => none
        | some c1 =>
          let contains_clips := back.contains_clips
          let c2 : Canvas S M := { c1 with xformation_stack_ := rest }
          if contains_clips then
            match c2.RestoreClip with
            | none => none
            | some c3 => some (true, c3)
          else some (true, c2)
  else none

/-- Embedding of `Canvas::Concat`. -/
def Canvas.Concat [Mul M] (c : Canvas S M) (xformation : M) : Option (Canvas S M) :=
  match c.GetCurrentTransformation with
  | none => none
  | some t => c.setBack (fun e => { e with xformation := t * xformation })

/-- Embedding of `Canvas::PreConcat`. -/
def Canvas.PreConcat [Mul M] (c : Canvas S M) (xformation : M) : Option (Canvas S M) :=
  match c.GetCurrentTransformation with
  | none => none
  | some t => c.setBack (fun e => { e with xformation := xformation * t })

/-- Embedding of `Canvas::ResetTransform`. -/
def Canvas.ResetTransform [One M] (c : Canvas S M) : Option (Canvas S M) :=
  c.setBack (fun e => { e with xformation := 1 })

/-- Embedding of `Canvas::Transform`. -/
def Canvas.Transform [Mul M] (c : Canvas S M) (xformation : M) : Option (Canvas S M) :=
  c.Concat xformation

/-- Embedding of `Canvas::Translate`. -/
def Canvas.Translate [Mul M] [MatrixOps S M] (c : Canvas S M) (offset : Vector3 S) :
    Option (Canvas S M) :=
  c.Concat (MatrixOps.MakeTranslation offset)

/-- Embedding of `Canvas::Scale(const Vector2&)`. -/
def Canvas.Scale [Mul M] [MatrixOps S M] (c : Canvas S M) (scale : Vector2 S) :
    Option (Canvas S M) :=
  c.Concat (MatrixOps.MakeScale2 scale)

/-- Embedding of `Canvas::Scale(const Vector3&)`. -/
def Canvas.Scale3 [Mul M] [MatrixOps S M] (c : Canvas S M) (scale : Vector3 S) :
    Option (Canvas S M) :=
  c.Concat (MatrixOps.MakeScale scale)

/-- Embedding of `Canvas::Skew`. -/
def Canvas.Skew [Mul M] [MatrixOps S M] (c : Canvas S M) (sx sy : S) :
    Option (Canvas S M) :=
  c.Concat (MatrixOps.MakeSkew sx sy)

/-- Embedding of `Canvas::Rotate`. -/
def Canvas.Rotate [Mul M] [MatrixOps S M] (c : Canvas S M) (radians : Radians S) :
    Option (Canvas S M) :=
  c.Concat (MatrixOps.MakeRotationZ radians)

/-- The loop of `Canvas::RestoreToCount`; every turn that continues pops one
entry, so `fuel` equal to the save count is never used up. -/
def Canvas.restoreLoop [One M] (count : Nat) : Nat → Canvas S M → Option (Canvas S M)
  | 0, c => if c.GetSaveCount > count then none else some c
  | fuel + 1, c =>
    if c.GetSaveCount > count then
      match c.Restore with
      | none => none
      | some (false, c1) => some c1
      | some (true, c1) => Canvas.restoreLoop count fuel c1
    else some c

/-- Embedding of `Canvas::RestoreToCount`. -/
def Canvas.RestoreToCount [One M] (c : Canvas S M) (count : Nat) : Option (Canvas S M) :=
  Canvas.restoreLoop count c.GetSaveCount c

/-- The comparison `opt == nullptr` of a `std::optional<std::function<...>>`:
an empty optional compares unequal to every value, an engaged one compares the
function it holds with the null pointer. -/
def optionalEqNullptr {α : Type} : Option (StdFunction α) → Bool
  | none => false
  | some f => f.isNull

/-- Embedding of `Canvas::DrawPath`. -/
def Canvas.DrawPath [One M] (c : Canvas S M) (path : Path S) (paint : Paint S M) :
    Option (Canvas S M) := do
  let entity : Entity S M := Entity.new
  let entity := entity.SetTransformation (← c.GetCurrentTransformation)
  let entity := entity.SetStencilDepth (← c.GetStencilDepth)
  let entity := entity.SetBlendMode paint.blend_mode
  let contents ← paint.CreateContentsForEntity path false
  let entity := entity.SetContents (← paint.WithFilters contents none 1)
  c.AddEntity entity

/-- Embedding of `Canvas::DrawPaint`. -/
def Canvas.DrawPaint [One M] (c : Canvas S M) (paint : Paint S M) :
    Option (Canvas S M) := do
  let entity : Entity S M := Entity.new
  let entity := entity.SetTransformation (← c.GetCurrentTransformation)
  let entity := entity.SetStencilDepth (← c.GetStencilDepth)
  let entity := entity.SetBlendMode paint.blend_mode
  let entity := entity.SetContents (← paint.CreateContentsForEntity Path.empty true)
  c.AddEntity entity

/-- Embedding of `Canvas::AttemptDrawBlurredRRect`; the result pairs the returned flag with
the new state. -/
def Canvas.AttemptDrawBlurredRRect [One M] (c : Canvas S M) (rect : Rect S)
    (corner_radius : S) (paint : Paint S M) : Option (Bool × Canvas S M) :=
  if optionalEqNullptr paint.color_source ||
      paint.color_source_type != ColorSourceType.kColor ||
      paint.style != Style.kFill then
    some (false, c)
  else
    match paint.mask_blur_descriptor with
    | none => some (false, c)
    | some descriptor =>
      if descriptor.style != BlurStyle.kNormal then some (false, c)
      else do
        let new_paint := paint
        let contents : Contents S M :=
          Contents.rrectShadow new_paint.color descriptor.sigma rect corner_radius
        let new_paint := { new_paint with mask_blur_descriptor := none }
        let entity : Entity S M := Entity.new
        let entity := entity.SetTransformation (← c.GetCurrentTransformation)
        let entity := entity.SetStencilDepth (← c.GetStencilDepth)
        let entity := entity.SetBlendMode new_paint.blend_mode
        let entity := entity.SetContents (← new_paint.WithFilters contents none 1)
        let c1 ← c.AddEntity entity
        some (true, c1)

/-- Embedding of `Canvas::DrawRect`. -/
def Canvas.DrawRect [One M] [ScalarOps S] (c : Canvas S M) (rect : Rect S)
    (paint : Paint S M) : Option (Canvas S M) :=
  if paint.style == Style.kStroke then
    c.DrawPath (Path.rect rect) paint
  else
    match c.AttemptDrawBlurredRRect rect (ScalarOps.ofInt 0) paint with
    | none => none
    | some (true, c1) => some c1
    | some (false, c1) => do
      let entity : Entity S M := Entity.new
      let entity := entity.SetTransformation (← c1.GetCurrentTransformation)
      let entity := entity.SetStencilDepth (← c1.GetStencilDepth)
      let entity := entity.SetBlendMode paint.blend_mode
      let contents ← paint.CreateContentsForGeometry (Geometry.rect rect)
      let entity := entity.SetContents (← paint.WithFilters contents none 1)
      c1.AddEntity entity

/-- Embedding of `Canvas::DrawRRect`. -/
def Canvas.DrawRRect [One M] (c : Canvas S M) (rect : Rect S) (corner_radius : S)
    (paint : Paint S M) : Option (Canvas S M) :=
  match c.AttemptDrawBlurredRRect rect corner_radius paint with
  | none => none
  | some (true, c1) => some c1
  | some (false, c1) => c1.DrawPath (Path.roundedRect rect corner_radius) paint

/-- Embedding of `Canvas::DrawCircle`. -/
def Canvas.DrawCircle [One M] [ScalarOps S] (c : Canvas S M) (center : Point S)
    (radius : S) (paint : Paint S M) : Option (Canvas S M) :=
  let half_size : Size S := { width := radius, height := radius }
  let rect : Rect S :=
    { origin := center.subSize half_size, size := half_size.scale (ScalarOps.ofInt 2) }
  match c.AttemptDrawBlurredRRect rect radius paint with
  | none => none
  | some (true, c1) => some c1
  | some (false, c1) => c1.DrawPath (Path.circle center radius) paint

/-- Embedding of `Canvas::ClipPath`. -/
def Canvas.ClipPath [One M] (c : Canvas S M) (path : Path S) (clip_op : ClipOperation) :
    Option (Canvas S M) := do
  let contents : Contents S M := Contents.clip (Geometry.fillPath path) clip_op
  let entity : Entity S M := Entity.new
  let entity := entity.SetTransformation (← c.GetCurrentTransformation)
  let entity := entity.SetContents contents
  let entity := entity.SetStencilDepth (← c.GetStencilDepth)
  let c1 ← c.AddEntity entity
  let c2 ← c1.setBack (fun e => { e with stencil_depth := e.stencil_depth + 1 })
  c2.setBack (fun e => { e with contains_clips := true })

/-- The clone `Canvas::DrawPicture` builds for a graph: every draw record of the
copy gets the stencil depth raised by `depth` and the transform multiplied from
the left by `t`. -/
def repositionedClone [Mul M] (graph : RenderGraph S M) (depth : Nat) (t : M) :
    RenderGraph S M :=
  graph.Clone.IterateAllEntities (fun entity =>
    let entity := entity.IncrementStencilDepth depth
    entity.SetTransformation (t * entity.GetTransformation))

/-- Embedding of `Canvas::DrawPicture`: the clone is a local of the function and is dropped
at the `return`; the visitor reads `back()` only when the clone has a draw
record. -/
def Canvas.DrawPicture [Mul M] (c : Canvas S M) (picture : Picture S M) :
    Option (Canvas S M) :=
  match picture.pass with
  | none => some c
  | some graph =>
    if graph.Clone.allEntities.isEmpty then some c
    else do
      let depth ← c.GetStencilDepth
      let t ← c.GetCurrentTransformation
      let _pass := repositionedClone graph depth t
      some c

/-- Embedding of `Canvas::DrawImageRect`; `none` as image is the null pointer. -/
def Canvas.DrawImageRect [One M] [ScalarOps S] (c : Canvas S M) (image : Option Image)
    (source dest : Rect S) (paint : Paint S M) (sampler : SamplerDescriptor) :
    Option (Canvas S M) :=
  match image with
  | none => some c
  | some img =>
    if source.size.IsEmpty || dest.size.IsEmpty then some c
    else
      let size := img.GetSize
      if size.IsEmpty S then some c
      else do
        let contents : Contents S M :=
          Contents.texture dest img.GetTexture source sampler paint.color.alpha
        let entity : Entity S M := Entity.new
        let entity := entity.SetBlendMode paint.blend_mode
        let entity := entity.SetStencilDepth (← c.GetStencilDepth)
        let entity := entity.SetContents (← paint.WithFilters contents (some false) 1)
        let entity := entity.SetTransformation (← c.GetCurrentTransformation)
        c.AddEntity entity

/-- Embedding of `Canvas::DrawImage`. -/
def Canvas.DrawImage [One M] [ScalarOps S] (c : Canvas S M) (image : Option Image)
    (offset : Point S) (paint : Paint S M) (sampler : SamplerDescriptor) :
    Option (Canvas S M) :=
  match image with
  | none => some c
  | some img =>
    let source : Rect S := Rect.MakeSize img.GetSize
    let dest : Rect S :=
      Rect.MakeXYWH offset.x offset.y source.size.width source.size.height
    c.DrawImageRect image source dest paint sampler

/-- Embedding of `Canvas::EndRecordingAsPicture`. -/
def Canvas.EndRecordingAsPicture [One M] (c : Canvas S M) :
    Option (Picture S M × Canvas S M) :=
  let picture : Picture S M := { pass := c.base_pass_ }
  let c : Canvas S M := { c with base_pass_ := none }
  let c := c.Reset
  match c.Initialize with
  | none => none
  | some c1 => some (picture, c1)

/-- Embedding of `Canvas::SaveLayer`. -/
def Canvas.SaveLayer [One M] (c : Canvas S M) (paint : Paint S M)
    (bounds : Option (Rect S)) (backdrop_filter : Option (ImageFilterProc S M)) :
    Option (Canvas S M) := do
  let c1 ← c.SaveWith true paint.blend_mode backdrop_filter
  let c2 ← c1.writeCurrentPass
    (fun p => p.SetDelegate { paint := paint, coverage := bounds })
  match bounds with
  | some b =>
    if backdrop_filter.isSome then some c2
    else c2.ClipPath (Path.rect b) ClipOperation.kIntersect
  | none => some c2

/-- Embedding of `Canvas::DrawTextFrame`. -/
def Canvas.DrawTextFrame [One M] [Mul M] [ScalarOps S] [MatrixOps S M] (c : Canvas S M)
    (text_frame : TextFrame) (position : Point S) (paint : Paint S M) :
    Option (Canvas S M) := do
  let pass ← c.GetCurrentPass
  let lazy_glyph_atlas : LazyGlyphAtlas := { pass := pass }
  let c1 ← c.writeCurrentPass (fun p => p.AddTextFrame text_frame)
  let text_contents : Contents S M :=
    Contents.text text_frame lazy_glyph_atlas paint.color
  let entity : Entity S M := Entity.new
  let entity := entity.SetTransformation
    ((← c1.GetCurrentTransformation) * MatrixOps.MakeTranslation position.toVector3)
  let entity := entity.SetStencilDepth (← c1.GetStencilDepth)
  let entity := entity.SetBlendMode paint.blend_mode
  let entity := entity.SetContents (← paint.WithFilters text_contents (some true) 1)
  c1.AddEntity entity

/-- Embedding of `Canvas::DrawVertices`. -/
def Canvas.DrawVertices [One M] (c : Canvas S M) (vertices : VerticesGeometry)
    (blend_mode : BlendMode) (paint : Paint S M) : Option (Canvas S M) := do
  let entity : Entity S M := Entity.new
  let entity := entity.SetTransformation (← c.GetCurrentTransformation)
  let entity := entity.SetStencilDepth (← c.GetStencilDepth)
  let entity := entity.SetBlendMode paint.blend_mode
  let wrapped ←
    match paint.color_source with
    | some source => do
      let factory ← source.call
      let contents := factory ()
      let contents := contents.SetGeometry (Geometry.vertices vertices)
      let contents := contents.SetAlpha paint.color.alpha
      paint.WithFilters (Contents.colorSource contents) (some true) 1
    | none =>
      let contents : Contents S M :=
        Contents.vertices paint.color blend_mode (Geometry.vertices vertices)
      paint.WithFilters contents (some true) 1
  let entity := entity.SetContents wrapped
  c.AddEntity entity

/-- Embedding of `Canvas::DrawAtlas`; `none` as atlas is the null pointer. -/
def Canvas.DrawAtlas [One M] [ScalarOps S] (c : Canvas S M) (atlas : Option Image)
    (transforms : List M) (texture_coordinates : List (Rect S))
    (colors : List (Color S)) (blend_mode : BlendMode) (sampler : SamplerDescriptor)
    (cull_rect : Option (Rect S)) (paint : Paint S M) : Option (Canvas S M) :=
  match atlas with
  | none => some c
  | some img =>
    let size := img.GetSize
    if size.IsEmpty S then some c
    else do
      let contents : Contents S M :=
        Contents.atlas colors transforms texture_coordinates img.GetTexture sampler
          blend_mode cull_rect paint.color.alpha
      let entity : Entity S M := Entity.new
      let entity := entity.SetTransformation (← c.GetCurrentTransformation)
      let entity := entity.SetStencilDepth (← c.GetStencilDepth)
      let entity := entity.SetBlendMode paint.blend_mode
      let entity := entity.SetContents (← paint.WithFilters contents (some false) 1)
      c.AddEntity entity

end CanvasOps

/-! ## The public operations as a step function -/

/-- One call of a state-changing method of `Canvas`, with its arguments. -/
inductive Op (S M : Type) where
  | Save
  | SaveWith (create_subpass : Bool) (blend_mode : BlendMode)
      (backdrop_filter : Option (ImageFilterProc S M))
  | Restore
  | RestoreToCount (count : Nat)
  | Concat (xformation : M)
  | PreConcat (xformation : M)
  | ResetTransform
  | Transform (xformation : M)
  | Translate (offset : Vector3 S)
  | Scale (scale : Vector2 S)
  | Scale3 (scale : Vector3 S)
  | Skew (sx sy : S)
  | Rotate (radians : Radians S)
  | DrawPath (path : Path S) (paint : Paint S M)
  | DrawPaint (paint : Paint S M)
  | DrawRect (rect : Rect S) (paint : Paint S M)
  | DrawRRect (rect : Rect S) (corner_radius : S) (paint : Paint S M)
  | DrawCircle (center : Point S) (radius : S) (paint : Paint S M)
  | ClipPath (path : Path S) (clip_op : ClipOperation)
  | DrawPicture (picture : Picture S M)
  | DrawImage (image : Option Image) (offset : Point S) (paint : Paint S M)
      (sampler : SamplerDescriptor)
  | DrawImageRect (image : Option Image) (source dest : Rect S) (paint : Paint S M)
      (sampler : SamplerDescriptor)
  | EndRecordingAsPicture
  | SaveLayer (paint : Paint S M) (bounds : Option (Rect S))
      (backdrop_filter : Option (ImageFilterProc S M))
  | DrawTextFrame (text_frame : TextFrame) (position : Point S) (paint : Paint S M)
  | DrawVertices (vertices : VerticesGeometry) (blend_mode : BlendMode)
      (paint : Paint S M)
  | DrawAtlas (atlas : Option Image) (transforms : List M)
      (texture_coordinates : List (Rect S)) (colors : List (Color S))
      (blend_mode : BlendMode) (sampler : SamplerDescriptor)
      (cull_rect : Option (Rect S)) (paint : Paint S M)

section Steps
variable {S M : Type} [One M] [Mul M] [ScalarOps S] [MatrixOps S M]

/-- The state after one call; a returned flag or picture is dropped. -/
def Canvas.apply (c : Canvas S M) : Op S M → Option (Canvas S M)
  | .Save => c.Save
  | .SaveWith create_subpass blend_mode backdrop_filter =>
    c.SaveWith create_subpass blend_mode backdrop_filter
  | .Restore => (c.Restore).map Prod.snd
  | .RestoreToCount count => c.RestoreToCount count
  | .Concat m => c.Concat m
  | .PreConcat m => c.PreConcat m
  | .ResetTransform => c.ResetTransform
  | .Transform m => c.Transform m
  | .Translate offset => c.Translate offset
  | .Scale scale => c.Scale scale
  | .Scale3 scale => c.Scale3 scale
  | .Skew sx sy => c.Skew sx sy
  | .Rotate radians => c.Rotate radians
  | .DrawPath path paint => c.DrawPath path paint
  | .DrawPaint paint => c.DrawPaint paint
  | .DrawRect rect paint => c.DrawRect rect paint
  | .DrawRRect rect corner_radius paint => c.DrawRRect rect corner_radius paint
  | .DrawCircle center radius paint => c.DrawCircle center radius paint
  | .ClipPath path clip_op => c.ClipPath path clip_op
  | .DrawPicture picture => c.DrawPicture picture
  | .DrawImage image offset paint sampler => c.DrawImage image offset paint sampler
  | .DrawImageRect image source dest paint sampler =>
    c.DrawImageRect image source dest paint sampler
  | .EndRecordingAsPicture => (c.EndRecordingAsPicture).map Prod.snd
  | .SaveLayer paint bounds backdrop_filter => c.SaveLayer paint bounds backdrop_filter
  | .DrawTextFrame text_frame position paint => c.DrawTextFrame text_frame position paint
  | .DrawVertices vertices blend_mode paint => c.DrawVertices vertices blend_mode paint
  | .DrawAtlas atlas transforms texture_coordinates colors blend_mode sampler cull_rect
      paint =>
    c.DrawAtlas atlas transforms texture_coordinates colors blend_mode sampler cull_rect
      paint

/-- The state after a sequence of calls, left to right. -/
def Canvas.run (c : Canvas S M) : List (Op S M) → Option (Canvas S M)
  | [] => some c
  | op :: ops =>
    match c.apply op with
    | none => none
    | some c1 => c1.run ops

/-- The states a `Canvas` can be in: the constructed one, and every state a
call that returns leads to from such a state. -/
inductive Reachable : Canvas S M → Prop where
  | create {c : Canvas S M} : Canvas.create = some c → Reachable c
  | step {c c1 : Canvas S M} (op : Op S M) :
      Reachable c → c.apply op = some c1 → Reachable c1

end Steps

/-! ## Predicates used in the statements -/

section Predicates
variable {S M : Type}

/-- The state `Canvas()` constructs. -/
def Canvas.fresh [One M] : Canvas S M :=
  { base_pass_ := some [EntityPass.new], current_pass_ := some 0,
    xformation_stack_ := [CanvasStackEntry.new] }

/-- The parent pointer of the pass `i` of a graph. -/
def RenderGraph.superpassOf (g : RenderGraph S M) (i : Nat) : Option Nat :=
  match g[i]? with
  | none => none
  | some p => p.GetSuperpass

/-- The pass `cur` and the stack fit together: walking the stack from the top,
every subpass entry is matched by one step from the pass to its parent, which
is a pass of the graph, and the walk ends at the root when the stack is used
up. -/
def Chain (g : RenderGraph S M) : Nat → List (CanvasStackEntry M) → Prop
  | cur, [] => cur = 0
  | cur, e :: rest =>
    match e.is_subpass with
    | true => ∃ parent, g.superpassOf cur = some parent ∧ parent < g.length ∧
        Chain g parent rest
    | false => Chain g cur rest

/-- The representation invariant of `Canvas`: `base_pass_` owns a graph,
`current_pass_` points to one of its passes, the stack is not empty, and stack
and pass fit together. -/
def Canvas.WF (c : Canvas S M) : Prop :=
  ∃ g cur, c.base_pass_ = some g ∧ c.current_pass_ = some cur ∧ cur < g.length ∧
    c.xformation_stack_ ≠ [] ∧ Chain g cur c.xformation_stack_

/-- The filter functions the paint holds have a target, and the invert filter
is present when `invert_colors` is set: `WithFilters` runs without a failed
call or check. -/
def Paint.FiltersCallable (p : Paint S M) : Bool :=
  !optionalEqNullptr p.image_filter && !optionalEqNullptr p.color_filter &&
    (!p.invert_colors ||
      (p.invert_color_filter.isSome && !optionalEqNullptr p.invert_color_filter))

/-- The color source, if present, has a target as well: the paint can go
through `CreateContentsForGeometry` and `WithFilters` without a failed call or
check. -/
def Paint.Callable (p : Paint S M) : Bool :=
  !optionalEqNullptr p.color_source && p.FiltersCallable

/-- The state after `k` calls of `Restore` in a row that all return true. -/
def Canvas.restoreTimes [One M] : Nat → Canvas S M → Option (Canvas S M)
  | 0, c => some c
  | k + 1, c =>
    match c.Restore with
    | some (true, c1) => Canvas.restoreTimes k c1
    | _ => none

/-- The paint of a drawing call, if the call invokes functions of a paint. -/
def Op.paint? : Op S M → Option (Paint S M)
  | .DrawPath _ paint => some paint
  | .DrawPaint paint => some paint
  | .DrawRect _ paint => some paint
  | .DrawRRect _ _ paint => some paint
  | .DrawCircle _ _ paint => some paint
  | .DrawImage _ _ paint _ => some paint
  | .DrawImageRect _ _ _ paint _ => some paint
  | .DrawTextFrame _ _ paint => some paint
  | .DrawVertices _ _ paint => some paint
  | .DrawAtlas _ _ _ _ _ _ _ paint => some paint
  | _ => none

/-- A call whose paint, if it invokes one, is callable. -/
def Op.Callable (op : Op S M) : Bool :=
  match op.paint? with
  | some paint => paint.Callable
  | none => true

/-- A drawing call. -/
def Op.IsDraw : Op S M → Bool
  | .DrawPath _ _ => true
  | .DrawPaint _ => true
  | .DrawRect _ _ => true
  | .DrawRRect _ _ _ => true
  | .DrawCircle _ _ _ => true
  | .DrawPicture _ => true
  | .DrawImage _ _ _ _ => true
  | .DrawImageRect _ _ _ _ _ => true
  | .DrawTextFrame _ _ _ => true
  | .DrawVertices _ _ _ => true
  | .DrawAtlas _ _ _ _ _ _ _ _ => true
  | _ => false

/-- A transform mutator. -/
def Op.IsTransform : Op S M → Bool
  | .Concat _ => true
  | .PreConcat _ => true
  | .ResetTransform => true
  | .Transform _ => true
  | .Translate _ => true
  | .Scale _ => true
  | .Scale3 _ => true
  | .Skew _ _ => true
  | .Rotate _ => true
  | _ => false

/-- A call that pushes a stack entry. -/
def Op.IsSave : Op S M → Bool
  | .Save => true
  | .SaveWith _ _ _ => true
  | .SaveLayer _ _ _ => true
  | _ => false

/-- The number of clips a call records at the current save level. -/
def Op.clips : Op S M → Nat
  | .ClipPath _ _ => 1
  | _ => 0

/-- A call that is a transform mutator, a `ClipPath` or a drawing call. -/
def Op.IsLocal (op : Op S M) : Bool :=
  op.IsDraw || op.IsTransform || op.clips == 1

/-- The call `Restore`. -/
def Op.IsRestore : Op S M → Bool
  | .Restore => true
  | _ => false

/-- The nesting level after a sequence of calls that starts at level `i`: a
save call opens a level and `Restore` closes one; transform mutators,
`ClipPath` and drawing calls keep the level. The result is `none` when a
`Restore` would close a level the sequence did not open, and for the other
calls. -/
def nesting : Nat → List (Op S M) → Option Nat
  | i, [] => some i
  | i, op :: ops =>
    if op.IsSave then nesting (i + 1) ops
    else if op.IsLocal then nesting i ops
    else if op.IsRestore then
      match i with
      | 0 => none
      | k + 1 => nesting k ops
    else none

/-- The stencil depths of a stack (top first) do not increase from the top to
the bottom: every entry is at least as deep as every entry below it. -/
def StencilMonotone (st : List (CanvasStackEntry M)) : Prop :=
  st.Pairwise (fun upper lower => lower.stencil_depth ≤ upper.stencil_depth)

/-- The sequence `ops` is balanced with `n` top-level clips: it consists of transform
mutators, `ClipPath`
calls, drawing calls and nested groups of a save call, a balanced sequence and
the matching `Restore`; `n` counts its `ClipPath` calls outside every nested
group. -/
inductive Balanced : List (Op S M) → Nat → Prop where
  | nil : Balanced [] 0
  | cons {op : Op S M} {ops : List (Op S M)} {n : Nat} :
      op.IsLocal = true → Balanced ops n → Balanced (op :: ops) (op.clips + n)
  | nest {opener : Op S M} {body rest : List (Op S M)} {m n : Nat} :
      opener.IsSave = true → Balanced body m → Balanced rest n →
      Balanced (opener :: (body ++ Op.Restore :: rest)) n

end Predicates

/-! ## A concrete instance of the parameters

Integer scalars and 2D affine maps with integer coefficients, on which the
definitions evaluate exactly. -/

/-- The affine map `(x, y) ↦ (a x + c y + tx, b x + d y + ty)`. -/
structure IntAffine where
  a : Int
  b : Int
  c : Int
  d : Int
  tx : Int
  ty : Int
deriving DecidableEq, Repr

/-- Composition of affine maps: `m * n` applies `n` first. -/
def IntAffine.mul (m n : IntAffine) : IntAffine :=
  { a := m.a * n.a + m.c * n.b, b := m.b * n.a + m.d * n.b,
    c := m.a * n.c + m.c * n.d, d := m.b * n.c + m.d * n.d,
    tx := m.a * n.tx + m.c * n.ty + m.tx, ty := m.b * n.tx + m.d * n.ty + m.ty }

/-- The identity map. -/
def IntAffine.identity : IntAffine :=
  { a := 1, b := 0, c := 0, d := 1, tx := 0, ty := 0 }

/-- The rotation by a number of quarter turns. -/
def IntAffine.quarterTurns (k : Int) : IntAffine :=
  if k % 4 = 0 then IntAffine.identity
  else if k % 4 = 1 then { a := 0, b := 1, c := -1, d := 0, tx := 0, ty := 0 }
  else if k % 4 = 2 then { a := -1, b := 0, c := 0, d := -1, tx := 0, ty := 0 }
  else { a := 0, b := -1, c := 1, d := 0, tx := 0, ty := 0 }

instance : Mul IntAffine := ⟨IntAffine.mul⟩

instance : One IntAffine := ⟨IntAffine.identity⟩

instance : ScalarOps Int where
  ofInt := id
  sub := fun x y => x - y
  mul := fun x y => x * y
  sizeIsEmpty := fun s => decide (s.width ≤ 0) || decide (s.height ≤ 0)
  isizeIsEmpty := fun s => decide (s.width ≤ 0) || decide (s.height ≤ 0)

instance : MatrixOps Int IntAffine where
  MakeTranslation := fun v => { a := 1, b := 0, c := 0, d := 1, tx := v.x, ty := v.y }
  MakeScale := fun v => { a := v.x, b := 0, c := 0, d := v.y, tx := 0, ty := 0 }
  MakeScale2 := fun v => { a := v.x, b := 0, c := 0, d := v.y, tx := 0, ty := 0 }
  MakeSkew := fun sx sy => { a := 1, b := sy, c := sx, d := 1, tx := 0, ty := 0 }
  MakeRotationZ := fun r => IntAffine.quarterTurns r.radians

/-- A paint with a flat black fill and no effect. -/
def samplePaint : Paint Int IntAffine :=
  { color := { red := 0, green := 0, blue := 0, alpha := 1 },
    color_source := none, color_source_type := ColorSourceType.kColor,
    stroke_width := 0, stroke_cap := { value := 0 }, stroke_join := { value := 0 },
    stroke_miter := 4, style := Style.kFill, blend_mode := BlendMode.kSourceOver,
    invert_colors := false, image_filter := none, color_filter := none,
    invert_color_filter := none, mask_blur_descriptor := none }

/-- A rectangle of size 4 by 3 at the origin. -/
def sampleRect : Rect Int :=
  { origin := { x := 0, y := 0 }, size := { width := 4, height := 3 } }

/-- A clip record of the sample recording: path 1, intersect, identity
transform, recorded at the given stencil depth. -/
def sampleClip (depth : Nat) : Entity Int IntAffine :=
  { xformation := 1, stencil_depth := depth, blend_mode := BlendMode.kSourceOver,
    contents := Contents.clip (Geometry.fillPath (Path.user 1)) ClipOperation.kIntersect }

/-- The calls of the sample recording: `Save`, three clips, a translation by
`(10, 20)`. -/
def sampleOps : List (Op Int IntAffine) :=
  [Op.Save,
   Op.ClipPath (Path.user 1) ClipOperation.kIntersect,
   Op.ClipPath (Path.user 1) ClipOperation.kIntersect,
   Op.ClipPath (Path.user 1) ClipOperation.kIntersect,
   Op.Translate { x := 10, y := 20, z := 0 }]

/-- The state of a new canvas after the sample recording: save count 2,
stencil depth 3, transform the translation by `(10, 20)`. -/
def sampleCanvas : Canvas Int IntAffine :=
  { base_pass_ := some
      [{ (EntityPass.new : EntityPass Int IntAffine) with
         elements_ := [Element.entity (sampleClip 0), Element.entity (sampleClip 1),
                       Element.entity (sampleClip 2)] }],
    current_pass_ := some 0,
    xformation_stack_ :=
      [{ xformation := { a := 1, b := 0, c := 0, d := 1, tx := 10, ty := 20 },
         stencil_depth := 3, is_subpass := false, contains_clips := true },
       CanvasStackEntry.new] }

/-- A body for a `Save`/`Restore` pair: a clip, a translation, a nested pair
with its own clip, and a drawing call. -/
def sampleBody : List (Op Int IntAffine) :=
  [Op.ClipPath (Path.user 1) ClipOperation.kIntersect,
   Op.Translate { x := 10, y := 20, z := 0 },
   Op.Save,
   Op.ClipPath (Path.user 2) ClipOperation.kIntersect,
   Op.Restore,
   Op.DrawPath (Path.user 3) samplePaint]

/-- A flat black fill of the sample rectangle, recorded with identity
transform at stencil depth 0. -/
def sampleFill : Entity Int IntAffine :=
  { xformation := 1, stencil_depth := 0, blend_mode := BlendMode.kSourceOver,
    contents := Contents.solidColor (Geometry.rect sampleRect) samplePaint.color }

/-- The render graph of the sample picture: one pass with one clip and one
fill, both recorded with identity transform at stencil depth 0. -/
def samplePictureGraph : RenderGraph Int IntAffine :=
  [{ (EntityPass.new : EntityPass Int IntAffine) with
     elements_ := [Element.entity (sampleClip 0), Element.entity sampleFill] }]

/-- A picture holding the sample graph. -/
def samplePicture : Picture Int IntAffine :=
  { pass := some samplePictureGraph }

/-! ## The effect chain as the spec words it -/

section EffectChainSpec
variable {S M : Type}

/-- The mask-blur stage in the spec's words: the input when no mask blur is
configured; otherwise the Gaussian blur of the input when the solid-color flag
is set and the border-mask blur of the input when it is not. -/
def maskBlurStage (p : Paint S M) (is_solid_color : Bool) (effect_transform : M)
    (input : Contents S M) : Contents S M :=
  match p.mask_blur_descriptor with
  | none => input
  | some d =>
    if is_solid_color then
      Contents.gaussianBlur input d.sigma d.sigma d.style TileMode.kDecal effect_transform
    else Contents.borderMaskBlur input d.sigma d.sigma d.style effect_transform

/-- The image-filter stage in the spec's words: the input when no image filter
is configured, otherwise what the filter function makes of the input. -/
def imageFilterStage (p : Paint S M) (effect_transform : M) (input : Contents S M) :
    Contents S M :=
  match p.image_filter with
  | some (StdFunction.target f) => f input effect_transform
  | _ => input

/-- A color-filter stage in the spec's words: the input when the filter is
absent, otherwise what the filter function makes of the input, told whether to
absorb opacity; a filter function that returns nothing leaves the null
drawable. -/
def colorFilterStage (filter : Option (ColorFilterProc S M)) (absorb_opacity : Bool)
    (input : Contents S M) : Contents S M :=
  match filter with
  | some (StdFunction.target f) =>
    match f input with
    | some out => Contents.colorFilter out.kind out.input absorb_opacity
    | none => Contents.null
  | _ => input

/-- The invert stage in the spec's words: the invert color filter when color
inversion is enabled, the input otherwise. -/
def invertStage (p : Paint S M) (absorb_opacity : Bool) (input : Contents S M) :
    Contents S M :=
  if p.invert_colors then colorFilterStage p.invert_color_filter absorb_opacity input
  else input

/-- The effect chain in the spec's words: mask blur innermost, then image
filter, then color filter, then invert outermost. -/
def effectChain (p : Paint S M) (is_solid_color absorb_opacity : Bool)
    (effect_transform : M) (input : Contents S M) : Contents S M :=
  invertStage p absorb_opacity
    (colorFilterStage p.color_filter absorb_opacity
      (imageFilterStage p effect_transform
        (maskBlurStage p is_solid_color effect_transform input)))

end EffectChainSpec

/-- A stroke paint with every effect configured: a mask blur of a style other
than normal, an image filter, a color filter, and color inversion with its
filter. -/
def sampleEffectPaint : Paint Int IntAffine :=
  { samplePaint with
    style := Style.kStroke,
    mask_blur_descriptor := some { style := BlurStyle.other 1, sigma := 3 },
    image_filter := some (StdFunction.target (fun input t => Contents.filter 1 input t)),
    color_filter := some (StdFunction.target
      (fun input => some { kind := 2, input := input, absorb_opacity := false })),
    invert_colors := true,
    invert_color_filter := some (StdFunction.target
      (fun input => some { kind := 3, input := input, absorb_opacity := false })) }

/-- A rectangle of size 0 by 3. -/
def sampleEmptyRect : Rect Int :=
  { origin := { x := 0, y := 0 }, size := { width := 0, height := 3 } }

/-- An image of size 8 by 8. -/
def sampleImage : Image :=
  { size := { width := 8, height := 8 }, texture := { id := 1 } }

/-- An image of size 0 by 8. -/
def sampleEmptyImage : Image :=
  { size := { width := 0, height := 8 }, texture := { id := 2 } }

section FastPath
variable {S M : Type}

/-- The paint passes both early returns of `Canvas::AttemptDrawBlurredRRect`:
the first test (color source compared with null, source type, style) and the
second (mask blur descriptor present and of normal style) are both false. -/
def Paint.TakesFastPath (p : Paint S M) : Bool :=
  !(optionalEqNullptr p.color_source ||
      p.color_source_type != ColorSourceType.kColor ||
      p.style != Style.kFill) &&
    (match p.mask_blur_descriptor with
     | none => false
     | some descriptor => !(descriptor.style != BlurStyle.kNormal))

/-- A drawing call that records: one of `DrawPath`, `DrawPaint`, `DrawRect`,
`DrawRRect`, `DrawCircle`, `DrawTextFrame`, `DrawVertices`, or `DrawImage`,
`DrawImageRect`, `DrawAtlas` with an input that passes the emptiness tests of
the method. -/
def Op.Records [ScalarOps S] : Op S M → Bool
  | .DrawPath _ _ => true
  | .DrawPaint _ => true
  | .DrawRect _ _ => true
  | .DrawRRect _ _ _ => true
  | .DrawCircle _ _ _ => true
  | .DrawTextFrame _ _ _ => true
  | .DrawVertices _ _ _ => true
  | .DrawImage image _ _ _ =>
    match image with
    | none => false
    | some img =>
      !((Rect.MakeSize img.GetSize : Rect S).size.IsEmpty) && !(img.GetSize.IsEmpty S)
  | .DrawImageRect image source dest _ _ =>
    match image with
    | none => false
    | some img => !source.size.IsEmpty && !dest.size.IsEmpty && !(img.GetSize.IsEmpty S)
  | .DrawAtlas atlas _ _ _ _ _ _ _ =>
    match atlas with
    | none => false
    | some img => !(img.GetSize.IsEmpty S)
  | _ => false

/-- The position argument of `DrawTextFrame`. -/
def Op.textPosition? : Op S M → Option (Point S)
  | .DrawTextFrame _ position _ => some position
  | _ => none

end FastPath

section GraphDepth
variable {S M : Type}

/-- Modelled from the spec: the pass reached from the pass `i` by `k` calls of
`GetSuperpass`, if every one of them returns a parent. -/
def RenderGraph.ancestor (g : RenderGraph S M) : Nat → Nat → Option Nat
  | 0, i => some i
  | k + 1, i =>
    match g.superpassOf i with
    | none => none
    | some parent => RenderGraph.ancestor g k parent

/-- The number of entries of a stack that are marked `is_subpass`. -/
def subpassEntries (st : List (CanvasStackEntry M)) : Nat :=
  st.countP (fun e => e.is_subpass)

/-- The last record of the current pass, if there is one. -/
def Canvas.lastRecord? (c : Canvas S M) : Option (Entity S M) :=
  match c.readCurrentPass with
  | none => none
  | some p => p.entities.getLast?

end GraphDepth

/-- The translation by `(10, 20)`, the current transform of the sample canvas. -/
def sampleTranslation : IntAffine :=
  { a := 1, b := 0, c := 0, d := 1, tx := 10, ty := 20 }

/-- The state of the sample canvas after `SaveLayer(samplePaint, sampleRect)`
without backdrop filter: a second pass, child of the root, is current and holds
the bounds clip; save count 3, stencil depth 4. -/
def sampleLayerCanvas : Canvas Int IntAffine :=
  { base_pass_ := some
      [{ (EntityPass.new : EntityPass Int IntAffine) with
         elements_ := [Element.entity (sampleClip 0), Element.entity (sampleClip 1),
                       Element.entity (sampleClip 2), Element.subpass 1] },
       { elements_ := [Element.entity
           { xformation := sampleTranslation, stencil_depth := 3,
             blend_mode := BlendMode.kSourceOver,
             contents := Contents.clip (Geometry.fillPath (Path.rect sampleRect))
               ClipOperation.kIntersect }],
         superpass_ := some 0, xformation_ := sampleTranslation, stencil_depth_ := 3,
         blend_mode_ := BlendMode.kSourceOver, backdrop_filter_proc_ := none,
         delegate_ := some { paint := samplePaint, coverage := some sampleRect },
         lazy_glyph_atlas_ := [] }],
    current_pass_ := some 1,
    xformation_stack_ :=
      [{ xformation := sampleTranslation, stencil_depth := 4, is_subpass := true,
         contains_clips := true },
       { xformation := sampleTranslation, stencil_depth := 3, is_subpass := false,
         contains_clips := true },
       CanvasStackEntry.new] }

/-- The calls that lead from a new canvas to the sample layer canvas. -/
def sampleLayerOps : List (Op Int IntAffine) :=
  sampleOps ++ [Op.SaveLayer samplePaint (some sampleRect) none]

/-! ## Clips and save levels along a sequence of calls -/

section ClipLevels
variable {S M : Type}

/-- The stencil depth of the bottom entry of a stack, the entry `Initialize`
pushed; the stack is kept top first, so this is its last element. -/
def bottomDepth (st : List (CanvasStackEntry M)) : Option Nat :=
  st.getLast?.map (fun e => e.stencil_depth)

/-- The clips a call records on the entry that is on top when it returns: one
for `ClipPath`, one for `SaveLayer` with bounds and without backdrop filter (its
bounds clip), none for every other call. -/
def Op.depthClips : Op S M → Nat
  | .ClipPath _ _ => 1
  | .SaveLayer _ bounds backdrop_filter =>
    match bounds with
    | some _ => if backdrop_filter.isSome then 0 else 1
    | none => 0
  | _ => 0

/-- The save count after a call, computed from the call and the save count
before it: a save call adds one, `Restore` takes one off above 1,
`RestoreToCount(count)` goes down to `max count 1` from above `count`,
`EndRecordingAsPicture` starts over at 1, every other call keeps it. -/
def Op.levelAfter : Op S M → Nat → Nat
  | .Save, level => level + 1
  | .SaveWith _ _ _, level => level + 1
  | .SaveLayer _ _ _, level => level + 1
  | .Restore, level => if level ≤ 1 then level else level - 1
  | .RestoreToCount count, level => if level ≤ count then level else max count 1
  | .EndRecordingAsPicture, _ => 1
  | _, level => level

/-- The number of base-level clips after a call, computed from the call, the
save count before it and the number before it: `ClipPath` at save count 1 adds
one, `EndRecordingAsPicture` starts over at 0, every other call keeps it. -/
def Op.baseClipsAfter : Op S M → Nat → Nat → Nat
  | .ClipPath _ _, level, n => if level = 1 then n + 1 else n
  | .EndRecordingAsPicture, _, _ => 0
  | _, _, n => n

/-- The save count after a sequence of calls that starts at save count
`level`. -/
def saveLevel : List (Op S M) → Nat → Nat
  | [], level => level
  | op :: ops, level => saveLevel ops (op.levelAfter level)

/-- The number of `ClipPath` calls a sequence of calls makes at save count 1
(since the last `EndRecordingAsPicture`), for a sequence that starts at save
count `level` with `n` such calls made before. -/
def baseClips : List (Op S M) → Nat → Nat → Nat
  | [], _, n => n
  | op :: ops, level, n => baseClips ops (op.levelAfter level) (op.baseClipsAfter level n)

end ClipLevels

/-- Two `ClipPath` calls, the recording that leads to the sample base
canvas. -/
def sampleBaseOps : List (Op Int IntAffine) :=
  [Op.ClipPath (Path.user 1) ClipOperation.kIntersect,
   Op.ClipPath (Path.user 1) ClipOperation.kIntersect]

/-- The state of a new canvas after two `ClipPath` calls: save count 1,
stencil depth 2, and `contains_clips` set on the only entry. -/
def sampleBaseCanvas : Canvas Int IntAffine :=
  { base_pass_ := some
      [{ (EntityPass.new : EntityPass Int IntAffine) with
         elements_ := [Element.entity (sampleClip 0), Element.entity (sampleClip 1)] }],
    current_pass_ := some 0,
    xformation_stack_ :=
      [{ xformation := 1, stencil_depth := 2, is_subpass := false, contains_clips := true }] }

/-- A body for a save level: two clips with a drawing call between them. -/
def sampleClipBody : List (Op Int IntAffine) :=
  [Op.ClipPath (Path.user 2) ClipOperation.kIntersect,
   Op.DrawPath (Path.user 3) samplePaint,
   Op.ClipPath (Path.user 4) ClipOperation.kDifference]

/-- The recording that leads to the sample nested canvas: two clips at the
base level, a `Save`, one clip inside it. -/
def sampleNestedOps : List (Op Int IntAffine) :=
  sampleBaseOps ++ [Op.Save, Op.ClipPath (Path.user 1) ClipOperation.kIntersect]

/-- The state of a new canvas after the sample nested recording: save count
2, stencil depth 2 on the bottom entry and 3 on the top entry. -/
def sampleNestedCanvas : Canvas Int IntAffine :=
  { base_pass_ := some
      [{ (EntityPass.new : EntityPass Int IntAffine) with
         elements_ := [Element.entity (sampleClip 0), Element.entity (sampleClip 1),
                       Element.entity (sampleClip 2)] }],
    current_pass_ := some 0,
    xformation_stack_ :=
      [{ xformation := 1, stencil_depth := 3, is_subpass := false, contains_clips := true },
       { xformation := 1, stencil_depth := 2, is_subpass := false, contains_clips := true }] }

set_option linter.unusedSectionVars false

/-! ## Lemmas on the render graph and the invariant -/

section GraphLemmas
variable {S M : Type}

theorem update_eq_some (g g1 : RenderGraph S M) (i : Nat)
    (f : EntityPass S M → EntityPass S M) (h : g.update i f = some g1) :
    ∃ p, g[i]? = some p ∧ g1 = g.set i (f p) := by
  unfold RenderGraph.update at h
  split at h
  · exact absurd h (by simp)
  · next p hp => exact ⟨p, hp, by simpa using h.symm⟩

theorem update_of_getElem (g : RenderGraph S M) (i : Nat) (p : EntityPass S M)
    (f : EntityPass S M → EntityPass S M) (h : g[i]? = some p) :
    g.update i f = some (g.set i (f p)) := by
  simp [RenderGraph.update, h]

theorem getElem?_of_lt (g : RenderGraph S M) (i : Nat) (h : i < g.length) :
    ∃ p, g[i]? = some p :=
  ⟨g[i], List.getElem?_eq_getElem h⟩

theorem lt_of_getElem? (g : RenderGraph S M) (i : Nat) (p : EntityPass S M)
    (h : g[i]? = some p) : i < g.length := by
  by_contra hn
  rw [List.getElem?_eq_none (by omega)] at h
  exact absurd h (by simp)

theorem superpassOf_set (g : RenderGraph S M) (i j : Nat) (p q : EntityPass S M)
    (hp : g[i]? = some p) (hq : q.superpass_ = p.superpass_) :
    RenderGraph.superpassOf (g.set i q) j = RenderGraph.superpassOf g j := by
  unfold RenderGraph.superpassOf
  by_cases hij : i = j
  · subst hij
    have hlt := lt_of_getElem? g i p hp
    simp [List.getElem?_set, hlt, hp, EntityPass.GetSuperpass, hq]
  · simp [List.getElem?_set, hij]

theorem superpassOf_append (g : RenderGraph S M) (x : EntityPass S M) (j : Nat)
    (hj : j < g.length) :
    RenderGraph.superpassOf (g ++ [x]) j = RenderGraph.superpassOf g j := by
  unfold RenderGraph.superpassOf
  rw [List.getElem?_append_left hj]

theorem superpassOf_lt (g : RenderGraph S M) (i par : Nat)
    (h : g.superpassOf i = some par) : i < g.length := by
  unfold RenderGraph.superpassOf at h
  split at h
  · exact absurd h (by simp)
  · next p hp => exact lt_of_getElem? g i p hp

theorem Chain_mono (g g1 : RenderGraph S M) (hlen : g.length ≤ g1.length)
    (hsup : ∀ i, i < g.length → g1.superpassOf i = g.superpassOf i) :
    ∀ (st : List (CanvasStackEntry M)) (cur : Nat), Chain g cur st → Chain g1 cur st := by
  intro st
  induction st with
  | nil => intro cur h; simpa [Chain] using h
  | cons e rest ih =>
    intro cur h
    cases hs : e.is_subpass
    · simp only [Chain, hs] at h ⊢
      exact ih cur h
    · simp only [Chain, hs] at h ⊢
      obtain ⟨parent, hpar, hlt, hrest⟩ := h
      refine ⟨parent, ?_, by omega, ih parent hrest⟩
      rw [hsup cur (superpassOf_lt g cur parent hpar)]
      exact hpar

theorem Chain_set (g : RenderGraph S M) (i : Nat) (p q : EntityPass S M)
    (hp : g[i]? = some p) (hq : q.superpass_ = p.superpass_)
    (st : List (CanvasStackEntry M)) (cur : Nat) (h : Chain g cur st) :
    Chain (g.set i q) cur st :=
  Chain_mono g (g.set i q) (by simp) (fun j _ => superpassOf_set g i j p q hp hq) st cur h

end GraphLemmas

/-! ## Lemmas on the primitive accesses of `Canvas` -/

section CanvasLemmas
variable {S M : Type}

theorem WF_destruct {c : Canvas S M} (h : c.WF) :
    ∃ g cur top rest p, c = ⟨some g, some cur, top :: rest⟩ ∧ g[cur]? = some p ∧
      Chain g cur (top :: rest) := by
  obtain ⟨g, cur, hg, hc, hlt, hne, hch⟩ := h
  obtain ⟨p, hp⟩ := getElem?_of_lt g cur hlt
  cases c with
  | mk b cp st =>
    simp only at hg hc hne hch
    subst hg hc
    cases st with
    | nil => exact absurd rfl hne
    | cons top rest => exact ⟨g, cur, top, rest, p, rfl, hp, hch⟩

theorem WF_intro {g : RenderGraph S M} {cur : Nat} {top : CanvasStackEntry M}
    {rest : List (CanvasStackEntry M)} {p : EntityPass S M} (hp : g[cur]? = some p)
    (hch : Chain g cur (top :: rest)) :
    Canvas.WF (⟨some g, some cur, top :: rest⟩ : Canvas S M) :=
  ⟨g, cur, rfl, rfl, lt_of_getElem? g cur p hp, by simp, hch⟩

theorem WF_intro_lt {g : RenderGraph S M} {cur : Nat} {top : CanvasStackEntry M}
    {rest : List (CanvasStackEntry M)} (hlt : cur < g.length)
    (hch : Chain g cur (top :: rest)) :
    Canvas.WF (⟨some g, some cur, top :: rest⟩ : Canvas S M) :=
  ⟨g, cur, rfl, rfl, hlt, by simp, hch⟩

@[simp]
theorem GetCurrentTransformation_mk (b : Option (RenderGraph S M)) (cp : Option Nat)
    (top : CanvasStackEntry M) (rest : List (CanvasStackEntry M)) :
    Canvas.GetCurrentTransformation (⟨b, cp, top :: rest⟩ : Canvas S M) =
      some top.xformation := rfl

@[simp]
theorem GetStencilDepth_mk (b : Option (RenderGraph S M)) (cp : Option Nat)
    (top : CanvasStackEntry M) (rest : List (CanvasStackEntry M)) :
    Canvas.GetStencilDepth (⟨b, cp, top :: rest⟩ : Canvas S M) =
      some top.stencil_depth := rfl

@[simp]
theorem setBack_mk (b : Option (RenderGraph S M)) (cp : Option Nat)
    (top : CanvasStackEntry M) (rest : List (CanvasStackEntry M))
    (f : CanvasStackEntry M → CanvasStackEntry M) :
    Canvas.setBack (⟨b, cp, top :: rest⟩ : Canvas S M) f =
      some ⟨b, cp, f top :: rest⟩ := rfl

@[simp]
theorem GetSaveCount_mk (b : Option (RenderGraph S M)) (cp : Option Nat)
    (st : List (CanvasStackEntry M)) :
    Canvas.GetSaveCount (⟨b, cp, st⟩ : Canvas S M) = st.length := rfl

theorem writeCurrentPass_mk {g : RenderGraph S M} {cur : Nat} {p : EntityPass S M}
    (st : List (CanvasStackEntry M)) (f : EntityPass S M → EntityPass S M)
    (hp : g[cur]? = some p) :
    Canvas.writeCurrentPass (⟨some g, some cur, st⟩ : Canvas S M) f =
      some ⟨some (g.set cur (f p)), some cur, st⟩ := by
  simp [Canvas.writeCurrentPass, Canvas.GetCurrentPass, RenderGraph.update, hp]

theorem AddEntity_mk {g : RenderGraph S M} {cur : Nat} {p : EntityPass S M}
    (st : List (CanvasStackEntry M)) (e : Entity S M) (hp : g[cur]? = some p) :
    Canvas.AddEntity (⟨some g, some cur, st⟩ : Canvas S M) e =
      some ⟨some (g.set cur (p.AddEntity e)), some cur, st⟩ :=
  writeCurrentPass_mk st _ hp

theorem readCurrentPass_mk {g : RenderGraph S M} {cur : Nat}
    (st : List (CanvasStackEntry M)) :
    Canvas.readCurrentPass (⟨some g, some cur, st⟩ : Canvas S M) = g[cur]? := rfl

theorem writeCurrentPass_eq_some {c c1 : Canvas S M} {f : EntityPass S M → EntityPass S M}
    (h : c.writeCurrentPass f = some c1) :
    ∃ g cur p, c.base_pass_ = some g ∧ c.current_pass_ = some cur ∧ g[cur]? = some p ∧
      c1 = ⟨some (g.set cur (f p)), some cur, c.xformation_stack_⟩ := by
  cases c with
  | mk b cp st =>
    cases b with
    | none => cases cp <;> simp [Canvas.writeCurrentPass, Canvas.GetCurrentPass] at h
    | some g =>
      cases cp with
      | none => simp [Canvas.writeCurrentPass, Canvas.GetCurrentPass] at h
      | some cur =>
        cases hp : g[cur]? with
        | none => simp [Canvas.writeCurrentPass, Canvas.GetCurrentPass, RenderGraph.update, hp] at h
        | some p =>
          rw [writeCurrentPass_mk st f hp] at h
          exact ⟨g, cur, p, rfl, rfl, hp, by simpa using h.symm⟩

theorem writeCurrentPass_stack {c c1 : Canvas S M} {f : EntityPass S M → EntityPass S M}
    (h : c.writeCurrentPass f = some c1) :
    c1.xformation_stack_ = c.xformation_stack_ ∧ c1.current_pass_ = c.current_pass_ := by
  obtain ⟨g, cur, p, _, hc, _, rfl⟩ := writeCurrentPass_eq_some h
  exact ⟨rfl, hc.symm⟩

theorem writeCurrentPass_WF {c c1 : Canvas S M} {f : EntityPass S M → EntityPass S M}
    (hf : ∀ p, (f p).superpass_ = p.superpass_) (hwf : c.WF)
    (h : c.writeCurrentPass f = some c1) : c1.WF := by
  obtain ⟨g, cur, top, rest, p, rfl, hp, hch⟩ := (WF_destruct hwf)
  rw [writeCurrentPass_mk _ f hp] at h
  cases h
  have hlt := lt_of_getElem? g cur p hp
  exact WF_intro (p := f p) (by simp [List.getElem?_set, hlt])
    (Chain_set g cur p (f p) hp (hf p) _ cur hch)

theorem writeCurrentPass_progress {c : Canvas S M} (f : EntityPass S M → EntityPass S M)
    (hwf : c.WF) : ∃ c1, c.writeCurrentPass f = some c1 := by
  obtain ⟨g, cur, top, rest, p, rfl, hp, _⟩ := (WF_destruct hwf)
  exact ⟨_, writeCurrentPass_mk _ f hp⟩

theorem writeCurrentPass_comp {c c1 c2 : Canvas S M} {f f1 : EntityPass S M → EntityPass S M}
    (h : c.writeCurrentPass f = some c1) (h1 : c1.writeCurrentPass f1 = some c2) :
    c.writeCurrentPass (fun p => f1 (f p)) = some c2 := by
  obtain ⟨g, cur, p, hg, hc, hp, rfl⟩ := writeCurrentPass_eq_some h
  cases c with
  | mk b cp st =>
    simp only at hg hc
    subst hg hc
    have hlt := lt_of_getElem? g cur p hp
    rw [writeCurrentPass_mk (p := f p) _ f1 (by simp [List.getElem?_set, hlt])] at h1
    rw [writeCurrentPass_mk _ _ hp, ← h1]
    simp

theorem Chain_top_congr (g : RenderGraph S M) (cur : Nat) (e e1 : CanvasStackEntry M)
    (rest : List (CanvasStackEntry M)) (he : e1.is_subpass = e.is_subpass)
    (h : Chain g cur (e :: rest)) : Chain g cur (e1 :: rest) := by
  cases hs : e.is_subpass
  · simp only [Chain, hs, he] at h ⊢; exact h
  · simp only [Chain, hs, he] at h ⊢; exact h

theorem setBack_eq_some {c c1 : Canvas S M} {f : CanvasStackEntry M → CanvasStackEntry M}
    (h : c.setBack f = some c1) :
    ∃ top rest, c.xformation_stack_ = top :: rest ∧
      c1 = ⟨c.base_pass_, c.current_pass_, f top :: rest⟩ := by
  cases c with
  | mk b cp st =>
    cases st with
    | nil => simp [Canvas.setBack] at h
    | cons top rest =>
      rw [setBack_mk] at h
      exact ⟨top, rest, rfl, by simpa using h.symm⟩

theorem setBack_WF {c c1 : Canvas S M} {f : CanvasStackEntry M → CanvasStackEntry M}
    (hf : ∀ e, (f e).is_subpass = e.is_subpass) (hwf : c.WF)
    (h : c.setBack f = some c1) : c1.WF := by
  obtain ⟨g, cur, top, rest, p, rfl, hp, hch⟩ := (WF_destruct hwf)
  rw [setBack_mk] at h
  cases h
  exact WF_intro hp (Chain_top_congr g cur top (f top) rest (hf top) hch)

end CanvasLemmas

/-! ## Lemmas on the effect pipeline -/

section PaintLemmas
variable {S M : Type}

theorem optionalEqNullptr_false {α : Type} {o : Option (StdFunction α)}
    (h : optionalEqNullptr o = false) : o = none ∨ ∃ f, o = some (StdFunction.target f) := by
  cases o with
  | none => exact Or.inl rfl
  | some fn =>
    cases fn with
    | empty => simp [optionalEqNullptr, StdFunction.isNull] at h
    | target f => exact Or.inr ⟨f, rfl⟩

theorem FiltersCallable_parts {p : Paint S M} (h : p.FiltersCallable = true) :
    optionalEqNullptr p.image_filter = false ∧ optionalEqNullptr p.color_filter = false ∧
      (p.invert_colors = true →
        p.invert_color_filter.isSome = true ∧
          optionalEqNullptr p.invert_color_filter = false) := by
  simp only [Paint.FiltersCallable, Bool.and_eq_true, Bool.not_eq_true', Bool.or_eq_true] at h
  obtain ⟨⟨h2, h3⟩, h4⟩ := h
  refine ⟨h2, h3, fun hi => ?_⟩
  rcases h4 with h4 | h4
  · rw [hi] at h4; exact absurd h4 (by simp)
  · exact h4

theorem Callable_source {p : Paint S M} (h : p.Callable = true) :
    optionalEqNullptr p.color_source = false := by
  simp only [Paint.Callable, Bool.and_eq_true, Bool.not_eq_true'] at h
  exact h.1

theorem Callable_filters {p : Paint S M} (h : p.Callable = true) :
    p.FiltersCallable = true := by
  simp only [Paint.Callable, Bool.and_eq_true] at h
  exact h.2

theorem CreateContentsForGeometry_isSome {p : Paint S M} (h : p.Callable = true)
    (geometry : Geometry S) : ∃ k, p.CreateContentsForGeometry geometry = some k := by
  rcases optionalEqNullptr_false (Callable_source h) with hs | ⟨f, hs⟩
  · simp [Paint.CreateContentsForGeometry, hs]
  · simp [Paint.CreateContentsForGeometry, hs, StdFunction.call]

theorem CreateContentsForEntity_isSome {p : Paint S M} (h : p.Callable = true)
    (path : Path S) (cover : Bool) : ∃ k, p.CreateContentsForEntity path cover = some k :=
  CreateContentsForGeometry_isSome h _

theorem WithImageFilter_isSome {p : Paint S M} (h : optionalEqNullptr p.image_filter = false)
    (input : Contents S M) (t : M) : ∃ w, p.WithImageFilter input t = some w := by
  rcases optionalEqNullptr_false h with hs | ⟨f, hs⟩
  · simp [Paint.WithImageFilter, hs]
  · simp [Paint.WithImageFilter, hs, StdFunction.call]

theorem WithColorFilter_isSome (p : Paint S M) {filter : Option (ColorFilterProc S M)}
    (h : optionalEqNullptr filter = false) (input : Contents S M) (b : Bool) :
    ∃ w, p.WithColorFilter input filter b = some w := by
  rcases optionalEqNullptr_false h with hs | ⟨f, hs⟩
  · simp [Paint.WithColorFilter, hs]
  · subst hs
    cases hf : f (FilterInput.Make input) with
    | none => simp [Paint.WithColorFilter, StdFunction.call, hf]
    | some k => simp [Paint.WithColorFilter, StdFunction.call, hf]

theorem WithFilters_isSome {p : Paint S M} (h : p.FiltersCallable = true)
    (input : Contents S M) (o : Option Bool) (t : M) :
    ∃ w, p.WithFilters input o t = some w := by
  obtain ⟨h2, h3, h4⟩ := FiltersCallable_parts h
  unfold Paint.WithFilters
  simp only
  obtain ⟨w1, hw1⟩ := WithImageFilter_isSome h2
    (p.WithMaskBlur input (o.getD (!p.color_source.isSome)) t) t
  rw [hw1]
  obtain ⟨w2, hw2⟩ := WithColorFilter_isSome p h3 w1 false
  simp only [hw2]
  cases hi : p.invert_colors
  · simp
  · obtain ⟨h5, h6⟩ := h4 hi
    obtain ⟨w3, hw3⟩ := WithColorFilter_isSome p h6 w2 false
    exact ⟨w3, by simp [h5, hw3]⟩

theorem FiltersCallable_clear_mask_blur {p : Paint S M} (h : p.FiltersCallable = true) :
    ({ p with mask_blur_descriptor := none } : Paint S M).FiltersCallable = true := by
  simpa [Paint.FiltersCallable] using h

end PaintLemmas

/-! ## Lemmas on the drawing calls -/

section DrawLemmas
variable {S M : Type} [One M] [Mul M] [ScalarOps S] [MatrixOps S M]

/-- What a drawing call can do to the state: nothing, or one write to the
current pass that leaves its parent pointer alone. -/
theorem AddEntity_effect {c c1 : Canvas S M} {e : Entity S M} (h : c.AddEntity e = some c1) :
    c1 = c ∨ ∃ f : EntityPass S M → EntityPass S M,
      (∀ p, (f p).superpass_ = p.superpass_) ∧ c.writeCurrentPass f = some c1 :=
  Or.inr ⟨fun p => p.AddEntity e, fun _ => rfl, h⟩

theorem AddEntity_progress {c : Canvas S M} (hwf : c.WF) (e : Entity S M) :
    ∃ c1, c.AddEntity e = some c1 :=
  writeCurrentPass_progress _ hwf

theorem AttemptDrawBlurredRRect_effect {c c1 : Canvas S M} {rect : Rect S} {r : S}
    {paint : Paint S M} {b : Bool}
    (h : c.AttemptDrawBlurredRRect rect r paint = some (b, c1)) :
    (b = false ∧ c1 = c) ∨ (b = true ∧ ∃ e, c.AddEntity e = some c1) := by
  unfold Canvas.AttemptDrawBlurredRRect at h
  split at h
  · simp only [Option.some.injEq, Prod.mk.injEq] at h
    exact Or.inl ⟨h.1.symm, h.2.symm⟩
  · split at h
    · simp only [Option.some.injEq, Prod.mk.injEq] at h
      exact Or.inl ⟨h.1.symm, h.2.symm⟩
    · split at h
      · simp only [Option.some.injEq, Prod.mk.injEq] at h
        exact Or.inl ⟨h.1.symm, h.2.symm⟩
      · simp only [bind, Option.bind_eq_some, Option.some.injEq, Prod.mk.injEq] at h
        obtain ⟨t, _, d, _, w, _, c2, hadd, hb, hc⟩ := h
        subst hc
        exact Or.inr ⟨hb.symm, _, hadd⟩

theorem AttemptDrawBlurredRRect_progress {c : Canvas S M} (hwf : c.WF) (rect : Rect S)
    (r : S) {paint : Paint S M} (hp : paint.FiltersCallable = true) :
    ∃ b c1, c.AttemptDrawBlurredRRect rect r paint = some (b, c1) := by
  obtain ⟨g, cur, top, rest, p, rfl, hpass, _⟩ := (WF_destruct hwf)
  unfold Canvas.AttemptDrawBlurredRRect
  split
  · exact ⟨_, _, rfl⟩
  · split
    · exact ⟨_, _, rfl⟩
    · split
      · exact ⟨_, _, rfl⟩
      · next d _ _ =>
        obtain ⟨w, hw⟩ := WithFilters_isSome (FiltersCallable_clear_mask_blur hp)
          (Contents.rrectShadow paint.color d.sigma rect r) none (1 : M)
        simp [bind, hw, AddEntity_mk _ _ hpass]

theorem DrawPath_effect {c c1 : Canvas S M} {path : Path S} {paint : Paint S M}
    (h : c.DrawPath path paint = some c1) : ∃ e, c.AddEntity e = some c1 := by
  simp only [Canvas.DrawPath, bind, Option.bind_eq_some] at h
  obtain ⟨t, _, d, _, k, _, w, _, h⟩ := h
  exact ⟨_, h⟩

theorem DrawPath_progress {c : Canvas S M} (hwf : c.WF) (path : Path S)
    {paint : Paint S M} (hp : paint.Callable = true) :
    ∃ c1, c.DrawPath path paint = some c1 := by
  obtain ⟨g, cur, top, rest, p, rfl, hpass, _⟩ := (WF_destruct hwf)
  obtain ⟨k, hk⟩ := CreateContentsForEntity_isSome hp path false
  obtain ⟨w, hw⟩ := WithFilters_isSome (Callable_filters hp) k none (1 : M)
  simp [Canvas.DrawPath, bind, hk, hw, AddEntity_mk _ _ hpass]

theorem DrawImageRect_effect {c c1 : Canvas S M} {image : Option Image} {source dest : Rect S}
    {paint : Paint S M} {sampler : SamplerDescriptor}
    (h : c.DrawImageRect image source dest paint sampler = some c1) :
    c1 = c ∨ ∃ e, c.AddEntity e = some c1 := by
  unfold Canvas.DrawImageRect at h
  split at h
  · exact Or.inl (by simpa using h.symm)
  · split at h
    · exact Or.inl (by simpa using h.symm)
    · simp only at h
      split at h
      · exact Or.inl (by simpa using h.symm)
      · simp only [bind, Option.bind_eq_some] at h
        obtain ⟨d, _, w, _, t, _, h⟩ := h
        exact Or.inr ⟨_, h⟩

theorem DrawImageRect_progress {c : Canvas S M} (hwf : c.WF) (image : Option Image)
    (source dest : Rect S) {paint : Paint S M} (hp : paint.Callable = true)
    (sampler : SamplerDescriptor) :
    ∃ c1, c.DrawImageRect image source dest paint sampler = some c1 := by
  obtain ⟨g, cur, top, rest, p, rfl, hpass, _⟩ := (WF_destruct hwf)
  unfold Canvas.DrawImageRect
  split
  · exact ⟨_, rfl⟩
  · split
    · exact ⟨_, rfl⟩
    · simp only
      split
      · exact ⟨_, rfl⟩
      · next img _ _ =>
        obtain ⟨w, hw⟩ := WithFilters_isSome (Callable_filters hp)
          (Contents.texture dest img.GetTexture source sampler paint.color.alpha)
          (some false) (1 : M)
        simp [bind, hw, AddEntity_mk _ _ hpass]

theorem effect_of_add {c c1 : Canvas S M} (h : ∃ e, c.AddEntity e = some c1) :
    c1 = c ∨ ∃ f : EntityPass S M → EntityPass S M,
      (∀ p, (f p).superpass_ = p.superpass_) ∧ c.writeCurrentPass f = some c1 := by
  obtain ⟨e, h⟩ := h
  exact AddEntity_effect h

theorem draw_effect {c c1 : Canvas S M} (op : Op S M) (hd : op.IsDraw = true)
    (h : c.apply op = some c1) :
    c1 = c ∨ ∃ f : EntityPass S M → EntityPass S M,
      (∀ p, (f p).superpass_ = p.superpass_) ∧ c.writeCurrentPass f = some c1 := by
  cases op <;> simp only [Op.IsDraw, Bool.false_eq_true] at hd <;>
    simp only [Canvas.apply] at h
  case DrawPath path paint => exact effect_of_add (DrawPath_effect h)
  case DrawPaint paint =>
    simp only [Canvas.DrawPaint, bind, Option.bind_eq_some] at h
    obtain ⟨t, _, d, _, k, _, h⟩ := h
    exact AddEntity_effect h
  case DrawRect rect paint =>
    unfold Canvas.DrawRect at h
    split at h
    · exact effect_of_add (DrawPath_effect h)
    · split at h
      · exact absurd h (by simp)
      · next c2 ha =>
        rcases AttemptDrawBlurredRRect_effect ha with ⟨hb, _⟩ | ⟨_, hadd⟩
        · exact absurd hb (by simp)
        · cases h; exact effect_of_add hadd
      · next c2 ha =>
        rcases AttemptDrawBlurredRRect_effect ha with ⟨_, hc⟩ | ⟨hb, _⟩
        · subst hc
          simp only [bind, Option.bind_eq_some] at h
          obtain ⟨t, _, d, _, k, _, w, _, h⟩ := h
          exact AddEntity_effect h
        · exact absurd hb (by simp)
  case DrawRRect rect r paint =>
    unfold Canvas.DrawRRect at h
    split at h
    · exact absurd h (by simp)
    · next c2 ha =>
      rcases AttemptDrawBlurredRRect_effect ha with ⟨hb, _⟩ | ⟨_, hadd⟩
      · exact absurd hb (by simp)
      · cases h; exact effect_of_add hadd
    · next c2 ha =>
      rcases AttemptDrawBlurredRRect_effect ha with ⟨_, hc⟩ | ⟨hb, _⟩
      · subst hc; exact effect_of_add (DrawPath_effect h)
      · exact absurd hb (by simp)
  case DrawCircle center r paint =>
    unfold Canvas.DrawCircle at h
    simp only at h
    split at h
    · exact absurd h (by simp)
    · next c2 ha =>
      rcases AttemptDrawBlurredRRect_effect ha with ⟨hb, _⟩ | ⟨_, hadd⟩
      · exact absurd hb (by simp)
      · cases h; exact effect_of_add hadd
    · next c2 ha =>
      rcases AttemptDrawBlurredRRect_effect ha with ⟨_, hc⟩ | ⟨hb, _⟩
      · subst hc; exact effect_of_add (DrawPath_effect h)
      · exact absurd hb (by simp)
  case DrawPicture picture =>
    unfold Canvas.DrawPicture at h
    split at h
    · exact Or.inl (by simpa using h.symm)
    · split at h
      · exact Or.inl (by simpa using h.symm)
      · simp only [bind, Option.bind_eq_some] at h
        obtain ⟨d, _, t, _, h⟩ := h
        exact Or.inl (by simpa using h.symm)
  case DrawImage image offset paint sampler =>
    unfold Canvas.DrawImage at h
    split at h
    · exact Or.inl (by simpa using h.symm)
    · rcases DrawImageRect_effect h with h | h
      · exact Or.inl h
      · exact effect_of_add h
  case DrawImageRect image source dest paint sampler =>
    rcases DrawImageRect_effect h with h | h
    · exact Or.inl h
    · exact effect_of_add h
  case DrawTextFrame frame position paint =>
    simp only [Canvas.DrawTextFrame, bind, Option.bind_eq_some] at h
    obtain ⟨pass, _, c2, hw, t, _, d, _, w, _, h⟩ := h
    refine Or.inr ⟨_, ?_, writeCurrentPass_comp hw h⟩
    intro p
    rfl
  case DrawVertices vertices blend_mode paint =>
    simp only [Canvas.DrawVertices, bind, Option.bind_eq_some] at h
    obtain ⟨t, _, d, _, h⟩ := h
    split at h
    · simp only [Option.bind_eq_some] at h
      obtain ⟨f, _, w, _, h⟩ := h
      exact AddEntity_effect h
    · simp only [Option.bind_eq_some] at h
      obtain ⟨w, _, h⟩ := h
      exact AddEntity_effect h
  case DrawAtlas atlas transforms coords colors blend_mode sampler cull paint =>
    unfold Canvas.DrawAtlas at h
    split at h
    · exact Or.inl (by simpa using h.symm)
    · simp only at h
      split at h
      · exact Or.inl (by simpa using h.symm)
      · simp only [bind, Option.bind_eq_some] at h
        obtain ⟨t, _, d, _, w, _, h⟩ := h
        exact AddEntity_effect h

theorem draw_progress {c : Canvas S M} (hwf : c.WF) (op : Op S M) (hd : op.IsDraw = true)
    (hc : op.Callable = true) : ∃ c1, c.apply op = some c1 := by
  cases op <;> simp only [Op.IsDraw, Bool.false_eq_true] at hd <;>
    simp only [Op.Callable, Op.paint?] at hc <;> simp only [Canvas.apply]
  case DrawPath path paint => exact DrawPath_progress hwf path hc
  case DrawPaint paint =>
    obtain ⟨g, cur, top, rest, p, rfl, hpass, _⟩ := (WF_destruct hwf)
    obtain ⟨k, hk⟩ := CreateContentsForEntity_isSome hc Path.empty true
    simp [Canvas.DrawPaint, bind, hk, AddEntity_mk _ _ hpass]
  case DrawRect rect paint =>
    unfold Canvas.DrawRect
    split
    · exact DrawPath_progress hwf _ hc
    · obtain ⟨b, c2, ha⟩ := AttemptDrawBlurredRRect_progress hwf rect (ScalarOps.ofInt 0)
        (Callable_filters hc)
      rw [ha]
      rcases AttemptDrawBlurredRRect_effect ha with ⟨hb, hc2⟩ | ⟨hb, _⟩
      · subst hb hc2
        obtain ⟨g, cur, top, rest, p, rfl, hpass, _⟩ := (WF_destruct hwf)
        obtain ⟨k, hk⟩ := CreateContentsForGeometry_isSome hc (Geometry.rect rect)
        obtain ⟨w, hw⟩ := WithFilters_isSome (Callable_filters hc) k none (1 : M)
        simp [bind, hk, hw, AddEntity_mk _ _ hpass]
      · subst hb; exact ⟨_, rfl⟩
  case DrawRRect rect r paint =>
    unfold Canvas.DrawRRect
    obtain ⟨b, c2, ha⟩ := AttemptDrawBlurredRRect_progress hwf rect r (Callable_filters hc)
    rw [ha]
    rcases AttemptDrawBlurredRRect_effect ha with ⟨hb, hc2⟩ | ⟨hb, _⟩
    · subst hb hc2; exact DrawPath_progress hwf _ hc
    · subst hb; exact ⟨_, rfl⟩
  case DrawCircle center r paint =>
    unfold Canvas.DrawCircle
    simp only
    obtain ⟨b, c2, ha⟩ := AttemptDrawBlurredRRect_progress hwf
      ({ origin := center.subSize { width := r, height := r },
         size := Size.scale { width := r, height := r } (ScalarOps.ofInt 2) } : Rect S) r
      (Callable_filters hc)
    rw [ha]
    rcases AttemptDrawBlurredRRect_effect ha with ⟨hb, hc2⟩ | ⟨hb, _⟩
    · subst hb hc2; exact DrawPath_progress hwf _ hc
    · subst hb; exact ⟨_, rfl⟩
  case DrawPicture picture =>
    obtain ⟨g, cur, top, rest, p, rfl, hpass, _⟩ := (WF_destruct hwf)
    unfold Canvas.DrawPicture
    split
    · exact ⟨_, rfl⟩
    · split
      · exact ⟨_, rfl⟩
      · simp [bind]
  case DrawImage image offset paint sampler =>
    unfold Canvas.DrawImage
    split
    · exact ⟨_, rfl⟩
    · exact DrawImageRect_progress hwf _ _ _ hc _
  case DrawImageRect image source dest paint sampler =>
    exact DrawImageRect_progress hwf _ _ _ hc _
  case DrawTextFrame frame position paint =>
    obtain ⟨g, cur, top, rest, p, rfl, hpass, _⟩ := (WF_destruct hwf)
    have hlt := lt_of_getElem? g cur p hpass
    obtain ⟨w, hw⟩ := WithFilters_isSome (Callable_filters hc)
      (Contents.text frame { pass := cur } paint.color) (some true) (1 : M)
    simp only [Canvas.DrawTextFrame, bind, Canvas.GetCurrentPass, Option.some_bind,
      writeCurrentPass_mk _ _ hpass, hw, GetCurrentTransformation_mk, GetStencilDepth_mk]
    exact ⟨_, AddEntity_mk (p := p.AddTextFrame frame) _ _ (by simp [List.getElem?_set, hlt])⟩
  case DrawVertices vertices blend_mode paint =>
    obtain ⟨g, cur, top, rest, p, rfl, hpass, _⟩ := (WF_destruct hwf)
    rcases optionalEqNullptr_false (Callable_source hc) with hs | ⟨f, hs⟩
    · obtain ⟨w, hw⟩ := WithFilters_isSome (Callable_filters hc)
        (Contents.vertices paint.color blend_mode (Geometry.vertices vertices))
        (some true) (1 : M)
      simp [Canvas.DrawVertices, bind, hs, hw, AddEntity_mk _ _ hpass]
    · obtain ⟨w, hw⟩ := WithFilters_isSome (Callable_filters hc)
        (Contents.colorSource
          (((f ()).SetGeometry (Geometry.vertices vertices)).SetAlpha paint.color.alpha))
        (some true) (1 : M)
      simp [Canvas.DrawVertices, bind, hs, hw, StdFunction.call, AddEntity_mk _ _ hpass]
  case DrawAtlas atlas transforms coords colors blend_mode sampler cull paint =>
    obtain ⟨g, cur, top, rest, p, rfl, hpass, _⟩ := (WF_destruct hwf)
    unfold Canvas.DrawAtlas
    split
    · exact ⟨_, rfl⟩
    · simp only
      split
      · exact ⟨_, rfl⟩
      · next img _ =>
        obtain ⟨w, hw⟩ := WithFilters_isSome (Callable_filters hc)
          (Contents.atlas colors transforms coords img.GetTexture sampler blend_mode cull
            paint.color.alpha) (some false) (1 : M)
        simp [bind, hw, AddEntity_mk _ _ hpass]

end DrawLemmas

/-! ## Lemmas on the stack calls -/

section StackLemmas
variable {S M : Type} [One M] [Mul M] [ScalarOps S] [MatrixOps S M]

theorem Concat_mk (b : Option (RenderGraph S M)) (cp : Option Nat)
    (top : CanvasStackEntry M) (rest : List (CanvasStackEntry M)) (m : M) :
    Canvas.Concat (⟨b, cp, top :: rest⟩ : Canvas S M) m =
      some ⟨b, cp, { top with xformation := top.xformation * m } :: rest⟩ := rfl

theorem PreConcat_mk (b : Option (RenderGraph S M)) (cp : Option Nat)
    (top : CanvasStackEntry M) (rest : List (CanvasStackEntry M)) (m : M) :
    Canvas.PreConcat (⟨b, cp, top :: rest⟩ : Canvas S M) m =
      some ⟨b, cp, { top with xformation := m * top.xformation } :: rest⟩ := rfl

theorem transform_mk (b : Option (RenderGraph S M)) (cp : Option Nat)
    (top : CanvasStackEntry M) (rest : List (CanvasStackEntry M)) (op : Op S M)
    (ht : op.IsTransform = true) :
    ∃ t, Canvas.apply (⟨b, cp, top :: rest⟩ : Canvas S M) op =
      some ⟨b, cp, { top with xformation := t } :: rest⟩ := by
  cases op <;> simp only [Op.IsTransform, Bool.false_eq_true] at ht
  all_goals exact ⟨_, rfl⟩

theorem transform_stack_ne {c c1 : Canvas S M} (op : Op S M) (ht : op.IsTransform = true)
    (h : c.apply op = some c1) : c.xformation_stack_ ≠ [] := by
  intro hnil
  cases c with
  | mk b cp st =>
    simp only at hnil
    subst hnil
    cases op <;> simp only [Op.IsTransform, Bool.false_eq_true] at ht <;>
      simp [Canvas.apply, Canvas.Concat, Canvas.PreConcat, Canvas.ResetTransform,
        Canvas.Transform, Canvas.Translate, Canvas.Scale, Canvas.Scale3, Canvas.Skew,
        Canvas.Rotate, Canvas.GetCurrentTransformation, Canvas.back, Canvas.setBack] at h

theorem ClipPath_mk {g : RenderGraph S M} {cur : Nat} {p : EntityPass S M}
    (top : CanvasStackEntry M) (rest : List (CanvasStackEntry M)) (path : Path S)
    (clip_op : ClipOperation) (hp : g[cur]? = some p) :
    Canvas.ClipPath (⟨some g, some cur, top :: rest⟩ : Canvas S M) path clip_op =
      some ⟨some (g.set cur (p.AddEntity
          { xformation := top.xformation, stencil_depth := top.stencil_depth,
            blend_mode := BlendMode.kSourceOver,
            contents := Contents.clip (Geometry.fillPath path) clip_op })),
        some cur,
        { top with stencil_depth := top.stencil_depth + 1, contains_clips := true } :: rest⟩ := by
  simp [Canvas.ClipPath, bind, AddEntity_mk _ _ hp, Entity.new, Entity.SetTransformation,
    Entity.SetContents, Entity.SetStencilDepth]

theorem ClipPath_eq_some {c c1 : Canvas S M} {path : Path S} {clip_op : ClipOperation}
    (h : c.ClipPath path clip_op = some c1) :
    ∃ g cur top rest p, c = ⟨some g, some cur, top :: rest⟩ ∧ g[cur]? = some p := by
  simp only [Canvas.ClipPath, bind, Option.bind_eq_some] at h
  obtain ⟨t, ht, d, _, c2, hadd, _⟩ := h
  obtain ⟨g, cur, p, hg, hc, hp, _⟩ := writeCurrentPass_eq_some hadd
  cases c with
  | mk b cp st =>
    simp only at hg hc
    subst hg hc
    cases st with
    | nil => simp [Canvas.GetCurrentTransformation, Canvas.back] at ht
    | cons top rest => exact ⟨g, cur, top, rest, p, rfl, hp⟩

theorem Save_mk (b : Option (RenderGraph S M)) (cp : Option Nat)
    (top : CanvasStackEntry M) (rest : List (CanvasStackEntry M))
    (blend_mode : BlendMode) (backdrop_filter : Option (ImageFilterProc S M)) :
    Canvas.SaveWith (⟨b, cp, top :: rest⟩ : Canvas S M) false blend_mode backdrop_filter =
      some ⟨b, cp, { xformation := top.xformation, stencil_depth := top.stencil_depth,
                     is_subpass := false, contains_clips := false } :: top :: rest⟩ := rfl

/-- The pass `Save` creates for a subpass entry. -/
theorem SaveWith_mk {g : RenderGraph S M} {cur : Nat} {p : EntityPass S M}
    (top : CanvasStackEntry M) (rest : List (CanvasStackEntry M))
    (blend_mode : BlendMode) (backdrop_filter : Option (ImageFilterProc S M))
    (hp : g[cur]? = some p) :
    Canvas.SaveWith (⟨some g, some cur, top :: rest⟩ : Canvas S M) true blend_mode
        backdrop_filter =
      some ⟨some (g.set cur { p with elements_ := p.elements_ ++ [Element.subpass g.length] } ++
          [{ elements_ := [], superpass_ := some cur, xformation_ := top.xformation,
             stencil_depth_ := top.stencil_depth, blend_mode_ := blend_mode,
             backdrop_filter_proc_ := backdrop_filter, delegate_ := none,
             lazy_glyph_atlas_ := [] }]),
        some g.length,
        { xformation := top.xformation, stencil_depth := top.stencil_depth,
          is_subpass := true, contains_clips := false } :: top :: rest⟩ := by
  have hlt := lt_of_getElem? g cur p hp
  simp [Canvas.SaveWith, Canvas.back, Canvas.GetCurrentPass, RenderGraph.AddSubpass, hp,
    RenderGraph.update, EntityPass.new, EntityPass.SetBackdropFilter, EntityPass.SetBlendMode,
    EntityPass.SetTransformation, EntityPass.SetStencilDepth, CanvasStackEntry.new,
    List.getElem?_append_right, List.set_append]

end StackLemmas

/-! ## The invariant is kept, and calls on a well-formed state return -/

section InvariantLemmas
variable {S M : Type} [One M] [Mul M] [ScalarOps S] [MatrixOps S M]

theorem fresh_WF : (Canvas.fresh : Canvas S M).WF :=
  WF_intro (p := EntityPass.new) rfl (by simp [Chain, CanvasStackEntry.new])

theorem create_eq_fresh : (Canvas.create : Option (Canvas S M)) = some Canvas.fresh := rfl

theorem EndRecordingAsPicture_eq (c : Canvas S M) :
    c.EndRecordingAsPicture = some ({ pass := c.base_pass_ }, Canvas.fresh) := rfl

theorem SaveWith_spec {c : Canvas S M} (hwf : c.WF) (create_subpass : Bool)
    (blend_mode : BlendMode) (backdrop_filter : Option (ImageFilterProc S M)) :
    ∃ c1 top rest, c.SaveWith create_subpass blend_mode backdrop_filter = some c1 ∧ c1.WF ∧
      c.xformation_stack_ = top :: rest ∧
      c1.xformation_stack_ =
        { xformation := top.xformation, stencil_depth := top.stencil_depth,
          is_subpass := create_subpass, contains_clips := false } :: top :: rest := by
  obtain ⟨g, cur, top, rest, p, rfl, hp, hch⟩ := (WF_destruct hwf)
  have hlt := lt_of_getElem? g cur p hp
  cases create_subpass
  · refine ⟨_, top, rest, Save_mk _ _ _ _ _ _, ?_, rfl, rfl⟩
    exact WF_intro hp (by simpa [Chain] using hch)
  · refine ⟨_, top, rest, SaveWith_mk _ _ _ _ hp, ?_, rfl, rfl⟩
    have hsup : ∀ i, i < g.length →
        RenderGraph.superpassOf
          (g.set cur { p with elements_ := p.elements_ ++ [Element.subpass g.length] } ++
            [{ elements_ := [], superpass_ := some cur, xformation_ := top.xformation,
               stencil_depth_ := top.stencil_depth, blend_mode_ := blend_mode,
               backdrop_filter_proc_ := backdrop_filter, delegate_ := none,
               lazy_glyph_atlas_ := [] }]) i = RenderGraph.superpassOf g i := by
      intro i hi
      rw [superpassOf_append _ _ _ (by simpa using hi)]
      exact superpassOf_set g cur i p _ hp rfl
    refine WF_intro_lt (by simp) ?_
    simp only [Chain]
    refine ⟨cur, ?_, by simp; omega, ?_⟩
    · simp [RenderGraph.superpassOf, List.getElem?_append_right, EntityPass.GetSuperpass]
    · exact Chain_mono g _ (by simp) hsup _ cur hch

theorem Restore_single (b : Option (RenderGraph S M)) (cp : Option Nat)
    (e : CanvasStackEntry M) :
    Canvas.Restore (⟨b, cp, [e]⟩ : Canvas S M) = some (false, ⟨b, cp, [e]⟩) := rfl

theorem Restore_pop {g : RenderGraph S M} {cur : Nat} {back next : CanvasStackEntry M}
    {rest : List (CanvasStackEntry M)}
    (hwf : Canvas.WF (⟨some g, some cur, back :: next :: rest⟩ : Canvas S M)) :
    ∃ cur1 p1, g[cur1]? = some p1 ∧ Chain g cur1 (next :: rest) ∧
      (back.is_subpass = true → g.superpassOf cur = some cur1) ∧
      (back.is_subpass = false → cur1 = cur) ∧
      Canvas.Restore (⟨some g, some cur, back :: next :: rest⟩ : Canvas S M) =
        some (true,
          ⟨some (if back.contains_clips = true then
              g.set cur1 (p1.AddEntity
                { xformation := next.xformation, stencil_depth := next.stencil_depth,
                  blend_mode := BlendMode.kSourceOver, contents := Contents.clipRestore })
            else g),
           some cur1, next :: rest⟩) := by
  obtain ⟨g0, cur0, top0, rest0, p, heq, hp, hch⟩ := (WF_destruct hwf)
  simp only [Canvas.mk.injEq, Option.some.injEq, List.cons.injEq] at heq
  obtain ⟨rfl, rfl, rfl, rfl⟩ := heq
  cases hs : back.is_subpass
  · simp only [Chain, hs] at hch
    refine ⟨cur, p, hp, by simpa [Chain] using hch, by simp, by simp, ?_⟩
    cases hcl : back.contains_clips
    · simp [Canvas.Restore, hs, hcl]
    · simp [Canvas.Restore, hs, hcl, Canvas.RestoreClip, AddEntity_mk _ _ hp, Entity.new,
        Entity.SetTransformation, Entity.SetContents, Entity.SetStencilDepth]
  · simp only [Chain, hs] at hch
    obtain ⟨parent, hpar, hlt, hrest⟩ := hch
    obtain ⟨pp, hpp⟩ := getElem?_of_lt g parent hlt
    have hsup : p.GetSuperpass = some parent := by
      simpa [RenderGraph.superpassOf, hp] using hpar
    refine ⟨parent, pp, hpp, by simpa [Chain] using hrest, fun _ => hpar, by simp, ?_⟩
    cases hcl : back.contains_clips
    · simp [Canvas.Restore, hs, hcl, readCurrentPass_mk, hp, hsup]
    · simp [Canvas.Restore, hs, hcl, readCurrentPass_mk, hp, hsup, Canvas.RestoreClip,
        AddEntity_mk _ _ hpp, Entity.new, Entity.SetTransformation, Entity.SetContents,
        Entity.SetStencilDepth]

theorem Restore_spec {c : Canvas S M} (hwf : c.WF) :
    ∃ b c1, c.Restore = some (b, c1) ∧ c1.WF ∧
      ((b = false ∧ c1 = c ∧ c.GetSaveCount = 1) ∨
       (b = true ∧ ∃ back, c.xformation_stack_ = back :: c1.xformation_stack_)) := by
  obtain ⟨g, cur, top, rest, p, rfl, hp, hch⟩ := (WF_destruct hwf)
  cases rest with
  | nil => exact ⟨false, _, Restore_single _ _ _, hwf, Or.inl ⟨rfl, rfl, rfl⟩⟩
  | cons next rest =>
    obtain ⟨cur1, p1, hp1, hch1, _, _, hr⟩ := Restore_pop hwf
    refine ⟨true, _, hr, ?_, Or.inr ⟨rfl, top, rfl⟩⟩
    have hlt := lt_of_getElem? g cur1 p1 hp1
    split
    · exact WF_intro_lt (by simpa using hlt)
        (Chain_set g cur1 p1 (p1.AddEntity _) hp1 rfl _ cur1 hch1)
    · exact WF_intro hp1 hch1

end InvariantLemmas

section LoopLemmas
variable {S M : Type} [One M] [Mul M] [ScalarOps S] [MatrixOps S M]

theorem WF_saveCount_pos {c : Canvas S M} (hwf : c.WF) : 1 ≤ c.GetSaveCount := by
  obtain ⟨g, cur, top, rest, p, rfl, _, _⟩ := (WF_destruct hwf)
  simp

theorem restoreLoop_spec (count : Nat) :
    ∀ (fuel : Nat) (c : Canvas S M), c.WF → c.GetSaveCount ≤ fuel →
      ∃ c1, Canvas.restoreLoop count fuel c = some c1 ∧ c1.WF ∧
        c1.GetSaveCount = (if c.GetSaveCount ≤ count then c.GetSaveCount else max count 1) ∧
        c1.GetSaveCount ≤ c.GetSaveCount ∧
        Canvas.restoreTimes (c.GetSaveCount - c1.GetSaveCount) c = some c1 ∧
        c1.xformation_stack_ <:+ c.xformation_stack_ := by
  intro fuel
  induction fuel with
  | zero =>
    intro c hwf hle
    have := WF_saveCount_pos hwf
    omega
  | succ fuel ih =>
    intro c hwf hle
    have hpos := WF_saveCount_pos hwf
    by_cases hgt : c.GetSaveCount > count
    · obtain ⟨b, c1, hr, hwf1, hcase⟩ := Restore_spec hwf
      rcases hcase with ⟨hb, hc1, hone⟩ | ⟨hb, back, hst⟩
      · subst hb hc1
        refine ⟨c1, by simp [Canvas.restoreLoop, hgt, hr], hwf, ?_, le_refl _, by
          simp [Canvas.restoreTimes], List.suffix_refl _⟩
        rw [if_neg (by omega), hone]
        omega
      · subst hb
        have hlen : c.GetSaveCount = c1.GetSaveCount + 1 := by
          simp [Canvas.GetSaveCount, hst]
        obtain ⟨c2, hl, hwf2, hcount, hle2, htimes, hsuf⟩ := ih c1 hwf1 (by omega)
        have hpos1 := WF_saveCount_pos hwf1
        refine ⟨c2, by simp [Canvas.restoreLoop, hgt, hr, hl], hwf2, ?_, by omega, ?_,
          hsuf.trans (by rw [hst]; exact List.suffix_cons _ _)⟩
        · rw [if_neg (by omega)]
          rw [hcount]
          split
          · omega
          · rfl
        · have : c.GetSaveCount - c2.GetSaveCount =
              (c1.GetSaveCount - c2.GetSaveCount) + 1 := by omega
          rw [this]
          simp [Canvas.restoreTimes, hr, htimes]
    · refine ⟨c, ?_, hwf, by rw [if_pos (by omega)], le_refl _, by simp [Canvas.restoreTimes],
        List.suffix_refl _⟩
      cases fuel <;> simp [Canvas.restoreLoop, hgt]

theorem RestoreToCount_spec {c : Canvas S M} (hwf : c.WF) (count : Nat) :
    ∃ c1, c.RestoreToCount count = some c1 ∧ c1.WF ∧
      c1.GetSaveCount = (if c.GetSaveCount ≤ count then c.GetSaveCount else max count 1) ∧
      c1.GetSaveCount ≤ c.GetSaveCount ∧
      Canvas.restoreTimes (c.GetSaveCount - c1.GetSaveCount) c = some c1 ∧
      c1.xformation_stack_ <:+ c.xformation_stack_ :=
  restoreLoop_spec count c.GetSaveCount c hwf (le_refl _)

theorem ClipPath_spec {c : Canvas S M} (hwf : c.WF) (path : Path S) (clip_op : ClipOperation) :
    ∃ c1 top rest, c.ClipPath path clip_op = some c1 ∧ c1.WF ∧
      c.xformation_stack_ = top :: rest ∧
      c1.xformation_stack_ =
        { top with stencil_depth := top.stencil_depth + 1, contains_clips := true } :: rest := by
  obtain ⟨g, cur, top, rest, p, rfl, hp, hch⟩ := (WF_destruct hwf)
  have hlt := lt_of_getElem? g cur p hp
  refine ⟨_, top, rest, ClipPath_mk top rest path clip_op hp, ?_, rfl, rfl⟩
  exact WF_intro_lt (by simpa using hlt)
    (Chain_top_congr _ cur top _ rest rfl (Chain_set g cur p (p.AddEntity _) hp rfl _ cur hch))

theorem SaveLayer_spec {c : Canvas S M} (hwf : c.WF) (paint : Paint S M)
    (bounds : Option (Rect S)) (backdrop_filter : Option (ImageFilterProc S M)) :
    ∃ c1 top rest e, c.SaveLayer paint bounds backdrop_filter = some c1 ∧ c1.WF ∧
      c.xformation_stack_ = top :: rest ∧ c1.xformation_stack_ = e :: top :: rest ∧
      top.stencil_depth ≤ e.stencil_depth := by
  obtain ⟨c1, top, rest, hs, hwf1, hst, hst1⟩ := SaveWith_spec hwf true paint.blend_mode
    backdrop_filter
  obtain ⟨c2, hw⟩ := writeCurrentPass_progress
    (fun p => p.SetDelegate { paint := paint, coverage := bounds }) hwf1
  have hwf2 := writeCurrentPass_WF
    (f := fun p => p.SetDelegate { paint := paint, coverage := bounds }) (fun _ => rfl) hwf1 hw
  have hst2 := (writeCurrentPass_stack hw).1
  rw [hst1] at hst2
  cases bounds with
  | none =>
    exact ⟨c2, top, rest, _, by simp [Canvas.SaveLayer, bind, hs, hw], hwf2, hst, hst2,
      le_refl _⟩
  | some b =>
    cases hbf : backdrop_filter.isSome
    · obtain ⟨c3, top2, rest2, hclip, hwf3, hst3, hst4⟩ :=
        ClipPath_spec hwf2 (Path.rect b) ClipOperation.kIntersect
      rw [hst2] at hst3
      simp only [List.cons.injEq] at hst3
      obtain ⟨htop2, hrest2⟩ := hst3
      subst hrest2
      refine ⟨c3, top, rest, _, by simp [Canvas.SaveLayer, bind, hs, hw, hbf, hclip], hwf3, hst,
        hst4, ?_⟩
      rw [← htop2]
      exact Nat.le_succ _
    · exact ⟨c2, top, rest, _, by simp [Canvas.SaveLayer, bind, hs, hw, hbf], hwf2, hst, hst2,
        le_refl _⟩

theorem apply_WF_draw {c c1 : Canvas S M} (hwf : c.WF) (op : Op S M) (hd : op.IsDraw = true)
    (h : c.apply op = some c1) : c1.WF := by
  rcases draw_effect op hd h with rfl | ⟨f, hf, hw⟩
  · exact hwf
  · exact writeCurrentPass_WF hf hwf hw

theorem apply_WF_transform {c c1 : Canvas S M} (hwf : c.WF) (op : Op S M)
    (ht : op.IsTransform = true) (h : c.apply op = some c1) : c1.WF := by
  obtain ⟨g, cur, top, rest, p, rfl, hp, hch⟩ := (WF_destruct hwf)
  obtain ⟨t, ht⟩ := transform_mk (some g) (some cur) top rest op ht
  rw [ht] at h
  cases h
  exact WF_intro hp (Chain_top_congr g cur top _ rest rfl hch)

theorem apply_progress_transform {c : Canvas S M} (hwf : c.WF) (op : Op S M)
    (ht : op.IsTransform = true) : ∃ c1, c.apply op = some c1 := by
  obtain ⟨g, cur, top, rest, p, rfl, hp, hch⟩ := (WF_destruct hwf)
  obtain ⟨t, ht⟩ := transform_mk (some g) (some cur) top rest op ht
  exact ⟨_, ht⟩

theorem apply_WF {c c1 : Canvas S M} (hwf : c.WF) (op : Op S M) (h : c.apply op = some c1) :
    c1.WF := by
  cases op
  case Save =>
    obtain ⟨c2, _, _, hs, hwf2, _⟩ := SaveWith_spec hwf false BlendMode.kSourceOver none
    rw [Canvas.apply, Canvas.Save, hs] at h
    cases h; exact hwf2
  case SaveWith b bm bf =>
    obtain ⟨c2, _, _, hs, hwf2, _⟩ := SaveWith_spec hwf b bm bf
    rw [Canvas.apply, hs] at h
    cases h; exact hwf2
  case Restore =>
    obtain ⟨b, c2, hr, hwf2, _⟩ := Restore_spec hwf
    rw [Canvas.apply, hr] at h
    cases h; exact hwf2
  case RestoreToCount count =>
    obtain ⟨c2, hr, hwf2, _⟩ := RestoreToCount_spec hwf count
    rw [Canvas.apply, hr] at h
    cases h; exact hwf2
  case ClipPath path clip_op =>
    obtain ⟨c2, _, _, hr, hwf2, _⟩ := ClipPath_spec hwf path clip_op
    rw [Canvas.apply, hr] at h
    cases h; exact hwf2
  case EndRecordingAsPicture =>
    rw [Canvas.apply, EndRecordingAsPicture_eq] at h
    cases h; exact fresh_WF
  case SaveLayer paint bounds bf =>
    obtain ⟨c2, _, _, _, hr, hwf2, _⟩ := SaveLayer_spec hwf paint bounds bf
    rw [Canvas.apply, hr] at h
    cases h; exact hwf2
  all_goals first
    | exact apply_WF_draw hwf _ (by rfl) h
    | exact apply_WF_transform hwf _ (by rfl) h

theorem apply_progress {c : Canvas S M} (hwf : c.WF) (op : Op S M)
    (hc : op.Callable = true) : ∃ c1, c.apply op = some c1 := by
  cases op
  case Save =>
    obtain ⟨c2, _, _, hs, _⟩ := SaveWith_spec hwf false BlendMode.kSourceOver none
    exact ⟨c2, hs⟩
  case SaveWith b bm bf =>
    obtain ⟨c2, _, _, hs, _⟩ := SaveWith_spec hwf b bm bf
    exact ⟨c2, hs⟩
  case Restore =>
    obtain ⟨b, c2, hr, _⟩ := Restore_spec hwf
    exact ⟨c2, by simp [Canvas.apply, hr]⟩
  case RestoreToCount count =>
    obtain ⟨c2, hr, _⟩ := RestoreToCount_spec hwf count
    exact ⟨c2, hr⟩
  case ClipPath path clip_op =>
    obtain ⟨c2, _, _, hr, _⟩ := ClipPath_spec hwf path clip_op
    exact ⟨c2, hr⟩
  case EndRecordingAsPicture =>
    exact ⟨Canvas.fresh, by simp [Canvas.apply, EndRecordingAsPicture_eq]⟩
  case SaveLayer paint bounds bf =>
    obtain ⟨c2, _, _, _, hr, _⟩ := SaveLayer_spec hwf paint bounds bf
    exact ⟨c2, hr⟩
  all_goals first
    | exact draw_progress hwf _ (by rfl) hc
    | exact apply_progress_transform hwf _ (by rfl)

theorem Reachable_WF {c : Canvas S M} (h : Reachable c) : c.WF := by
  induction h with
  | create hc =>
    rw [create_eq_fresh] at hc
    cases hc
    exact fresh_WF
  | step op _ hstep ih => exact apply_WF ih op hstep

end LoopLemmas

section RunLemmas
variable {S M : Type} [One M] [Mul M] [ScalarOps S] [MatrixOps S M]

theorem run_append (c : Canvas S M) (xs ys : List (Op S M)) :
    c.run (xs ++ ys) = (c.run xs).bind (fun c1 => c1.run ys) := by
  induction xs generalizing c with
  | nil => rfl
  | cons x xs ih =>
    simp only [List.cons_append, Canvas.run]
    cases c.apply x with
    | none => rfl
    | some c1 => exact ih c1

theorem Reachable_run {c c1 : Canvas S M} (h : Reachable c) (ops : List (Op S M))
    (hr : c.run ops = some c1) : Reachable c1 := by
  induction ops generalizing c with
  | nil =>
    simp only [Canvas.run, Option.some.injEq] at hr
    exact hr ▸ h
  | cons op ops ih =>
    simp only [Canvas.run] at hr
    cases hstep : c.apply op with
    | none => rw [hstep] at hr; exact absurd hr (by simp)
    | some c2 =>
      rw [hstep] at hr
      exact ih (Reachable.step op h hstep) hr

theorem local_draw {c : Canvas S M} (hwf : c.WF) (op : Op S M) (hd : op.IsDraw = true)
    (hc : op.Callable = true) :
    ∃ c1, c.apply op = some c1 ∧ c1.WF ∧ c1.xformation_stack_ = c.xformation_stack_ := by
  obtain ⟨c1, h⟩ := draw_progress hwf op hd hc
  refine ⟨c1, h, apply_WF hwf op h, ?_⟩
  rcases draw_effect op hd h with rfl | ⟨f, _, hw⟩
  · rfl
  · exact (writeCurrentPass_stack hw).1

theorem local_step {c : Canvas S M} (hwf : c.WF) (op : Op S M) (hl : op.IsLocal = true)
    (hc : op.Callable = true) {top : CanvasStackEntry M} {rest : List (CanvasStackEntry M)}
    (hst : c.xformation_stack_ = top :: rest) :
    ∃ c1 top1, c.apply op = some c1 ∧ c1.WF ∧ c1.xformation_stack_ = top1 :: rest ∧
      top1.stencil_depth = top.stencil_depth + op.clips := by
  by_cases hd : op.IsDraw = true
  · obtain ⟨c1, h, hwf1, hst1⟩ := local_draw hwf op hd hc
    refine ⟨c1, top, h, hwf1, by rw [hst1, hst], ?_⟩
    cases op <;> simp [Op.IsDraw] at hd <;> simp [Op.clips]
  by_cases ht : op.IsTransform = true
  · obtain ⟨g, cur, top0, rest0, p, rfl, hp, hch⟩ := (WF_destruct hwf)
    simp only [List.cons.injEq] at hst
    obtain ⟨rfl, rfl⟩ := hst
    obtain ⟨t, hap⟩ := transform_mk (some g) (some cur) top0 rest0 op ht
    refine ⟨_, _, hap, apply_WF hwf op hap, rfl, ?_⟩
    cases op <;> simp [Op.IsTransform] at ht <;> simp [Op.clips]
  · cases op <;> simp [Op.IsLocal, Op.IsDraw, Op.IsTransform, Op.clips] at hl hd ht
    next path clip_op =>
      obtain ⟨c1, top0, rest0, h, hwf1, hst0, hst1⟩ := ClipPath_spec hwf path clip_op
      rw [hst] at hst0
      simp only [List.cons.injEq] at hst0
      obtain ⟨rfl, rfl⟩ := hst0
      exact ⟨c1, _, h, hwf1, hst1, rfl⟩

theorem save_step {c : Canvas S M} (hwf : c.WF) (op : Op S M) (hs : op.IsSave = true) :
    ∃ c1 top rest e, c.apply op = some c1 ∧ c1.WF ∧ c.xformation_stack_ = top :: rest ∧
      c1.xformation_stack_ = e :: top :: rest ∧ top.stencil_depth ≤ e.stencil_depth := by
  cases op <;> simp [Op.IsSave] at hs
  case Save =>
    obtain ⟨c1, top, rest, h, hwf1, hst, hst1⟩ :=
      SaveWith_spec hwf false BlendMode.kSourceOver none
    exact ⟨c1, top, rest, _, h, hwf1, hst, hst1, le_refl _⟩
  case SaveWith b bm bf =>
    obtain ⟨c1, top, rest, h, hwf1, hst, hst1⟩ := SaveWith_spec hwf b bm bf
    exact ⟨c1, top, rest, _, h, hwf1, hst, hst1, le_refl _⟩
  case SaveLayer paint bounds bf => exact SaveLayer_spec hwf paint bounds bf

theorem Restore_of_two {c : Canvas S M} (hwf : c.WF) {back next : CanvasStackEntry M}
    {rest : List (CanvasStackEntry M)} (hst : c.xformation_stack_ = back :: next :: rest) :
    ∃ c1, c.Restore = some (true, c1) ∧ c1.WF ∧ c1.xformation_stack_ = next :: rest := by
  obtain ⟨b, c1, hr, hwf1, hcase⟩ := Restore_spec hwf
  rcases hcase with ⟨_, _, hone⟩ | ⟨hb, back1, hst1⟩
  · simp [Canvas.GetSaveCount, hst] at hone
  · subst hb
    rw [hst] at hst1
    simp only [List.cons.injEq] at hst1
    exact ⟨c1, hr, hwf1, hst1.2.symm⟩

theorem run_balanced {ops : List (Op S M)} {n : Nat} (hb : Balanced ops n) :
    ∀ (c : Canvas S M) (top : CanvasStackEntry M) (rest : List (CanvasStackEntry M)),
      c.WF → c.xformation_stack_ = top :: rest → (∀ op ∈ ops, op.Callable = true) →
      ∃ c1 top1, c.run ops = some c1 ∧ c1.WF ∧ c1.xformation_stack_ = top1 :: rest ∧
        top1.stencil_depth = top.stencil_depth + n := by
  induction hb with
  | nil =>
    intro c top rest hwf hst _
    exact ⟨c, top, rfl, hwf, hst, rfl⟩
  | @cons op ops n hl _ ih =>
    intro c top rest hwf hst hcall
    obtain ⟨c1, top1, h1, hwf1, hst1, hd1⟩ :=
      local_step hwf op hl (hcall op (List.mem_cons_self _ _)) hst
    obtain ⟨c2, top2, h2, hwf2, hst2, hd2⟩ :=
      ih c1 top1 rest hwf1 hst1 (fun o ho => hcall o (List.mem_cons_of_mem _ ho))
    refine ⟨c2, top2, by simp [Canvas.run, h1, h2], hwf2, hst2, ?_⟩
    omega
  | @nest opener body rest0 m n hs _ _ ihb ihr =>
    intro c top rest hwf hst hcall
    obtain ⟨c1, top0, rest1, e, h1, hwf1, hst0, hst1, _⟩ := save_step hwf opener hs
    rw [hst] at hst0
    simp only [List.cons.injEq] at hst0
    obtain ⟨rfl, rfl⟩ := hst0
    obtain ⟨c2, e2, h2, hwf2, hst2, _⟩ := ihb c1 e (top :: rest) hwf1 hst1
      (fun o ho => hcall o (by simp [ho]))
    obtain ⟨c3, h3, hwf3, hst3⟩ := Restore_of_two hwf2 hst2
    obtain ⟨c4, top4, h4, hwf4, hst4, hd4⟩ := ihr c3 top rest hwf3 hst3
      (fun o ho => hcall o (by simp [ho]))
    refine ⟨c4, top4, ?_, hwf4, hst4, hd4⟩
    simp only [Canvas.run, h1]
    rw [run_append, h2]
    simp [Canvas.run, Canvas.apply, h3, h4]

end RunLemmas

/-! ## Stencil depths along the stack -/

section MonotoneLemmas
variable {S M : Type} [One M] [Mul M] [ScalarOps S] [MatrixOps S M]

theorem StencilMonotone_suffix {st st1 : List (CanvasStackEntry M)} (hm : StencilMonotone st)
    (h : st1 <:+ st) : StencilMonotone st1 :=
  List.Pairwise.sublist h.sublist hm

theorem StencilMonotone_top {top top1 : CanvasStackEntry M} {rest : List (CanvasStackEntry M)}
    (hm : StencilMonotone (top :: rest)) (hle : top.stencil_depth ≤ top1.stencil_depth) :
    StencilMonotone (top1 :: rest) := by
  unfold StencilMonotone at hm ⊢
  rw [List.pairwise_cons] at hm ⊢
  exact ⟨fun b hb => le_trans (hm.1 b hb) hle, hm.2⟩

theorem StencilMonotone_push {top e : CanvasStackEntry M} {rest : List (CanvasStackEntry M)}
    (hm : StencilMonotone (top :: rest)) (hle : top.stencil_depth ≤ e.stencil_depth) :
    StencilMonotone (e :: top :: rest) := by
  unfold StencilMonotone at hm ⊢
  rw [List.pairwise_cons] at hm ⊢
  refine ⟨fun b hb => ?_, List.pairwise_cons.mpr hm⟩
  rcases List.mem_cons.mp hb with rfl | hb
  · exact hle
  · exact le_trans (hm.1 b hb) hle

theorem apply_monotone_draw {c c1 : Canvas S M}
    (hm : StencilMonotone c.xformation_stack_) (op : Op S M) (hd : op.IsDraw = true)
    (h : c.apply op = some c1) : StencilMonotone c1.xformation_stack_ := by
  rcases draw_effect op hd h with rfl | ⟨f, _, hw⟩
  · exact hm
  · rw [(writeCurrentPass_stack hw).1]; exact hm

theorem apply_monotone_transform {c c1 : Canvas S M} (hwf : c.WF)
    (hm : StencilMonotone c.xformation_stack_) (op : Op S M) (ht : op.IsTransform = true)
    (h : c.apply op = some c1) : StencilMonotone c1.xformation_stack_ := by
  obtain ⟨g, cur, top, rest, p, rfl, hp, hch⟩ := (WF_destruct hwf)
  obtain ⟨t, ht⟩ := transform_mk (some g) (some cur) top rest op ht
  rw [ht] at h
  cases h
  exact StencilMonotone_top hm (le_refl _)

theorem apply_monotone {c c1 : Canvas S M} (hwf : c.WF) (hm : StencilMonotone c.xformation_stack_)
    (op : Op S M) (h : c.apply op = some c1) : StencilMonotone c1.xformation_stack_ := by
  cases op
  case Save =>
    obtain ⟨c2, top, rest, e, hs, _, hst, hst1, hle⟩ := save_step hwf Op.Save rfl
    rw [hs] at h; cases h
    rw [hst1]; rw [hst] at hm
    exact StencilMonotone_push hm hle
  case SaveWith b bm bf =>
    obtain ⟨c2, top, rest, e, hs, _, hst, hst1, hle⟩ := save_step hwf (Op.SaveWith b bm bf) rfl
    rw [hs] at h; cases h
    rw [hst1]; rw [hst] at hm
    exact StencilMonotone_push hm hle
  case SaveLayer paint bounds bf =>
    obtain ⟨c2, top, rest, e, hs, _, hst, hst1, hle⟩ :=
      save_step hwf (Op.SaveLayer paint bounds bf) rfl
    rw [hs] at h; cases h
    rw [hst1]; rw [hst] at hm
    exact StencilMonotone_push hm hle
  case Restore =>
    obtain ⟨b, c2, hr, _, hcase⟩ := Restore_spec hwf
    rw [Canvas.apply, hr] at h
    cases h
    rcases hcase with ⟨_, hc, _⟩ | ⟨_, back, hst⟩
    · rw [hc]; exact hm
    · exact StencilMonotone_suffix hm (by rw [hst]; exact List.suffix_cons _ _)
  case RestoreToCount count =>
    obtain ⟨c2, hr, _, _, _, _, hsuf⟩ := RestoreToCount_spec hwf count
    rw [Canvas.apply, hr] at h
    cases h
    exact StencilMonotone_suffix hm hsuf
  case ClipPath path clip_op =>
    obtain ⟨c2, top, rest, hr, _, hst, hst1⟩ := ClipPath_spec hwf path clip_op
    rw [Canvas.apply, hr] at h
    cases h
    rw [hst1]; rw [hst] at hm
    exact StencilMonotone_top hm (Nat.le_succ _)
  case EndRecordingAsPicture =>
    rw [Canvas.apply, EndRecordingAsPicture_eq] at h
    cases h
    simp [StencilMonotone, Canvas.fresh]
  all_goals first
    | exact apply_monotone_draw hm _ (by rfl) h
    | exact apply_monotone_transform hwf hm _ (by rfl) h

theorem Reachable_monotone {c : Canvas S M} (h : Reachable c) :
    StencilMonotone c.xformation_stack_ := by
  induction h with
  | create hc =>
    rw [create_eq_fresh] at hc
    cases hc
    simp [StencilMonotone, Canvas.fresh]
  | step op hr hstep ih => exact apply_monotone (Reachable_WF hr) ih op hstep

theorem head_depth_ge {more : List (CanvasStackEntry M)} {top : CanvasStackEntry M}
    {rest : List (CanvasStackEntry M)} (hm : StencilMonotone (more ++ top :: rest)) :
    ∃ head tail, more ++ top :: rest = head :: tail ∧
      top.stencil_depth ≤ head.stencil_depth := by
  cases more with
  | nil => exact ⟨top, rest, rfl, le_refl _⟩
  | cons m more0 =>
    refine ⟨m, more0 ++ top :: rest, rfl, ?_⟩
    unfold StencilMonotone at hm
    rw [List.cons_append, List.pairwise_cons] at hm
    exact hm.1 top (by simp)

theorem run_nested :
    ∀ (ops : List (Op S M)) (i j : Nat) (c : Canvas S M) (more : List (CanvasStackEntry M))
      (top : CanvasStackEntry M) (rest : List (CanvasStackEntry M)),
      c.WF → c.xformation_stack_ = more ++ top :: rest → more.length = i →
      nesting i ops = some j → (∀ op ∈ ops, op.Callable = true) →
      ∃ c1 more1 top1, c.run ops = some c1 ∧ c1.WF ∧
        c1.xformation_stack_ = more1 ++ top1 :: rest ∧ more1.length = j ∧
        top.stencil_depth ≤ top1.stencil_depth := by
  intro ops
  induction ops with
  | nil =>
    intro i j c more top rest hwf hst hlen hn _
    simp only [nesting, Option.some.injEq] at hn
    exact ⟨c, more, top, rfl, hwf, hst, by omega, le_refl _⟩
  | cons op ops ih =>
    intro i j c more top rest hwf hst hlen hn hcall
    have hc := hcall op (List.mem_cons_self _ _)
    have hcs : ∀ o ∈ ops, o.Callable = true := fun o ho => hcall o (List.mem_cons_of_mem _ ho)
    by_cases hs : op.IsSave = true
    · simp only [nesting, hs, if_true] at hn
      obtain ⟨c1, top0, rest0, e, h1, hwf1, hst0, hst1, _⟩ := save_step hwf op hs
      rw [hst0.symm, hst] at hst1
      obtain ⟨c2, more2, top2, h2, hwf2, hst2, hlen2, hle2⟩ :=
        ih (i + 1) j c1 (e :: more) top rest hwf1 (by simpa using hst1) (by simp [hlen]) hn hcs
      exact ⟨c2, more2, top2, by simp [Canvas.run, h1, h2], hwf2, hst2, hlen2, hle2⟩
    by_cases hl : op.IsLocal = true
    · simp only [nesting, hs, hl, if_true, Bool.false_eq_true, if_false] at hn
      cases more with
      | nil =>
        obtain ⟨c1, top1, h1, hwf1, hst1, hd1⟩ := local_step hwf op hl hc (by simpa using hst)
        obtain ⟨c2, more2, top2, h2, hwf2, hst2, hlen2, hle2⟩ :=
          ih i j c1 [] top1 rest hwf1 (by simpa using hst1) hlen hn hcs
        exact ⟨c2, more2, top2, by simp [Canvas.run, h1, h2], hwf2, hst2, hlen2, by omega⟩
      | cons m more0 =>
        obtain ⟨c1, m1, h1, hwf1, hst1, _⟩ :=
          local_step hwf op hl hc
            (show c.xformation_stack_ = m :: (more0 ++ top :: rest) by simpa using hst)
        obtain ⟨c2, more2, top2, h2, hwf2, hst2, hlen2, hle2⟩ :=
          ih i j c1 (m1 :: more0) top rest hwf1 (by simpa using hst1) (by simpa using hlen) hn hcs
        exact ⟨c2, more2, top2, by simp [Canvas.run, h1, h2], hwf2, hst2, hlen2, hle2⟩
    by_cases hr : op.IsRestore = true
    · simp only [nesting, hs, hl, hr, if_true, Bool.false_eq_true, if_false] at hn
      cases i with
      | zero => simp at hn
      | succ k =>
        simp only at hn
        cases more with
        | nil => simp at hlen
        | cons m more0 =>
          obtain ⟨head, tail, htail, _⟩ : ∃ head tail, more0 ++ top :: rest = head :: tail ∧
              True := by
            cases more0 with
            | nil => exact ⟨top, rest, rfl, trivial⟩
            | cons x xs => exact ⟨x, xs ++ top :: rest, rfl, trivial⟩
          obtain ⟨c1, h1, hwf1, hst1⟩ := Restore_of_two hwf
            (show c.xformation_stack_ = m :: head :: tail by
              rw [hst, List.cons_append, htail])
          have hop : c.apply op = some c1 := by
            cases op <;> simp [Op.IsRestore] at hr
            simp [Canvas.apply, h1]
          obtain ⟨c2, more2, top2, h2, hwf2, hst2, hlen2, hle2⟩ :=
            ih k j c1 more0 top rest hwf1 (by rw [hst1, htail]) (by simpa using hlen) hn hcs
          exact ⟨c2, more2, top2, by simp [Canvas.run, hop, h2], hwf2, hst2, hlen2, hle2⟩
    · simp [nesting, hs, hl, hr] at hn

end MonotoneLemmas

/-! ## The claims -/

section Claims
variable {S M : Type} [One M] [Mul M] [ScalarOps S] [MatrixOps S M]

theorem sampleCanvas_run : (Canvas.fresh : Canvas Int IntAffine).run sampleOps = some sampleCanvas := by
  rfl

theorem sampleBody_balanced : Balanced sampleBody 1 :=
  @Balanced.cons Int IntAffine _ _ 0 rfl
    (@Balanced.cons Int IntAffine _ _ 0 rfl
      (@Balanced.nest Int IntAffine Op.Save
        [Op.ClipPath (Path.user 2) ClipOperation.kIntersect]
        [Op.DrawPath (Path.user 3) samplePaint] 1 0 rfl
        (@Balanced.cons Int IntAffine _ _ 0 rfl Balanced.nil)
        (@Balanced.cons Int IntAffine _ _ 0 rfl Balanced.nil)))

theorem sampleBody_callable : ∀ op ∈ sampleBody, op.Callable = true := by
  intro op hop
  simp only [sampleBody, List.mem_cons, List.mem_singleton, List.not_mem_nil, or_false] at hop
  rcases hop with rfl | rfl | rfl | rfl | rfl | rfl <;> rfl

theorem sampleTranslate_balanced :
    Balanced [(Op.Translate { x := 1, y := 2, z := 0 } : Op Int IntAffine)] 0 :=
  @Balanced.cons Int IntAffine _ _ 0 rfl Balanced.nil

theorem sampleMid_callable :
    ∀ op ∈ [(Op.Translate { x := 1, y := 2, z := 0 } : Op Int IntAffine)] ++
      (Op.Save :: sampleBody), op.Callable = true := by
  intro op hop
  simp only [sampleBody, List.singleton_append, List.mem_cons, List.mem_singleton,
    List.not_mem_nil, or_false] at hop
  rcases hop with rfl | rfl | rfl | rfl | rfl | rfl | rfl | rfl <;> rfl

/-- C1: in every state reachable from a newly constructed canvas by calls of the
public operations, the state stack is not empty, the save count is at least 1,
and `GetSaveCount` is the length of the stack. -/
theorem save_count_pos_of_reachable (c : Canvas S M) (h : Reachable c) :
    c.xformation_stack_ ≠ [] ∧ 1 ≤ c.GetSaveCount ∧
      c.GetSaveCount = c.xformation_stack_.length := by
  have hwf := (Reachable_WF h)
  refine ⟨?_, WF_saveCount_pos hwf, rfl⟩
  obtain ⟨_, _, _, _, _, hne, _⟩ := hwf
  exact hne

theorem save_count_pos_of_reachable_witness :
    Reachable sampleCanvas ∧
      (sampleCanvas.xformation_stack_ ≠ [] ∧ 1 ≤ sampleCanvas.GetSaveCount ∧
        sampleCanvas.GetSaveCount = sampleCanvas.xformation_stack_.length) :=
  ⟨Reachable_run (Reachable.create rfl) sampleOps rfl,
   save_count_pos_of_reachable sampleCanvas
     (Reachable_run (Reachable.create rfl) sampleOps rfl)⟩

/-- C2: on a reachable state `Restore` returns; it returns false exactly when
the save count is 1; when it returns false the state is unchanged (stack,
current pass and render graph), and when it returns true the save count is one
less than before. -/
theorem Restore_false_iff_save_count_one (c : Canvas S M) (h : Reachable c) :
    ∃ b c1, c.Restore = some (b, c1) ∧ (b = false ↔ c.GetSaveCount = 1) ∧
      (b = false → c1 = c) ∧ (b = true → c1.GetSaveCount + 1 = c.GetSaveCount) := by
  obtain ⟨b, c1, hr, hwf1, hcase⟩ := Restore_spec (Reachable_WF h)
  refine ⟨b, c1, hr, ?_⟩
  rcases hcase with ⟨hb, hc1, hone⟩ | ⟨hb, back, hst⟩
  · subst hb
    exact ⟨⟨fun _ => hone, fun _ => rfl⟩, fun _ => hc1, fun hf => absurd hf (by simp)⟩
  · subst hb
    have hpos := WF_saveCount_pos hwf1
    have hlen : c.GetSaveCount = c1.GetSaveCount + 1 := by
      simp [Canvas.GetSaveCount, hst]
    refine ⟨⟨fun hf => absurd hf (by simp), fun hone => ?_⟩,
      fun hf => absurd hf (by simp), fun _ => hlen.symm⟩
    omega

theorem Restore_false_iff_save_count_one_witness :
    Reachable sampleCanvas ∧
      ∃ b c1, sampleCanvas.Restore = some (b, c1) ∧ (b = false ↔ sampleCanvas.GetSaveCount = 1) ∧
        (b = false → c1 = sampleCanvas) ∧
        (b = true → c1.GetSaveCount + 1 = sampleCanvas.GetSaveCount) :=
  ⟨Reachable_run (Reachable.create rfl) sampleOps rfl,
   Restore_false_iff_save_count_one sampleCanvas
     (Reachable_run (Reachable.create rfl) sampleOps rfl)⟩

/-- C3: from a reachable state, `Save`, then a balanced sequence `body` of
transform mutators, `ClipPath` calls, drawing calls (with callable paints) and
nested save/restore pairs, then `Restore`, all return, and the final state has
the stack it had before the `Save`: the same save count, current transform and
stencil depth. Before the final `Restore` the save count is one more and the
stencil depth is the old one plus the number `n` of `ClipPath` calls of the
body outside nested pairs. A raised depth does not come back earlier: after
`Save`, a balanced sequence `pre` with `k` such clips, one more `ClipPath` and
any continuation `mid` that closes no level it did not open (so the matching
`Restore` has not run), the stencil depth is at least the depth before that
clip plus one. -/
theorem Save_Restore_round_trip (c : Canvas S M) (h : Reachable c)
    (body : List (Op S M)) (n : Nat) (hb : Balanced body n)
    (hcall : ∀ op ∈ body, op.Callable = true)
    (pre mid : List (Op S M)) (k j : Nat) (path : Path S) (clip_op : ClipOperation)
    (hpre : Balanced pre k) (hmid : nesting 0 mid = some j)
    (hcall2 : ∀ op ∈ pre ++ mid, op.Callable = true) :
    (∃ c1 c2, c.run (Op.Save :: body) = some c1 ∧ c1.Restore = some (true, c2) ∧
      c1.GetSaveCount = c.GetSaveCount + 1 ∧
      c1.GetStencilDepth = c.GetStencilDepth.map (fun d => d + n) ∧
      c2.xformation_stack_ = c.xformation_stack_ ∧
      c2.GetSaveCount = c.GetSaveCount ∧
      c2.GetCurrentTransformation = c.GetCurrentTransformation ∧
      c2.GetStencilDepth = c.GetStencilDepth) ∧
    (∃ d cm dm, c.GetStencilDepth = some d ∧
      c.run (Op.Save :: (pre ++ Op.ClipPath path clip_op :: mid)) = some cm ∧
      cm.GetStencilDepth = some dm ∧ d + k + 1 ≤ dm ∧
      cm.GetSaveCount = c.GetSaveCount + 1 + j) := by
  have hwf := (Reachable_WF h)
  obtain ⟨c0, top, rest, hs, hwf0, hst, hst0⟩ :=
    SaveWith_spec hwf false BlendMode.kSourceOver none
  constructor
  · obtain ⟨c1, top1, hrun, hwf1, hst1, hd1⟩ :=
      run_balanced hb c0 _ (top :: rest) hwf0 hst0 hcall
    obtain ⟨c2, hr, _, hst2⟩ := Restore_of_two hwf1 hst1
    have hrun1 : c.run (Op.Save :: body) = some c1 := by
      simp only [Canvas.run, Canvas.apply, Canvas.Save, hs]
      exact hrun
    refine ⟨c1, c2, hrun1, hr, ?_, ?_, by rw [hst2, hst], ?_, ?_, ?_⟩
    · simp [Canvas.GetSaveCount, hst1, hst]
    · simp [Canvas.GetStencilDepth, Canvas.back, hst1, hst, hd1]
    · simp [Canvas.GetSaveCount, hst2, hst]
    · simp [Canvas.GetCurrentTransformation, Canvas.back, hst2, hst]
    · simp [Canvas.GetStencilDepth, Canvas.back, hst2, hst]
  · obtain ⟨c1, top1, hrun1, hwf1, hst1, hd1⟩ :=
      run_balanced hpre c0 _ (top :: rest) hwf0 hst0
        (fun o ho => hcall2 o (List.mem_append_left _ ho))
    obtain ⟨c2, top2, rest2, hclip, hwf2, hst2a, hst2⟩ := ClipPath_spec hwf1 path clip_op
    rw [hst1] at hst2a
    simp only [List.cons.injEq] at hst2a
    obtain ⟨rfl, rfl⟩ := hst2a
    obtain ⟨cm, more, top3, hrunm, _, hstm, hlen, hle⟩ :=
      run_nested mid 0 j c2 [] _ (top :: rest) hwf2 (by simpa using hst2) rfl hmid
        (fun o ho => hcall2 o (List.mem_append_right _ ho))
    have hrun : c.run (Op.Save :: (pre ++ Op.ClipPath path clip_op :: mid)) = some cm := by
      simp only [Canvas.run, Canvas.apply, Canvas.Save, hs]
      rw [run_append, hrun1]
      simp [Canvas.run, Canvas.apply, hclip, hrunm]
    have hmono := Reachable_monotone (Reachable_run h _ hrun)
    rw [hstm] at hmono
    obtain ⟨head, tail, hht, hge⟩ := head_depth_ge hmono
    refine ⟨top.stencil_depth, cm, head.stencil_depth, by simp [Canvas.GetStencilDepth,
      Canvas.back, hst], hrun, by simp [Canvas.GetStencilDepth, Canvas.back, hstm, hht], ?_, ?_⟩
    · simp only at hle hd1
      omega
    · simp [Canvas.GetSaveCount, hstm, hst, hlen]
      omega

theorem Save_Restore_round_trip_witness :
    Reachable sampleCanvas ∧ Balanced sampleBody 1 ∧
      (∀ op ∈ sampleBody, op.Callable = true) ∧
      Balanced [(Op.Translate { x := 1, y := 2, z := 0 } : Op Int IntAffine)] 0 ∧
      nesting 0 (Op.Save :: sampleBody) = some 1 ∧
      (∀ op ∈ [(Op.Translate { x := 1, y := 2, z := 0 } : Op Int IntAffine)] ++
          (Op.Save :: sampleBody), op.Callable = true) ∧
      (∃ c1 c2, sampleCanvas.run (Op.Save :: sampleBody) = some c1 ∧
        c1.Restore = some (true, c2) ∧
        c1.GetSaveCount = sampleCanvas.GetSaveCount + 1 ∧
        c1.GetStencilDepth = sampleCanvas.GetStencilDepth.map (fun d => d + 1) ∧
        c2.xformation_stack_ = sampleCanvas.xformation_stack_ ∧
        c2.GetSaveCount = sampleCanvas.GetSaveCount ∧
        c2.GetCurrentTransformation = sampleCanvas.GetCurrentTransformation ∧
        c2.GetStencilDepth = sampleCanvas.GetStencilDepth) ∧
      (∃ d cm dm, sampleCanvas.GetStencilDepth = some d ∧
        sampleCanvas.run (Op.Save ::
          ([(Op.Translate { x := 1, y := 2, z := 0 } : Op Int IntAffine)] ++
            Op.ClipPath (Path.user 9) ClipOperation.kIntersect ::
              (Op.Save :: sampleBody))) = some cm ∧
        cm.GetStencilDepth = some dm ∧ d + 0 + 1 ≤ dm ∧
        cm.GetSaveCount = sampleCanvas.GetSaveCount + 1 + 1) :=
  ⟨Reachable_run (Reachable.create rfl) sampleOps rfl, sampleBody_balanced,
   sampleBody_callable, sampleTranslate_balanced, rfl, sampleMid_callable,
   (Save_Restore_round_trip sampleCanvas
     (Reachable_run (Reachable.create rfl) sampleOps rfl) sampleBody 1 sampleBody_balanced
     sampleBody_callable [Op.Translate { x := 1, y := 2, z := 0 }] (Op.Save :: sampleBody) 0 1
     (Path.user 9) ClipOperation.kIntersect sampleTranslate_balanced rfl
     sampleMid_callable).1,
   (Save_Restore_round_trip sampleCanvas
     (Reachable_run (Reachable.create rfl) sampleOps rfl) sampleBody 1 sampleBody_balanced
     sampleBody_callable [Op.Translate { x := 1, y := 2, z := 0 }] (Op.Save :: sampleBody) 0 1
     (Path.user 9) ClipOperation.kIntersect sampleTranslate_balanced rfl
     sampleMid_callable).2⟩

/-- C4: on a reachable state `ClipPath(path, op)` returns and appends exactly
one record to the current pass, a clip record with the current transform and
the stencil depth from before the call; no other pass changes and the current
pass stays current; afterwards the stencil depth is one greater, the top entry
has `contains_clips` set, and the save count, the top transform and every lower
stack entry are unchanged. -/
theorem ClipPath_appends_one_clip_record (c : Canvas S M) (h : Reachable c)
    (path : Path S) (clip_op : ClipOperation) :
    ∃ g cur p top rest c1,
      c = ⟨some g, some cur, top :: rest⟩ ∧ g[cur]? = some p ∧
      c.ClipPath path clip_op = some c1 ∧
      c1.base_pass_ = some (g.set cur { p with elements_ := p.elements_ ++
        [Element.entity
          { xformation := top.xformation, stencil_depth := top.stencil_depth,
            blend_mode := BlendMode.kSourceOver,
            contents := Contents.clip (Geometry.fillPath path) clip_op }] }) ∧
      c1.current_pass_ = some cur ∧
      c1.xformation_stack_ =
        { top with stencil_depth := top.stencil_depth + 1, contains_clips := true } :: rest ∧
      c.GetStencilDepth = some top.stencil_depth ∧
      c1.GetStencilDepth = some (top.stencil_depth + 1) ∧
      c1.GetSaveCount = c.GetSaveCount ∧
      c1.GetCurrentTransformation = c.GetCurrentTransformation := by
  obtain ⟨g, cur, top, rest, p, rfl, hp, _⟩ := (WF_destruct (Reachable_WF h))
  exact ⟨g, cur, p, top, rest, _, rfl, hp, ClipPath_mk top rest path clip_op hp, rfl, rfl, rfl,
    rfl, rfl, rfl, rfl⟩

theorem ClipPath_appends_one_clip_record_witness :
    Reachable sampleCanvas ∧
      ∃ g cur p top rest c1,
        sampleCanvas = ⟨some g, some cur, top :: rest⟩ ∧ g[cur]? = some p ∧
        sampleCanvas.ClipPath (Path.user 7) ClipOperation.kDifference = some c1 ∧
        c1.base_pass_ = some (g.set cur { p with elements_ := p.elements_ ++
          [Element.entity
            { xformation := top.xformation, stencil_depth := top.stencil_depth,
              blend_mode := BlendMode.kSourceOver,
              contents :=
                Contents.clip (Geometry.fillPath (Path.user 7)) ClipOperation.kDifference }] }) ∧
        c1.current_pass_ = some cur ∧
        c1.xformation_stack_ =
          { top with stencil_depth := top.stencil_depth + 1, contains_clips := true } :: rest ∧
        sampleCanvas.GetStencilDepth = some top.stencil_depth ∧
        c1.GetStencilDepth = some (top.stencil_depth + 1) ∧
        c1.GetSaveCount = sampleCanvas.GetSaveCount ∧
        c1.GetCurrentTransformation = sampleCanvas.GetCurrentTransformation :=
  ⟨Reachable_run (Reachable.create rfl) sampleOps rfl,
   ClipPath_appends_one_clip_record sampleCanvas
     (Reachable_run (Reachable.create rfl) sampleOps rfl) (Path.user 7)
     ClipOperation.kDifference⟩

/-- C5: on a reachable state with save count at least 2, `Restore` returns true
and pops the top entry. The pass that is current afterwards is the parent of
the old current pass when the popped entry was a subpass entry, and the old
current pass otherwise. When the popped entry had `contains_clips` set, exactly
one record is appended, to that pass: a clip-restore record with the transform
and stencil depth of the entry that is on top after the pop; otherwise the
render graph is unchanged. -/
theorem Restore_emits_one_clip_restore (c : Canvas S M) (h : Reachable c)
    (h2 : 2 ≤ c.GetSaveCount) :
    ∃ g cur back next rest cur1 p1 c1,
      c = ⟨some g, some cur, back :: next :: rest⟩ ∧
      c.Restore = some (true, c1) ∧
      (back.is_subpass = true → g.superpassOf cur = some cur1) ∧
      (back.is_subpass = false → cur1 = cur) ∧
      g[cur1]? = some p1 ∧
      c1.current_pass_ = some cur1 ∧ c1.xformation_stack_ = next :: rest ∧
      (back.contains_clips = false → c1.base_pass_ = some g) ∧
      (back.contains_clips = true →
        c1.base_pass_ = some (g.set cur1 { p1 with elements_ := p1.elements_ ++
          [Element.entity
            { xformation := next.xformation, stencil_depth := next.stencil_depth,
              blend_mode := BlendMode.kSourceOver,
              contents := Contents.clipRestore }] })) := by
  have hwf := (Reachable_WF h)
  obtain ⟨g, cur, back, rest0, p, rfl, hp, _⟩ := (WF_destruct hwf)
  cases rest0 with
  | nil => simp at h2
  | cons next rest =>
    obtain ⟨cur1, p1, hp1, _, hsub, hnsub, hr⟩ := Restore_pop hwf
    refine ⟨g, cur, back, next, rest, cur1, p1, _, rfl, hr, hsub, hnsub, hp1, rfl, rfl, ?_, ?_⟩
    · intro hcl; simp [hcl]
    · intro hcl; simp [hcl, EntityPass.AddEntity]

theorem Restore_emits_one_clip_restore_witness :
    Reachable sampleCanvas ∧ 2 ≤ sampleCanvas.GetSaveCount ∧
      ∃ g cur back next rest cur1 p1 c1,
        sampleCanvas = ⟨some g, some cur, back :: next :: rest⟩ ∧
        sampleCanvas.Restore = some (true, c1) ∧
        (back.is_subpass = true → g.superpassOf cur = some cur1) ∧
        (back.is_subpass = false → cur1 = cur) ∧
        g[cur1]? = some p1 ∧
        c1.current_pass_ = some cur1 ∧ c1.xformation_stack_ = next :: rest ∧
        (back.contains_clips = false → c1.base_pass_ = some g) ∧
        (back.contains_clips = true →
          c1.base_pass_ = some (g.set cur1 { p1 with elements_ := p1.elements_ ++
            [Element.entity
              { xformation := next.xformation, stencil_depth := next.stencil_depth,
                blend_mode := BlendMode.kSourceOver,
                contents := Contents.clipRestore }] })) :=
  ⟨Reachable_run (Reachable.create rfl) sampleOps rfl, by decide,
   Restore_emits_one_clip_restore sampleCanvas
     (Reachable_run (Reachable.create rfl) sampleOps rfl) (by decide)⟩

/-- C6: when the current transform is `T`, `Concat(m)` returns and leaves
`T * m` as current transform, `PreConcat(m)` leaves `m * T`; `Concat(a)` followed
by `Concat(b)` leaves `T * a * b`; and `Translate`, both `Scale` overloads,
`Skew` and `Rotate` are `Concat` of the matching primitive matrix. -/
theorem Concat_post_multiplies (c : Canvas S M) (T : M)
    (hT : c.GetCurrentTransformation = some T) (m a b : M) :
    (∃ c1, c.Concat m = some c1 ∧ c1.GetCurrentTransformation = some (T * m)) ∧
    (∃ c1, c.PreConcat m = some c1 ∧ c1.GetCurrentTransformation = some (m * T)) ∧
    (∃ c1 c2, c.Concat a = some c1 ∧ c1.Concat b = some c2 ∧
      c2.GetCurrentTransformation = some (T * a * b)) ∧
    (∀ offset : Vector3 S, c.Translate offset = c.Concat (MatrixOps.MakeTranslation offset)) ∧
    (∀ scale : Vector2 S, c.Scale scale = c.Concat (MatrixOps.MakeScale2 scale)) ∧
    (∀ scale : Vector3 S, c.Scale3 scale = c.Concat (MatrixOps.MakeScale scale)) ∧
    (∀ sx sy : S, c.Skew sx sy = c.Concat (MatrixOps.MakeSkew sx sy)) ∧
    (∀ r : Radians S, c.Rotate r = c.Concat (MatrixOps.MakeRotationZ r)) := by
  cases c with
  | mk base cp st =>
    cases st with
    | nil => simp [Canvas.GetCurrentTransformation, Canvas.back] at hT
    | cons top rest =>
      simp only [GetCurrentTransformation_mk, Option.some.injEq] at hT
      subst hT
      exact ⟨⟨_, Concat_mk _ _ _ _ _, rfl⟩, ⟨_, PreConcat_mk _ _ _ _ _, rfl⟩,
        ⟨_, _, Concat_mk _ _ _ _ _, Concat_mk _ _ _ _ _, rfl⟩,
        fun _ => rfl, fun _ => rfl, fun _ => rfl, fun _ _ => rfl, fun _ => rfl⟩

theorem Concat_post_multiplies_witness :
    sampleCanvas.GetCurrentTransformation =
        some ({ a := 1, b := 0, c := 0, d := 1, tx := 10, ty := 20 } : IntAffine) ∧
      ((∃ c1, sampleCanvas.Concat (IntAffine.quarterTurns 1) = some c1 ∧
        c1.GetCurrentTransformation =
          some (({ a := 1, b := 0, c := 0, d := 1, tx := 10, ty := 20 } : IntAffine) *
            IntAffine.quarterTurns 1)) ∧
      (∃ c1, sampleCanvas.PreConcat (IntAffine.quarterTurns 1) = some c1 ∧
        c1.GetCurrentTransformation =
          some (IntAffine.quarterTurns 1 *
            ({ a := 1, b := 0, c := 0, d := 1, tx := 10, ty := 20 } : IntAffine))) ∧
      (∃ c1 c2, sampleCanvas.Concat (IntAffine.quarterTurns 1) = some c1 ∧
        c1.Concat (IntAffine.quarterTurns 2) = some c2 ∧
        c2.GetCurrentTransformation =
          some (({ a := 1, b := 0, c := 0, d := 1, tx := 10, ty := 20 } : IntAffine) *
            IntAffine.quarterTurns 1 * IntAffine.quarterTurns 2)) ∧
      (∀ offset : Vector3 Int,
        sampleCanvas.Translate offset =
          sampleCanvas.Concat (MatrixOps.MakeTranslation offset)) ∧
      (∀ scale : Vector2 Int,
        sampleCanvas.Scale scale = sampleCanvas.Concat (MatrixOps.MakeScale2 scale)) ∧
      (∀ scale : Vector3 Int,
        sampleCanvas.Scale3 scale = sampleCanvas.Concat (MatrixOps.MakeScale scale)) ∧
      (∀ sx sy : Int, sampleCanvas.Skew sx sy = sampleCanvas.Concat (MatrixOps.MakeSkew sx sy)) ∧
      (∀ r : Radians Int,
        sampleCanvas.Rotate r = sampleCanvas.Concat (MatrixOps.MakeRotationZ r))) :=
  ⟨rfl,
   Concat_post_multiplies sampleCanvas
     ({ a := 1, b := 0, c := 0, d := 1, tx := 10, ty := 20 } : IntAffine) rfl
     (IntAffine.quarterTurns 1) (IntAffine.quarterTurns 1) (IntAffine.quarterTurns 2)⟩

/-- C7: on a reachable state with save count `c`, `RestoreToCount(n)` returns
(the loop ends and no call fails). When `n >= c` the state is unchanged. When
`n < c` the save count afterwards is `max(n, 1)` and the state is the one
reached by exactly `c - max(n, 1)` calls of `Restore` that each return true;
for `n = 0` the loop stops at save count 1. -/
theorem RestoreToCount_save_count (c : Canvas S M) (h : Reachable c) (n : Nat) :
    ∃ c1, c.RestoreToCount n = some c1 ∧
      (c.GetSaveCount ≤ n → c1 = c ∧ c1.GetSaveCount = c.GetSaveCount) ∧
      (n < c.GetSaveCount → c1.GetSaveCount = max n 1 ∧
        c.restoreTimes (c.GetSaveCount - max n 1) = some c1) := by
  obtain ⟨c1, hr, _, hcount, _, htimes, _⟩ := RestoreToCount_spec (Reachable_WF h) n
  refine ⟨c1, hr, ?_, ?_⟩
  · intro hle
    rw [if_pos hle] at hcount
    rw [hcount] at htimes
    simp only [Nat.sub_self, Canvas.restoreTimes, Option.some.injEq] at htimes
    exact ⟨htimes.symm, hcount⟩
  · intro hlt
    rw [if_neg (by omega)] at hcount
    rw [hcount] at htimes
    exact ⟨hcount, htimes⟩

theorem RestoreToCount_save_count_witness :
    Reachable sampleCanvas ∧
      ∃ c1, sampleCanvas.RestoreToCount 0 = some c1 ∧
        (sampleCanvas.GetSaveCount ≤ 0 →
          c1 = sampleCanvas ∧ c1.GetSaveCount = sampleCanvas.GetSaveCount) ∧
        (0 < sampleCanvas.GetSaveCount → c1.GetSaveCount = max 0 1 ∧
          sampleCanvas.restoreTimes (sampleCanvas.GetSaveCount - max 0 1) = some c1) :=
  ⟨Reachable_run (Reachable.create rfl) sampleOps rfl,
   RestoreToCount_save_count sampleCanvas
     (Reachable_run (Reachable.create rfl) sampleOps rfl) 0⟩

/-- C8, what the code does at the input of the claim: after `Save`, three clips
and a translation by `(10, 20)` the stencil depth is 3; the clone `DrawPicture`
builds for the sample picture has its records at depth 0 + 3 with transform
the translation; and `DrawPicture` returns the canvas unchanged, so no record
of the clone is in the current pass or anywhere in the render graph. -/
theorem DrawPicture_drops_the_clone :
    (Canvas.fresh : Canvas Int IntAffine).run sampleOps = some sampleCanvas ∧
      sampleCanvas.GetStencilDepth = some 3 ∧
      (repositionedClone samplePictureGraph 3
          ({ a := 1, b := 0, c := 0, d := 1, tx := 10, ty := 20 } : IntAffine)).allEntities =
        [{ sampleClip 3 with
            xformation := { a := 1, b := 0, c := 0, d := 1, tx := 10, ty := 20 } },
         { sampleFill with
            stencil_depth := 3,
            xformation := { a := 1, b := 0, c := 0, d := 1, tx := 10, ty := 20 } }] ∧
      sampleCanvas.DrawPicture samplePicture = some sampleCanvas :=
  ⟨rfl, rfl, by decide, rfl⟩

end Claims

/-! ## The effect pipeline: claims -/

section PipelineClaims
variable {S M : Type} [One M] [Mul M] [ScalarOps S] [MatrixOps S M]

theorem WithImageFilter_stage {p : Paint S M} (h : optionalEqNullptr p.image_filter = false)
    (input : Contents S M) (t : M) :
    p.WithImageFilter input t = some (imageFilterStage p t input) := by
  rcases optionalEqNullptr_false h with hs | ⟨f, hs⟩
  · simp [Paint.WithImageFilter, imageFilterStage, hs]
  · simp [Paint.WithImageFilter, imageFilterStage, hs, StdFunction.call, FilterInput.Make]

theorem WithColorFilter_stage (p : Paint S M) {filter : Option (ColorFilterProc S M)}
    (h : optionalEqNullptr filter = false) (input : Contents S M) (b : Bool) :
    p.WithColorFilter input filter b = some (colorFilterStage filter b input) := by
  rcases optionalEqNullptr_false h with hs | ⟨f, hs⟩
  · subst hs
    simp [Paint.WithColorFilter, colorFilterStage]
  · subst hs
    cases hf : f input with
    | none =>
      simp [Paint.WithColorFilter, colorFilterStage, StdFunction.call, FilterInput.Make, hf]
    | some k =>
      simp [Paint.WithColorFilter, colorFilterStage, StdFunction.call, FilterInput.Make, hf,
        ColorFilterContents.SetAbsorbOpacity, ColorFilterContents.toContents]

theorem WithMaskBlur_stage (p : Paint S M) (input : Contents S M) (flag : Bool) (t : M) :
    p.WithMaskBlur input flag t = maskBlurStage p flag t input := by
  unfold Paint.WithMaskBlur maskBlurStage
  cases p.mask_blur_descriptor with
  | none => rfl
  | some d =>
    cases flag <;>
      simp [MaskBlurDescriptor.CreateMaskBlur, FilterContents.MakeGaussianBlur,
        FilterContents.MakeBorderMaskBlur, FilterInput.Make]

theorem WithFilters_eq_chain {p : Paint S M} (hf : p.FiltersCallable = true)
    (input : Contents S M) (o : Option Bool) (t : M) :
    p.WithFilters input o t =
      some (effectChain p (o.getD (!p.color_source.isSome)) false t input) := by
  obtain ⟨h2, h3, h4⟩ := FiltersCallable_parts hf
  unfold Paint.WithFilters effectChain invertStage
  simp only [WithMaskBlur_stage, WithImageFilter_stage h2, WithColorFilter_stage p h3]
  cases hi : p.invert_colors
  · simp
  · obtain ⟨h5, h6⟩ := h4 hi
    simp [h5, WithColorFilter_stage p h6]

theorem WithFiltersForSubpassTarget_eq_chain {p : Paint S M} (hf : p.FiltersCallable = true)
    (input : Contents S M) (t : M) :
    p.WithFiltersForSubpassTarget input t = some (effectChain p false true t input) := by
  obtain ⟨h2, h3, h4⟩ := FiltersCallable_parts hf
  unfold Paint.WithFiltersForSubpassTarget effectChain invertStage
  simp only [WithMaskBlur_stage, WithImageFilter_stage h2, WithColorFilter_stage p h3]
  cases hi : p.invert_colors
  · simp
  · obtain ⟨h5, h6⟩ := h4 hi
    simp [h5, WithColorFilter_stage p h6]

/-- C12: for a paint with no mask blur descriptor, no image filter, no color
filter and `invert_colors` false, `WithFilters` returns the input drawable
itself, for every input, every solid-color override and every effect
transform. -/
theorem WithFilters_pass_through (p : Paint S M) (input : Contents S M) (o : Option Bool)
    (t : M) (hblur : p.mask_blur_descriptor = none) (himage : p.image_filter = none)
    (hcolor : p.color_filter = none) (hinvert : p.invert_colors = false) :
    p.WithFilters input o t = some input := by
  simp [Paint.WithFilters, Paint.WithMaskBlur, Paint.WithImageFilter, Paint.WithColorFilter,
    hblur, himage, hcolor, hinvert]

theorem WithFilters_pass_through_witness :
    samplePaint.mask_blur_descriptor = none ∧ samplePaint.image_filter = none ∧
      samplePaint.color_filter = none ∧ samplePaint.invert_colors = false ∧
      samplePaint.WithFilters (Contents.solidColor (Geometry.rect sampleRect) samplePaint.color)
        (some false) (IntAffine.quarterTurns 1) =
        some (Contents.solidColor (Geometry.rect sampleRect) samplePaint.color) :=
  ⟨rfl, rfl, rfl, rfl,
   WithFilters_pass_through samplePaint _ (some false) (IntAffine.quarterTurns 1) rfl rfl rfl
     rfl⟩

/-- C13: for every paint whose filter functions are callable and every input,
`WithFilters` returns the effect chain of the spec applied to the input: the
invert stage around the color-filter stage around the image-filter stage around
the mask-blur stage, each stage the identity when it is not configured; the
mask-blur stage is the Gaussian blur when the solid-color flag is true and the
border-mask blur otherwise, and the flag is the override when one is given and
otherwise whether the paint has no color source. -/
theorem WithFilters_stage_order (p : Paint S M) (hf : p.FiltersCallable = true)
    (input : Contents S M) (o : Option Bool) (t : M) :
    p.WithFilters input o t =
        some (invertStage p false
          (colorFilterStage p.color_filter false
            (imageFilterStage p t
              (maskBlurStage p (o.getD (!p.color_source.isSome)) t input)))) ∧
      (∀ flag : Bool, (some flag).getD (!p.color_source.isSome) = flag) ∧
      ((none : Option Bool).getD (!p.color_source.isSome) = true ↔ p.color_source = none) ∧
      (∀ (d : MaskBlurDescriptor S) (k : Contents S M), p.mask_blur_descriptor = some d →
        maskBlurStage p true t k =
            Contents.gaussianBlur k d.sigma d.sigma d.style TileMode.kDecal t ∧
          maskBlurStage p false t k = Contents.borderMaskBlur k d.sigma d.sigma d.style t) ∧
      (∀ (flag : Bool) (k : Contents S M), p.mask_blur_descriptor = none →
        maskBlurStage p flag t k = k) ∧
      (∀ k : Contents S M, p.image_filter = none → imageFilterStage p t k = k) ∧
      (∀ k : Contents S M, p.color_filter = none →
        colorFilterStage p.color_filter false k = k) ∧
      (∀ k : Contents S M, p.invert_colors = false → invertStage p false k = k) := by
  refine ⟨WithFilters_eq_chain hf input o t, fun _ => rfl, ?_, ?_, ?_, ?_, ?_, ?_⟩
  · cases p.color_source <;> simp
  · intro d k hd
    simp [maskBlurStage, hd]
  · intro flag k hd
    simp [maskBlurStage, hd]
  · intro k hi
    simp [imageFilterStage, hi]
  · intro k hc
    simp [colorFilterStage, hc]
  · intro k hi
    simp [invertStage, hi]

theorem WithFilters_stage_order_witness :
    sampleEffectPaint.FiltersCallable = true ∧
      sampleEffectPaint.WithFilters
          (Contents.solidColor (Geometry.rect sampleRect) samplePaint.color) none 1 =
        some (invertStage sampleEffectPaint false
          (colorFilterStage sampleEffectPaint.color_filter false
            (imageFilterStage sampleEffectPaint 1
              (maskBlurStage sampleEffectPaint
                ((none : Option Bool).getD (!sampleEffectPaint.color_source.isSome)) 1
                (Contents.solidColor (Geometry.rect sampleRect) samplePaint.color))))) ∧
      invertStage sampleEffectPaint false
          (colorFilterStage sampleEffectPaint.color_filter false
            (imageFilterStage sampleEffectPaint 1
              (maskBlurStage sampleEffectPaint
                ((none : Option Bool).getD (!sampleEffectPaint.color_source.isSome)) 1
                (Contents.solidColor (Geometry.rect sampleRect) samplePaint.color)))) =
        Contents.colorFilter 3
          (Contents.colorFilter 2
            (Contents.filter 1
              (Contents.gaussianBlur
                (Contents.solidColor (Geometry.rect sampleRect) samplePaint.color) 3 3
                (BlurStyle.other 1) TileMode.kDecal 1) 1) false) false :=
  ⟨rfl,
   (WithFilters_stage_order sampleEffectPaint rfl
     (Contents.solidColor (Geometry.rect sampleRect) samplePaint.color) none 1).1,
   rfl⟩

/-- C14: for every paint whose filter functions are callable,
`WithFiltersForSubpassTarget(input, t)` is the same chain of stages as
`WithFilters(input, false, t)`: the mask-blur stage with the solid-color flag
false (the border-mask blur when a descriptor is present), then the image
filter, then the color filter, then the invert filter when enabled; the only
difference is that its color-filter and invert stages pass absorb-opacity true
where `WithFilters` passes false, and a filter stage hands that flag to the
drawable the filter function returns. Without color filter and inversion the
two results are equal. -/
theorem WithFiltersForSubpassTarget_absorbs_opacity (p : Paint S M)
    (hf : p.FiltersCallable = true) (input : Contents S M) (t : M) :
    p.WithFiltersForSubpassTarget input t =
        some (invertStage p true
          (colorFilterStage p.color_filter true
            (imageFilterStage p t (maskBlurStage p false t input)))) ∧
      p.WithFilters input (some false) t =
        some (invertStage p false
          (colorFilterStage p.color_filter false
            (imageFilterStage p t (maskBlurStage p false t input)))) ∧
      (∀ d : MaskBlurDescriptor S, p.mask_blur_descriptor = some d →
        maskBlurStage p false t input =
          Contents.borderMaskBlur input d.sigma d.sigma d.style t) ∧
      (∀ (f : FilterInput S M → Option (ColorFilterContents S M)) (k : Contents S M)
          (out : ColorFilterContents S M) (b : Bool), f k = some out →
        colorFilterStage (some (StdFunction.target f)) b k =
          Contents.colorFilter out.kind out.input b) ∧
      (p.color_filter = none → p.invert_colors = false →
        p.WithFiltersForSubpassTarget input t = p.WithFilters input (some false) t) := by
  refine ⟨WithFiltersForSubpassTarget_eq_chain hf input t,
    WithFilters_eq_chain hf input (some false) t, ?_, ?_, ?_⟩
  · intro d hd
    simp [maskBlurStage, hd]
  · intro f k out b hk
    simp [colorFilterStage, hk]
  · intro hc hi
    rw [WithFiltersForSubpassTarget_eq_chain hf, WithFilters_eq_chain hf]
    simp [effectChain, invertStage, colorFilterStage, hc, hi]

theorem WithFiltersForSubpassTarget_absorbs_opacity_witness :
    sampleEffectPaint.FiltersCallable = true ∧
      sampleEffectPaint.WithFiltersForSubpassTarget
          (Contents.solidColor (Geometry.rect sampleRect) samplePaint.color) 1 =
        some (invertStage sampleEffectPaint true
          (colorFilterStage sampleEffectPaint.color_filter true
            (imageFilterStage sampleEffectPaint 1
              (maskBlurStage sampleEffectPaint false 1
                (Contents.solidColor (Geometry.rect sampleRect) samplePaint.color))))) ∧
      invertStage sampleEffectPaint true
          (colorFilterStage sampleEffectPaint.color_filter true
            (imageFilterStage sampleEffectPaint 1
              (maskBlurStage sampleEffectPaint false 1
                (Contents.solidColor (Geometry.rect sampleRect) samplePaint.color)))) =
        Contents.colorFilter 3
          (Contents.colorFilter 2
            (Contents.filter 1
              (Contents.borderMaskBlur
                (Contents.solidColor (Geometry.rect sampleRect) samplePaint.color) 3 3
                (BlurStyle.other 1) 1) 1) true) true :=
  ⟨rfl,
   (WithFiltersForSubpassTarget_absorbs_opacity sampleEffectPaint rfl
     (Contents.solidColor (Geometry.rect sampleRect) samplePaint.color) 1).1,
   rfl⟩

end PipelineClaims

/-! ## Picture capture, degenerate inputs and `SaveLayer`: claims -/

section CaptureClaims
variable {S M : Type} [One M] [Mul M] [ScalarOps S] [MatrixOps S M]

/-- C15: on every reachable state `EndRecordingAsPicture` returns a picture
holding the render graph the canvas owned before the call, unchanged (the
former root with the records and subpasses recorded so far), and leaves the
canvas in the state a newly constructed canvas has: save count 1, stencil depth
0, identity transform, and a new root pass without elements as current pass.
The new canvas owns a graph of its own, so what is drawn afterwards goes there
and not into the picture. -/
theorem EndRecordingAsPicture_detaches_and_resets (c : Canvas S M) (h : Reachable c) :
    ∃ g, c.base_pass_ = some g ∧
      c.EndRecordingAsPicture = some ({ pass := some g }, Canvas.fresh) ∧
      (Canvas.create : Option (Canvas S M)) = some Canvas.fresh ∧
      (Canvas.fresh : Canvas S M).GetSaveCount = 1 ∧
      (Canvas.fresh : Canvas S M).GetStencilDepth = some 0 ∧
      (Canvas.fresh : Canvas S M).GetCurrentTransformation = some 1 ∧
      (Canvas.fresh : Canvas S M).base_pass_ = some [EntityPass.new] ∧
      (Canvas.fresh : Canvas S M).current_pass_ = some 0 ∧
      (EntityPass.new : EntityPass S M).elements_ = [] := by
  obtain ⟨g, cur, top, rest, p, rfl, _, _⟩ := WF_destruct (Reachable_WF h)
  exact ⟨g, rfl, rfl, rfl, rfl, rfl, rfl, rfl, rfl, rfl⟩

theorem EndRecordingAsPicture_detaches_and_resets_witness :
    Reachable sampleCanvas ∧
      ∃ g, sampleCanvas.base_pass_ = some g ∧
        sampleCanvas.EndRecordingAsPicture = some ({ pass := some g }, Canvas.fresh) ∧
        (Canvas.create : Option (Canvas Int IntAffine)) = some Canvas.fresh ∧
        (Canvas.fresh : Canvas Int IntAffine).GetSaveCount = 1 ∧
        (Canvas.fresh : Canvas Int IntAffine).GetStencilDepth = some 0 ∧
        (Canvas.fresh : Canvas Int IntAffine).GetCurrentTransformation = some 1 ∧
        (Canvas.fresh : Canvas Int IntAffine).base_pass_ = some [EntityPass.new] ∧
        (Canvas.fresh : Canvas Int IntAffine).current_pass_ = some 0 ∧
        (EntityPass.new : EntityPass Int IntAffine).elements_ = [] :=
  ⟨Reachable_run (Reachable.create rfl) sampleOps rfl,
   EndRecordingAsPicture_detaches_and_resets sampleCanvas
     (Reachable_run (Reachable.create rfl) sampleOps rfl)⟩

/-- C16: on every state, a drawing call with a degenerate input returns the
state unchanged (no record, the same stack, current pass and render graph):
`DrawImage` and `DrawImageRect` with a null image, `DrawImageRect` with an
empty source rect, an empty destination rect or an image of empty size,
`DrawAtlas` with a null atlas or an atlas of empty size, and `DrawPicture` with
a picture that holds no graph. -/
theorem degenerate_draws_change_nothing (c : Canvas S M) (paint : Paint S M)
    (sampler : SamplerDescriptor) (img : Image) (source dest : Rect S) (offset : Point S)
    (transforms : List M) (texture_coordinates : List (Rect S)) (colors : List (Color S))
    (blend_mode : BlendMode) (cull_rect : Option (Rect S)) :
    c.DrawImage none offset paint sampler = some c ∧
      c.DrawImageRect none source dest paint sampler = some c ∧
      (source.size.IsEmpty = true →
        c.DrawImageRect (some img) source dest paint sampler = some c) ∧
      (dest.size.IsEmpty = true →
        c.DrawImageRect (some img) source dest paint sampler = some c) ∧
      (img.GetSize.IsEmpty S = true →
        c.DrawImageRect (some img) source dest paint sampler = some c) ∧
      c.DrawAtlas none transforms texture_coordinates colors blend_mode sampler cull_rect
          paint = some c ∧
      (img.GetSize.IsEmpty S = true →
        c.DrawAtlas (some img) transforms texture_coordinates colors blend_mode sampler
          cull_rect paint = some c) ∧
      c.DrawPicture { pass := none } = some c := by
  refine ⟨rfl, rfl, ?_, ?_, ?_, rfl, ?_, rfl⟩
  · intro hs
    simp [Canvas.DrawImageRect, hs]
  · intro hd
    simp [Canvas.DrawImageRect, hd]
  · intro hi
    simp [Canvas.DrawImageRect, hi]
  · intro hi
    simp [Canvas.DrawAtlas, hi]

theorem degenerate_draws_change_nothing_witness :
    sampleEmptyRect.size.IsEmpty = true ∧ sampleEmptyImage.GetSize.IsEmpty Int = true ∧
      sampleCanvas.DrawImage none { x := 1, y := 1 } sampleEffectPaint { id := 0 } =
        some sampleCanvas ∧
      sampleCanvas.DrawImageRect none sampleEmptyRect sampleEmptyRect sampleEffectPaint
        { id := 0 } = some sampleCanvas ∧
      (sampleEmptyRect.size.IsEmpty = true →
        sampleCanvas.DrawImageRect (some sampleEmptyImage) sampleEmptyRect sampleEmptyRect
          sampleEffectPaint { id := 0 } = some sampleCanvas) ∧
      (sampleEmptyRect.size.IsEmpty = true →
        sampleCanvas.DrawImageRect (some sampleEmptyImage) sampleEmptyRect sampleEmptyRect
          sampleEffectPaint { id := 0 } = some sampleCanvas) ∧
      (sampleEmptyImage.GetSize.IsEmpty Int = true →
        sampleCanvas.DrawImageRect (some sampleEmptyImage) sampleEmptyRect sampleEmptyRect
          sampleEffectPaint { id := 0 } = some sampleCanvas) ∧
      sampleCanvas.DrawAtlas none [] [] [] BlendMode.kSourceOver { id := 0 } none
          sampleEffectPaint = some sampleCanvas ∧
      (sampleEmptyImage.GetSize.IsEmpty Int = true →
        sampleCanvas.DrawAtlas (some sampleEmptyImage) [] [] [] BlendMode.kSourceOver
          { id := 0 } none sampleEffectPaint = some sampleCanvas) ∧
      sampleCanvas.DrawPicture { pass := none } = some sampleCanvas :=
  ⟨by decide, by decide,
   degenerate_draws_change_nothing sampleCanvas sampleEffectPaint { id := 0 }
     sampleEmptyImage sampleEmptyRect sampleEmptyRect { x := 1, y := 1 } [] [] []
     BlendMode.kSourceOver none⟩

theorem SaveLayer_mk {g : RenderGraph S M} {cur : Nat} {p : EntityPass S M}
    (top : CanvasStackEntry M) (rest : List (CanvasStackEntry M)) (paint : Paint S M)
    (bounds : Option (Rect S)) (backdrop_filter : Option (ImageFilterProc S M))
    (hp : g[cur]? = some p) :
    Canvas.SaveLayer (⟨some g, some cur, top :: rest⟩ : Canvas S M) paint bounds
        backdrop_filter =
      some ⟨some (g.set cur { p with elements_ := p.elements_ ++ [Element.subpass g.length] } ++
          [{ elements_ :=
               match bounds with
               | some b =>
                 if backdrop_filter.isSome = true then []
                 else [Element.entity
                   { xformation := top.xformation, stencil_depth := top.stencil_depth,
                     blend_mode := BlendMode.kSourceOver,
                     contents := Contents.clip (Geometry.fillPath (Path.rect b))
                       ClipOperation.kIntersect }]
               | none => [],
             superpass_ := some cur, xformation_ := top.xformation,
             stencil_depth_ := top.stencil_depth, blend_mode_ := paint.blend_mode,
             backdrop_filter_proc_ := backdrop_filter,
             delegate_ := some { paint := paint, coverage := bounds },
             lazy_glyph_atlas_ := [] }]),
        some g.length,
        { xformation := top.xformation,
          stencil_depth :=
            match bounds with
            | some _ => if backdrop_filter.isSome = true then top.stencil_depth
                        else top.stencil_depth + 1
            | none => top.stencil_depth,
          is_subpass := true,
          contains_clips :=
            match bounds with
            | some _ => if backdrop_filter.isSome = true then false else true
            | none => false } :: top :: rest⟩ := by
  have hlt := lt_of_getElem? g cur p hp
  have hlen : (g.set cur { p with elements_ := p.elements_ ++ [Element.subpass g.length] }).length
      = g.length := by simp
  cases bounds with
  | none =>
    simp [Canvas.SaveLayer, bind, SaveWith_mk top rest paint.blend_mode backdrop_filter hp,
      Canvas.writeCurrentPass, Canvas.GetCurrentPass, RenderGraph.update,
      List.getElem?_append_right, List.set_append, EntityPass.SetDelegate]
  | some b =>
    cases hbf : backdrop_filter.isSome
    · simp [Canvas.SaveLayer, bind, SaveWith_mk top rest paint.blend_mode backdrop_filter hp,
        Canvas.writeCurrentPass, Canvas.GetCurrentPass, RenderGraph.update,
        List.getElem?_append_right, List.set_append, EntityPass.SetDelegate, hbf,
        Canvas.ClipPath, Canvas.AddEntity, Entity.new, Entity.SetTransformation,
        Entity.SetContents, Entity.SetStencilDepth, EntityPass.AddEntity]
    · simp [Canvas.SaveLayer, bind, SaveWith_mk top rest paint.blend_mode backdrop_filter hp,
        Canvas.writeCurrentPass, Canvas.GetCurrentPass, RenderGraph.update,
        List.getElem?_append_right, List.set_append, EntityPass.SetDelegate, hbf]

/-- C17: on a reachable state `SaveLayer(paint, bounds, backdrop_filter)`
returns, raises the save count by exactly 1 with an entry marked `is_subpass`,
appends one new pass to the render graph as the last child of the pass that was
current, and makes it the current pass. When bounds are given and no backdrop
filter is, exactly one record is recorded, a clip record in the new pass, and
the stencil depth is one more than before the call; otherwise the new pass has
no record and the stencil depth is the one from before the call. -/
theorem SaveLayer_pushes_subpass (c : Canvas S M) (h : Reachable c) (paint : Paint S M)
    (bounds : Option (Rect S)) (backdrop_filter : Option (ImageFilterProc S M)) :
    ∃ g cur p top rest c1 entry layer,
      c = ⟨some g, some cur, top :: rest⟩ ∧ g[cur]? = some p ∧
      c.SaveLayer paint bounds backdrop_filter = some c1 ∧
      c1.GetSaveCount = c.GetSaveCount + 1 ∧
      c1.xformation_stack_ = entry :: top :: rest ∧ entry.is_subpass = true ∧
      c1.current_pass_ = some g.length ∧
      c1.base_pass_ = some
        (g.set cur { p with elements_ := p.elements_ ++ [Element.subpass g.length] } ++
          [layer]) ∧
      layer.superpass_ = some cur ∧
      c.GetStencilDepth = some top.stencil_depth ∧
      (∀ b, bounds = some b → backdrop_filter.isSome = false →
        layer.elements_ = [Element.entity
          { xformation := top.xformation, stencil_depth := top.stencil_depth,
            blend_mode := BlendMode.kSourceOver,
            contents := Contents.clip (Geometry.fillPath (Path.rect b))
              ClipOperation.kIntersect }] ∧
        c1.GetStencilDepth = some (top.stencil_depth + 1)) ∧
      ((bounds = none ∨ backdrop_filter.isSome = true) →
        layer.elements_ = [] ∧ c1.GetStencilDepth = some top.stencil_depth) := by
  obtain ⟨g, cur, top, rest, p, rfl, hp, _⟩ := WF_destruct (Reachable_WF h)
  refine ⟨g, cur, p, top, rest, _, _, _, rfl, hp,
    SaveLayer_mk top rest paint bounds backdrop_filter hp, rfl, rfl, rfl, rfl, rfl, rfl, rfl,
    ?_, ?_⟩
  · intro b hb hbf
    subst hb
    simp [hbf]
  · intro hcase
    rcases hcase with hb | hbf
    · subst hb
      simp
    · cases bounds <;> simp [hbf]

theorem sampleLayerCanvas_run :
    (Canvas.fresh : Canvas Int IntAffine).run sampleLayerOps = some sampleLayerCanvas := rfl

theorem SaveLayer_pushes_subpass_witness :
    Reachable sampleCanvas ∧
      ∃ g cur p top rest c1 entry layer,
        sampleCanvas = ⟨some g, some cur, top :: rest⟩ ∧ g[cur]? = some p ∧
        sampleCanvas.SaveLayer samplePaint (some sampleRect) none = some c1 ∧
        c1.GetSaveCount = sampleCanvas.GetSaveCount + 1 ∧
        c1.xformation_stack_ = entry :: top :: rest ∧ entry.is_subpass = true ∧
        c1.current_pass_ = some g.length ∧
        c1.base_pass_ = some
          (g.set cur { p with elements_ := p.elements_ ++ [Element.subpass g.length] } ++
            [layer]) ∧
        layer.superpass_ = some cur ∧
        sampleCanvas.GetStencilDepth = some top.stencil_depth ∧
        (∀ b, some sampleRect = some b →
          (none : Option (ImageFilterProc Int IntAffine)).isSome = false →
          layer.elements_ = [Element.entity
            { xformation := top.xformation, stencil_depth := top.stencil_depth,
              blend_mode := BlendMode.kSourceOver,
              contents := Contents.clip (Geometry.fillPath (Path.rect b))
                ClipOperation.kIntersect }] ∧
          c1.GetStencilDepth = some (top.stencil_depth + 1)) ∧
        ((some sampleRect = none ∨
            (none : Option (ImageFilterProc Int IntAffine)).isSome = true) →
          layer.elements_ = [] ∧ c1.GetStencilDepth = some top.stencil_depth) :=
  ⟨Reachable_run (Reachable.create rfl) sampleOps rfl,
   SaveLayer_pushes_subpass sampleCanvas
     (Reachable_run (Reachable.create rfl) sampleOps rfl) samplePaint (some sampleRect) none⟩

end CaptureClaims

/-! ## What each drawing call records -/

section RecordLemmas
variable {S M : Type} [One M] [Mul M] [ScalarOps S] [MatrixOps S M]

theorem DrawPath_mk {g : RenderGraph S M} {cur : Nat} {p : EntityPass S M}
    (top : CanvasStackEntry M) (rest : List (CanvasStackEntry M)) {path : Path S}
    {paint : Paint S M} {base w : Contents S M} (hp : g[cur]? = some p)
    (hbase : paint.CreateContentsForEntity path false = some base)
    (hw : paint.WithFilters base none 1 = some w) :
    Canvas.DrawPath (⟨some g, some cur, top :: rest⟩ : Canvas S M) path paint =
      some ⟨some (g.set cur (p.AddEntity
          { xformation := top.xformation, stencil_depth := top.stencil_depth,
            blend_mode := paint.blend_mode, contents := w })),
        some cur, top :: rest⟩ := by
  simp [Canvas.DrawPath, bind, hbase, hw, AddEntity_mk _ _ hp, Entity.new,
    Entity.SetTransformation, Entity.SetStencilDepth, Entity.SetBlendMode, Entity.SetContents]

theorem DrawPaint_mk {g : RenderGraph S M} {cur : Nat} {p : EntityPass S M}
    (top : CanvasStackEntry M) (rest : List (CanvasStackEntry M)) {paint : Paint S M}
    {base : Contents S M} (hp : g[cur]? = some p)
    (hbase : paint.CreateContentsForEntity Path.empty true = some base) :
    Canvas.DrawPaint (⟨some g, some cur, top :: rest⟩ : Canvas S M) paint =
      some ⟨some (g.set cur (p.AddEntity
          { xformation := top.xformation, stencil_depth := top.stencil_depth,
            blend_mode := paint.blend_mode, contents := base })),
        some cur, top :: rest⟩ := by
  simp [Canvas.DrawPaint, bind, hbase, AddEntity_mk _ _ hp, Entity.new,
    Entity.SetTransformation, Entity.SetStencilDepth, Entity.SetBlendMode, Entity.SetContents]

theorem Attempt_slow_mk (c : Canvas S M) (rect : Rect S) (r : S) {paint : Paint S M}
    (hslow : paint.TakesFastPath = false) :
    c.AttemptDrawBlurredRRect rect r paint = some (false, c) := by
  unfold Canvas.AttemptDrawBlurredRRect
  unfold Paint.TakesFastPath at hslow
  split
  · rfl
  · next hc =>
    simp only [hc, Bool.not_false, Bool.true_and] at hslow
    split
    · rfl
    · next d hd =>
      rw [hd] at hslow
      simp only [Bool.not_eq_false'] at hslow
      simp [hslow]

theorem TakesFastPath_parts {paint : Paint S M} (hfast : paint.TakesFastPath = true) :
    (optionalEqNullptr paint.color_source ||
        paint.color_source_type != ColorSourceType.kColor ||
        paint.style != Style.kFill) = false ∧
      ∃ d, paint.mask_blur_descriptor = some d ∧ (d.style != BlurStyle.kNormal) = false := by
  unfold Paint.TakesFastPath at hfast
  simp only [Bool.and_eq_true, Bool.not_eq_true'] at hfast
  refine ⟨hfast.1, ?_⟩
  cases hd : paint.mask_blur_descriptor with
  | none => rw [hd] at hfast; exact absurd hfast.2 (by simp)
  | some d =>
    rw [hd] at hfast
    exact ⟨d, rfl, by simpa using hfast.2⟩

theorem Attempt_fast_mk {g : RenderGraph S M} {cur : Nat} {p : EntityPass S M}
    (top : CanvasStackEntry M) (rest : List (CanvasStackEntry M)) (rect : Rect S) (r : S)
    {paint : Paint S M} {d : MaskBlurDescriptor S} {w : Contents S M}
    (hp : g[cur]? = some p) (hfast : paint.TakesFastPath = true)
    (hd : paint.mask_blur_descriptor = some d)
    (hw : ({ paint with mask_blur_descriptor := none } : Paint S M).WithFilters
      (Contents.rrectShadow paint.color d.sigma rect r) none 1 = some w) :
    Canvas.AttemptDrawBlurredRRect (⟨some g, some cur, top :: rest⟩ : Canvas S M) rect r paint =
      some (true, ⟨some (g.set cur (p.AddEntity
          { xformation := top.xformation, stencil_depth := top.stencil_depth,
            blend_mode := paint.blend_mode, contents := w })),
        some cur, top :: rest⟩) := by
  obtain ⟨h1, d1, hd1, h2⟩ := TakesFastPath_parts hfast
  rw [hd] at hd1
  cases hd1
  simp [Canvas.AttemptDrawBlurredRRect, h1, hd, h2, bind, hw, AddEntity_mk _ _ hp, Entity.new,
    Entity.SetTransformation, Entity.SetStencilDepth, Entity.SetBlendMode, Entity.SetContents]

theorem TakesFastPath_fill {paint : Paint S M} (hfast : paint.TakesFastPath = true) :
    paint.style = Style.kFill := by
  have h := (TakesFastPath_parts hfast).1
  simp only [Bool.or_eq_false_iff, bne_eq_false_iff_eq] at h
  exact h.2

theorem DrawRect_stroke (c : Canvas S M) (rect : Rect S) {paint : Paint S M}
    (hs : paint.style = Style.kStroke) :
    c.DrawRect rect paint = c.DrawPath (Path.rect rect) paint := by
  simp [Canvas.DrawRect, hs]

theorem DrawRect_fast (c : Canvas S M) (rect : Rect S) {paint : Paint S M}
    (hfast : paint.TakesFastPath = true) {c1 : Canvas S M}
    (ha : c.AttemptDrawBlurredRRect rect (ScalarOps.ofInt 0) paint = some (true, c1)) :
    c.DrawRect rect paint = some c1 := by
  simp [Canvas.DrawRect, TakesFastPath_fill hfast, ha]

theorem DrawRect_slow_mk {g : RenderGraph S M} {cur : Nat} {p : EntityPass S M}
    (top : CanvasStackEntry M) (rest : List (CanvasStackEntry M)) (rect : Rect S)
    {paint : Paint S M} {base w : Contents S M} (hp : g[cur]? = some p)
    (hs : paint.style = Style.kFill) (hslow : paint.TakesFastPath = false)
    (hbase : paint.CreateContentsForGeometry (Geometry.rect rect) = some base)
    (hw : paint.WithFilters base none 1 = some w) :
    Canvas.DrawRect (⟨some g, some cur, top :: rest⟩ : Canvas S M) rect paint =
      some ⟨some (g.set cur (p.AddEntity
          { xformation := top.xformation, stencil_depth := top.stencil_depth,
            blend_mode := paint.blend_mode, contents := w })),
        some cur, top :: rest⟩ := by
  simp [Canvas.DrawRect, hs, Attempt_slow_mk _ rect _ hslow, bind, hbase, hw,
    AddEntity_mk _ _ hp, Entity.new, Entity.SetTransformation, Entity.SetStencilDepth,
    Entity.SetBlendMode, Entity.SetContents]

theorem DrawRRect_slow (c : Canvas S M) (rect : Rect S) (r : S) {paint : Paint S M}
    (hslow : paint.TakesFastPath = false) :
    c.DrawRRect rect r paint = c.DrawPath (Path.roundedRect rect r) paint := by
  simp [Canvas.DrawRRect, Attempt_slow_mk _ rect r hslow]

theorem DrawRRect_fast (c : Canvas S M) (rect : Rect S) (r : S) {paint : Paint S M}
    {c1 : Canvas S M} (ha : c.AttemptDrawBlurredRRect rect r paint = some (true, c1)) :
    c.DrawRRect rect r paint = some c1 := by
  simp [Canvas.DrawRRect, ha]

theorem DrawCircle_slow (c : Canvas S M) (center : Point S) (r : S) {paint : Paint S M}
    (hslow : paint.TakesFastPath = false) :
    c.DrawCircle center r paint = c.DrawPath (Path.circle center r) paint := by
  simp [Canvas.DrawCircle, Attempt_slow_mk _ _ r hslow]

theorem DrawCircle_fast (c : Canvas S M) (center : Point S) (r : S) {paint : Paint S M}
    {c1 : Canvas S M}
    (ha : c.AttemptDrawBlurredRRect
      { origin := center.subSize { width := r, height := r },
        size := Size.scale { width := r, height := r } (ScalarOps.ofInt 2) } r paint =
        some (true, c1)) :
    c.DrawCircle center r paint = some c1 := by
  simp [Canvas.DrawCircle, ha]

theorem DrawImageRect_mk {g : RenderGraph S M} {cur : Nat} {p : EntityPass S M}
    (top : CanvasStackEntry M) (rest : List (CanvasStackEntry M)) (img : Image)
    (source dest : Rect S) {paint : Paint S M} (sampler : SamplerDescriptor)
    {w : Contents S M} (hp : g[cur]? = some p)
    (hs : source.size.IsEmpty = false) (hd : dest.size.IsEmpty = false)
    (hi : img.GetSize.IsEmpty S = false)
    (hw : paint.WithFilters
      (Contents.texture dest img.GetTexture source sampler paint.color.alpha) (some false) 1 =
        some w) :
    Canvas.DrawImageRect (⟨some g, some cur, top :: rest⟩ : Canvas S M) (some img) source dest
        paint sampler =
      some ⟨some (g.set cur (p.AddEntity
          { xformation := top.xformation, stencil_depth := top.stencil_depth,
            blend_mode := paint.blend_mode, contents := w })),
        some cur, top :: rest⟩ := by
  simp [Canvas.DrawImageRect, hs, hd, hi, bind, hw, AddEntity_mk _ _ hp, Entity.new,
    Entity.SetTransformation, Entity.SetStencilDepth, Entity.SetBlendMode, Entity.SetContents]

theorem DrawImage_some (c : Canvas S M) (img : Image) (offset : Point S) (paint : Paint S M)
    (sampler : SamplerDescriptor) :
    c.DrawImage (some img) offset paint sampler =
      c.DrawImageRect (some img) (Rect.MakeSize img.GetSize)
        (Rect.MakeXYWH offset.x offset.y (Rect.MakeSize img.GetSize : Rect S).size.width
          (Rect.MakeSize img.GetSize : Rect S).size.height) paint sampler := rfl

theorem DrawTextFrame_mk {g : RenderGraph S M} {cur : Nat} {p : EntityPass S M}
    (top : CanvasStackEntry M) (rest : List (CanvasStackEntry M)) (frame : TextFrame)
    (position : Point S) {paint : Paint S M} {w : Contents S M} (hp : g[cur]? = some p)
    (hw : paint.WithFilters (Contents.text frame { pass := cur } paint.color) (some true) 1 =
      some w) :
    Canvas.DrawTextFrame (⟨some g, some cur, top :: rest⟩ : Canvas S M) frame position paint =
      some ⟨some (g.set cur ((p.AddTextFrame frame).AddEntity
          { xformation := top.xformation * MatrixOps.MakeTranslation position.toVector3,
            stencil_depth := top.stencil_depth,
            blend_mode := paint.blend_mode, contents := w })),
        some cur, top :: rest⟩ := by
  have hlt := lt_of_getElem? g cur p hp
  have hp1 : (g.set cur (p.AddTextFrame frame))[cur]? = some (p.AddTextFrame frame) := by
    simp [List.getElem?_set, hlt]
  simp [Canvas.DrawTextFrame, bind, Canvas.GetCurrentPass, writeCurrentPass_mk _ _ hp, hw,
    AddEntity_mk _ _ hp1, Entity.new, Entity.SetTransformation, Entity.SetStencilDepth,
    Entity.SetBlendMode, Entity.SetContents]

theorem DrawVertices_solid_mk {g : RenderGraph S M} {cur : Nat} {p : EntityPass S M}
    (top : CanvasStackEntry M) (rest : List (CanvasStackEntry M))
    (vertices : VerticesGeometry) (blend_mode : BlendMode) {paint : Paint S M}
    {w : Contents S M} (hp : g[cur]? = some p) (hsrc : paint.color_source = none)
    (hw : paint.WithFilters
      (Contents.vertices paint.color blend_mode (Geometry.vertices vertices)) (some true) 1 =
        some w) :
    Canvas.DrawVertices (⟨some g, some cur, top :: rest⟩ : Canvas S M) vertices blend_mode
        paint =
      some ⟨some (g.set cur (p.AddEntity
          { xformation := top.xformation, stencil_depth := top.stencil_depth,
            blend_mode := paint.blend_mode, contents := w })),
        some cur, top :: rest⟩ := by
  simp [Canvas.DrawVertices, bind, hsrc, hw, AddEntity_mk _ _ hp, Entity.new,
    Entity.SetTransformation, Entity.SetStencilDepth, Entity.SetBlendMode, Entity.SetContents]

theorem DrawVertices_source_mk {g : RenderGraph S M} {cur : Nat} {p : EntityPass S M}
    (top : CanvasStackEntry M) (rest : List (CanvasStackEntry M))
    (vertices : VerticesGeometry) (blend_mode : BlendMode) {paint : Paint S M}
    {factory : Unit → ColorSourceContents S} {w : Contents S M} (hp : g[cur]? = some p)
    (hsrc : paint.color_source = some (StdFunction.target factory))
    (hw : paint.WithFilters
      (Contents.colorSource
        (((factory ()).SetGeometry (Geometry.vertices vertices)).SetAlpha paint.color.alpha))
      (some true) 1 = some w) :
    Canvas.DrawVertices (⟨some g, some cur, top :: rest⟩ : Canvas S M) vertices blend_mode
        paint =
      some ⟨some (g.set cur (p.AddEntity
          { xformation := top.xformation, stencil_depth := top.stencil_depth,
            blend_mode := paint.blend_mode, contents := w })),
        some cur, top :: rest⟩ := by
  simp [Canvas.DrawVertices, bind, hsrc, StdFunction.call, hw, AddEntity_mk _ _ hp, Entity.new,
    Entity.SetTransformation, Entity.SetStencilDepth, Entity.SetBlendMode, Entity.SetContents]

theorem DrawAtlas_mk {g : RenderGraph S M} {cur : Nat} {p : EntityPass S M}
    (top : CanvasStackEntry M) (rest : List (CanvasStackEntry M)) (img : Image)
    (transforms : List M) (texture_coordinates : List (Rect S)) (colors : List (Color S))
    (blend_mode : BlendMode) (sampler : SamplerDescriptor) (cull_rect : Option (Rect S))
    {paint : Paint S M} {w : Contents S M} (hp : g[cur]? = some p)
    (hi : img.GetSize.IsEmpty S = false)
    (hw : paint.WithFilters
      (Contents.atlas colors transforms texture_coordinates img.GetTexture sampler blend_mode
        cull_rect paint.color.alpha) (some false) 1 = some w) :
    Canvas.DrawAtlas (⟨some g, some cur, top :: rest⟩ : Canvas S M) (some img) transforms
        texture_coordinates colors blend_mode sampler cull_rect paint =
      some ⟨some (g.set cur (p.AddEntity
          { xformation := top.xformation, stencil_depth := top.stencil_depth,
            blend_mode := paint.blend_mode, contents := w })),
        some cur, top :: rest⟩ := by
  simp [Canvas.DrawAtlas, hi, bind, hw, AddEntity_mk _ _ hp, Entity.new,
    Entity.SetTransformation, Entity.SetStencilDepth, Entity.SetBlendMode, Entity.SetContents]

end RecordLemmas

/-! ## The stack and the parent chain of the current pass -/

section DepthClaims
variable {S M : Type} [One M] [Mul M] [ScalarOps S] [MatrixOps S M]

theorem root_set (g : RenderGraph S M) (cur : Nat) (p q : EntityPass S M)
    (hp : g[cur]? = some p) (hq : q.superpass_ = p.superpass_)
    (hroot : g.superpassOf 0 = none) : RenderGraph.superpassOf (g.set cur q) 0 = none := by
  rw [superpassOf_set g cur 0 p q hp hq]
  exact hroot

theorem root_set_append (g : RenderGraph S M) (cur : Nat) (p q x : EntityPass S M)
    (hp : g[cur]? = some p) (hq : q.superpass_ = p.superpass_)
    (hroot : g.superpassOf 0 = none) :
    RenderGraph.superpassOf (g.set cur q ++ [x]) 0 = none := by
  have hlt := lt_of_getElem? g cur p hp
  rw [superpassOf_append _ _ _ (by simp; omega)]
  exact root_set g cur p q hp hq hroot

theorem Restore_root {c c1 : Canvas S M} {b : Bool} (hwf : c.WF)
    (h : c.Restore = some (b, c1)) (g : RenderGraph S M) (hg : c.base_pass_ = some g)
    (hroot : g.superpassOf 0 = none) :
    ∃ g1, c1.base_pass_ = some g1 ∧ g1.superpassOf 0 = none := by
  obtain ⟨g0, cur, top, rest, p, rfl, hp, hch⟩ := WF_destruct hwf
  cases hg
  cases rest with
  | nil =>
    rw [Restore_single] at h
    cases h
    exact ⟨g, rfl, hroot⟩
  | cons next rest =>
    obtain ⟨cur1, p1, hp1, _, _, _, hr⟩ := Restore_pop hwf
    rw [hr] at h
    cases h
    refine ⟨_, rfl, ?_⟩
    split
    · exact root_set g cur1 p1 _ hp1 rfl hroot
    · exact hroot

theorem restoreTimes_root :
    ∀ (k : Nat) (c c1 : Canvas S M), c.WF → Canvas.restoreTimes k c = some c1 →
      ∀ g, c.base_pass_ = some g → g.superpassOf 0 = none →
      ∃ g1, c1.base_pass_ = some g1 ∧ g1.superpassOf 0 = none := by
  intro k
  induction k with
  | zero =>
    intro c c1 _ h g hg hroot
    simp only [Canvas.restoreTimes] at h
    cases h
    exact ⟨g, hg, hroot⟩
  | succ k ih =>
    intro c c1 hwf h g hg hroot
    obtain ⟨b, c2, hr, hwf2, _⟩ := Restore_spec hwf
    obtain ⟨g2, hg2, hroot2⟩ := Restore_root hwf hr g hg hroot
    simp only [Canvas.restoreTimes, hr] at h
    cases b with
    | false => simp at h
    | true => exact ih c2 c1 hwf2 h g2 hg2 hroot2

theorem apply_root_draw {c c1 : Canvas S M} (hwf : c.WF) (op : Op S M)
    (hd : op.IsDraw = true) (h : c.apply op = some c1) (g : RenderGraph S M)
    (hg : c.base_pass_ = some g) (hroot : g.superpassOf 0 = none) :
    ∃ g1, c1.base_pass_ = some g1 ∧ g1.superpassOf 0 = none := by
  rcases draw_effect op hd h with rfl | ⟨f, hf, hw⟩
  · exact ⟨g, hg, hroot⟩
  · obtain ⟨g0, cur, top, rest, p, rfl, hp, _⟩ := WF_destruct hwf
    cases hg
    rw [writeCurrentPass_mk _ f hp] at hw
    cases hw
    exact ⟨_, rfl, root_set _ cur p _ hp (hf p) hroot⟩

theorem apply_root_transform {c c1 : Canvas S M} (hwf : c.WF) (op : Op S M)
    (ht : op.IsTransform = true) (h : c.apply op = some c1) (g : RenderGraph S M)
    (hg : c.base_pass_ = some g) (hroot : g.superpassOf 0 = none) :
    ∃ g1, c1.base_pass_ = some g1 ∧ g1.superpassOf 0 = none := by
  obtain ⟨g0, cur, top, rest, p, rfl, hp, _⟩ := WF_destruct hwf
  obtain ⟨t, ht⟩ := transform_mk (some g0) (some cur) top rest op ht
  rw [ht] at h
  cases h
  exact ⟨g, hg, hroot⟩

theorem apply_root {c c1 : Canvas S M} (hwf : c.WF) (op : Op S M)
    (h : c.apply op = some c1) (g : RenderGraph S M) (hg : c.base_pass_ = some g)
    (hroot : g.superpassOf 0 = none) :
    ∃ g1, c1.base_pass_ = some g1 ∧ g1.superpassOf 0 = none := by
  obtain ⟨g0, cur, top, rest, p, hc, hp, _⟩ := WF_destruct hwf
  cases op
  case Save =>
    subst hc
    cases hg
    rw [Canvas.apply, Canvas.Save, Save_mk] at h
    cases h
    exact ⟨_, rfl, hroot⟩
  case SaveWith b bm bf =>
    subst hc
    cases hg
    cases b
    · rw [Canvas.apply, Save_mk] at h
      cases h
      exact ⟨_, rfl, hroot⟩
    · rw [Canvas.apply, SaveWith_mk top rest bm bf hp] at h
      cases h
      exact ⟨_, rfl, root_set_append _ cur p _ _ hp rfl hroot⟩
  case SaveLayer paint bounds bf =>
    subst hc
    cases hg
    rw [Canvas.apply, SaveLayer_mk top rest paint bounds bf hp] at h
    cases h
    exact ⟨_, rfl, root_set_append _ cur p _ _ hp rfl hroot⟩
  case ClipPath path clip_op =>
    subst hc
    cases hg
    rw [Canvas.apply, ClipPath_mk top rest path clip_op hp] at h
    cases h
    exact ⟨_, rfl, root_set _ cur p _ hp rfl hroot⟩
  case Restore =>
    simp only [Canvas.apply, Option.map_eq_some'] at h
    obtain ⟨⟨b, c2⟩, hr, rfl⟩ := h
    exact Restore_root hwf hr g hg hroot
  case RestoreToCount count =>
    obtain ⟨c2, hr, _, _, _, ht, _⟩ := RestoreToCount_spec hwf count
    rw [Canvas.apply, hr] at h
    cases h
    exact restoreTimes_root _ c c1 hwf ht g hg hroot
  case EndRecordingAsPicture =>
    simp only [Canvas.apply, EndRecordingAsPicture_eq, Option.map_some'] at h
    cases h
    exact ⟨_, rfl, rfl⟩
  all_goals first
    | exact apply_root_draw hwf _ (by rfl) h g hg hroot
    | exact apply_root_transform hwf _ (by rfl) h g hg hroot

theorem Reachable_root {c : Canvas S M} (h : Reachable c) :
    ∃ g, c.base_pass_ = some g ∧ g.superpassOf 0 = none := by
  induction h with
  | create hc =>
    rw [create_eq_fresh] at hc
    cases hc
    exact ⟨_, rfl, rfl⟩
  | step op hr hstep ih =>
    obtain ⟨g, hg, hroot⟩ := ih
    exact apply_root (Reachable_WF hr) op hstep g hg hroot

theorem Chain_ancestor (g : RenderGraph S M) :
    ∀ (st : List (CanvasStackEntry M)) (cur : Nat), Chain g cur st →
      g.ancestor (subpassEntries st) cur = some 0 := by
  intro st
  induction st with
  | nil =>
    intro cur h
    simp only [Chain] at h
    subst h
    rfl
  | cons e rest ih =>
    intro cur h
    simp only [Chain] at h
    cases he : e.is_subpass with
    | false =>
      rw [he] at h
      have := ih cur h
      simpa [subpassEntries, List.countP_cons, he] using this
    | true =>
      rw [he] at h
      obtain ⟨parent, hpar, _, hch⟩ := h
      have := ih parent hch
      simp only [subpassEntries, List.countP_cons, he, if_true] at this ⊢
      simp only [RenderGraph.ancestor, hpar]
      exact this

theorem Chain_root (g : RenderGraph S M) :
    ∀ (st : List (CanvasStackEntry M)) (cur : Nat), Chain g cur st →
      subpassEntries st = 0 → cur = 0 := by
  intro st
  induction st with
  | nil =>
    intro cur h _
    simpa [Chain] using h
  | cons e rest ih =>
    intro cur h hz
    simp only [Chain] at h
    cases he : e.is_subpass with
    | false =>
      rw [he] at h
      exact ih cur h (by simpa [subpassEntries, List.countP_cons, he] using hz)
    | true =>
      simp [subpassEntries, List.countP_cons, he] at hz

/-- C20: on a reachable state the number of stack entries marked `is_subpass`
is the depth of the current pass below the root of the render graph: that many
calls of `GetSuperpass`, starting at the current pass, all return a parent and
end at the root, which has no parent. When no entry is marked the current pass
is the root, and when `Restore` pops a marked entry the current pass has a
parent, `Restore` returns true and the parent is the current pass afterwards. -/
theorem subpass_entries_match_depth (c : Canvas S M) (h : Reachable c) :
    ∃ g cur, c.base_pass_ = some g ∧ c.current_pass_ = some cur ∧ cur < g.length ∧
      g.ancestor (subpassEntries c.xformation_stack_) cur = some 0 ∧
      g.superpassOf 0 = none ∧
      (subpassEntries c.xformation_stack_ = 0 → cur = 0) ∧
      (∀ back next rest, c.xformation_stack_ = back :: next :: rest →
        back.is_subpass = true →
        ∃ parent c1, g.superpassOf cur = some parent ∧ c.Restore = some (true, c1) ∧
          c1.current_pass_ = some parent ∧ c1.xformation_stack_ = next :: rest) := by
  have hwf := Reachable_WF h
  obtain ⟨g, cur, top, rest, p, rfl, hp, hch⟩ := WF_destruct hwf
  have hroot : g.superpassOf 0 = none := by
    obtain ⟨g1, hg1, hr⟩ := Reachable_root h
    cases hg1
    exact hr
  refine ⟨g, cur, rfl, rfl, lt_of_getElem? g cur p hp, Chain_ancestor g _ cur hch, hroot,
    Chain_root g _ cur hch, ?_⟩
  intro back next rest1 hst hsub
  simp only [List.cons.injEq] at hst
  obtain ⟨rfl, rfl⟩ := hst
  obtain ⟨cur1, p1, _, _, hpar, _, hr⟩ := Restore_pop hwf
  exact ⟨cur1, _, hpar hsub, hr, rfl, rfl⟩

theorem subpass_entries_match_depth_witness :
    Reachable sampleLayerCanvas ∧
      ∃ g cur, sampleLayerCanvas.base_pass_ = some g ∧
        sampleLayerCanvas.current_pass_ = some cur ∧ cur < g.length ∧
        g.ancestor (subpassEntries sampleLayerCanvas.xformation_stack_) cur = some 0 ∧
        g.superpassOf 0 = none ∧
        (subpassEntries sampleLayerCanvas.xformation_stack_ = 0 → cur = 0) ∧
        (∀ back next rest, sampleLayerCanvas.xformation_stack_ = back :: next :: rest →
          back.is_subpass = true →
          ∃ parent c1, g.superpassOf cur = some parent ∧
            sampleLayerCanvas.Restore = some (true, c1) ∧
            c1.current_pass_ = some parent ∧ c1.xformation_stack_ = next :: rest) :=
  ⟨Reachable_run (Reachable.create rfl) sampleLayerOps rfl,
   subpass_entries_match_depth sampleLayerCanvas
     (Reachable_run (Reachable.create rfl) sampleLayerOps rfl)⟩

end DepthClaims

/-! ## The record of a drawing call -/

section RecordClaims
variable {S M : Type} [One M] [Mul M] [ScalarOps S] [MatrixOps S M]

theorem DrawPath_rec {g : RenderGraph S M} {cur : Nat} {p : EntityPass S M}
    (top : CanvasStackEntry M) (rest : List (CanvasStackEntry M)) (path : Path S)
    {paint : Paint S M} (hp : g[cur]? = some p) (hc : paint.Callable = true) :
    ∃ base w, paint.CreateContentsForEntity path false = some base ∧
      paint.WithFilters base none 1 = some w ∧
      Canvas.DrawPath (⟨some g, some cur, top :: rest⟩ : Canvas S M) path paint =
        some ⟨some (g.set cur (p.AddEntity
            { xformation := top.xformation, stencil_depth := top.stencil_depth,
              blend_mode := paint.blend_mode, contents := w })),
          some cur, top :: rest⟩ := by
  obtain ⟨base, hbase⟩ := CreateContentsForEntity_isSome hc path false
  obtain ⟨w, hw⟩ := WithFilters_isSome (Callable_filters hc) base none (1 : M)
  exact ⟨base, w, hbase, hw, DrawPath_mk top rest hp hbase hw⟩

theorem fast_rec {g : RenderGraph S M} {cur : Nat} {p : EntityPass S M}
    (top : CanvasStackEntry M) (rest : List (CanvasStackEntry M)) (rect : Rect S) (r : S)
    {paint : Paint S M} {d : MaskBlurDescriptor S} (hp : g[cur]? = some p)
    (hc : paint.Callable = true) (hfast : paint.TakesFastPath = true)
    (hd : paint.mask_blur_descriptor = some d) :
    ∃ w, ({ paint with mask_blur_descriptor := none } : Paint S M).WithFilters
        (Contents.rrectShadow paint.color d.sigma rect r) none 1 = some w ∧
      Canvas.AttemptDrawBlurredRRect (⟨some g, some cur, top :: rest⟩ : Canvas S M) rect r
          paint =
        some (true, ⟨some (g.set cur (p.AddEntity
            { xformation := top.xformation, stencil_depth := top.stencil_depth,
              blend_mode := paint.blend_mode, contents := w })),
          some cur, top :: rest⟩) := by
  obtain ⟨w, hw⟩ := WithFilters_isSome (FiltersCallable_clear_mask_blur (Callable_filters hc))
    (Contents.rrectShadow paint.color d.sigma rect r) none (1 : M)
  exact ⟨w, hw, Attempt_fast_mk top rest rect r hp hfast hd hw⟩

theorem record_intro {g : RenderGraph S M} {cur : Nat} {p : EntityPass S M}
    (top : CanvasStackEntry M) (rest : List (CanvasStackEntry M)) (paint : Paint S M)
    (t : M) (w : Contents S M) (p0 : EntityPass S M) (hel : p0.elements_ = p.elements_)
    {x : Option (Canvas S M)}
    (hx : x = some ⟨some (g.set cur (p0.AddEntity
        { xformation := t, stencil_depth := top.stencil_depth,
          blend_mode := paint.blend_mode, contents := w })), some cur, top :: rest⟩) :
    ∃ e p1, x = some ⟨some (g.set cur p1), some cur, top :: rest⟩ ∧
      p1.elements_ = p.elements_ ++ [Element.entity e] ∧ e.xformation = t ∧
      e.stencil_depth = top.stencil_depth ∧ e.blend_mode = paint.blend_mode :=
  ⟨{ xformation := t, stencil_depth := top.stencil_depth, blend_mode := paint.blend_mode,
     contents := w },
   p0.AddEntity { xformation := t, stencil_depth := top.stencil_depth,
                  blend_mode := paint.blend_mode, contents := w },
   hx, by simp [EntityPass.AddEntity, hel], rfl, rfl, rfl⟩

theorem shape_rec {g : RenderGraph S M} {cur : Nat} {p : EntityPass S M}
    (top : CanvasStackEntry M) (rest : List (CanvasStackEntry M)) {paint : Paint S M}
    (hp : g[cur]? = some p) (hc : paint.Callable = true) :
    (∀ rect, ∃ w, Canvas.DrawRect (⟨some g, some cur, top :: rest⟩ : Canvas S M) rect paint =
        some ⟨some (g.set cur (p.AddEntity
            { xformation := top.xformation, stencil_depth := top.stencil_depth,
              blend_mode := paint.blend_mode, contents := w })),
          some cur, top :: rest⟩) ∧
    (∀ rect r, ∃ w,
      Canvas.DrawRRect (⟨some g, some cur, top :: rest⟩ : Canvas S M) rect r paint =
        some ⟨some (g.set cur (p.AddEntity
            { xformation := top.xformation, stencil_depth := top.stencil_depth,
              blend_mode := paint.blend_mode, contents := w })),
          some cur, top :: rest⟩) ∧
    (∀ center r, ∃ w,
      Canvas.DrawCircle (⟨some g, some cur, top :: rest⟩ : Canvas S M) center r paint =
        some ⟨some (g.set cur (p.AddEntity
            { xformation := top.xformation, stencil_depth := top.stencil_depth,
              blend_mode := paint.blend_mode, contents := w })),
          some cur, top :: rest⟩) := by
  cases hf : paint.TakesFastPath with
  | false =>
    refine ⟨fun rect => ?_, fun rect r => ?_, fun center r => ?_⟩
    · cases hs : paint.style with
      | kStroke =>
        obtain ⟨_, w, _, _, h⟩ := DrawPath_rec top rest (Path.rect rect) hp hc
        exact ⟨w, by rw [DrawRect_stroke _ rect hs]; exact h⟩
      | kFill =>
        obtain ⟨base, hbase⟩ := CreateContentsForGeometry_isSome hc (Geometry.rect rect)
        obtain ⟨w, hw⟩ := WithFilters_isSome (Callable_filters hc) base none (1 : M)
        exact ⟨w, DrawRect_slow_mk top rest rect hp hs hf hbase hw⟩
    · obtain ⟨_, w, _, _, h⟩ := DrawPath_rec top rest (Path.roundedRect rect r) hp hc
      exact ⟨w, by rw [DrawRRect_slow _ rect r hf]; exact h⟩
    · obtain ⟨_, w, _, _, h⟩ := DrawPath_rec top rest (Path.circle center r) hp hc
      exact ⟨w, by rw [DrawCircle_slow _ center r hf]; exact h⟩
  | true =>
    obtain ⟨_, d, hd, _⟩ := TakesFastPath_parts hf
    refine ⟨fun rect => ?_, fun rect r => ?_, fun center r => ?_⟩
    · obtain ⟨w, _, h⟩ := fast_rec top rest rect (ScalarOps.ofInt 0) hp hc hf hd
      exact ⟨w, DrawRect_fast _ rect hf h⟩
    · obtain ⟨w, _, h⟩ := fast_rec top rest rect r hp hc hf hd
      exact ⟨w, DrawRRect_fast _ rect r h⟩
    · obtain ⟨w, _, h⟩ := fast_rec top rest
        { origin := center.subSize { width := r, height := r },
          size := Size.scale { width := r, height := r } (ScalarOps.ofInt 2) } r hp hc hf hd
      exact ⟨w, DrawCircle_fast _ center r h⟩

/-- C18, counterexample: `DrawTextFrame` at position `(5, 7)` on the sample
canvas, whose current transform is the translation by `(10, 20)`, appends a
record whose transform is the translation by `(15, 27)`: the current transform
times the translation to the position, not the current transform. -/
theorem DrawTextFrame_record_is_translated :
    Reachable sampleCanvas ∧
      sampleCanvas.GetCurrentTransformation = some sampleTranslation ∧
      ((sampleCanvas.DrawTextFrame { id := 1 } { x := 5, y := 7 } samplePaint).bind
          Canvas.lastRecord?).map (fun e => e.xformation) =
        some { a := 1, b := 0, c := 0, d := 1, tx := 15, ty := 27 } ∧
      ((sampleCanvas.DrawTextFrame { id := 1 } { x := 5, y := 7 } samplePaint).bind
          Canvas.lastRecord?).map (fun e => e.xformation) ≠
        sampleCanvas.GetCurrentTransformation :=
  ⟨Reachable_run (Reachable.create rfl) sampleOps rfl, rfl, rfl, by decide⟩

/-- C18, amended: on a reachable state a drawing call that records (a shape,
paint, text or vertices call, or an image or atlas call whose input passes the
emptiness tests), with a callable paint, returns and appends exactly one record
to the current pass; the other passes, the stack and the current pass pointer
are the ones from before the call. The record carries the stencil depth of the
top entry and the blend mode of the paint; its transform is the current
transform, except for `DrawTextFrame`, where it is the current transform times
the translation to the position argument. -/
theorem draw_appends_one_record (c : Canvas S M) (h : Reachable c) (op : Op S M)
    (hr : op.Records = true) (hc : op.Callable = true) :
    ∃ g cur p top rest paint e p1,
      c = ⟨some g, some cur, top :: rest⟩ ∧ g[cur]? = some p ∧
      c.GetCurrentTransformation = some top.xformation ∧
      c.GetStencilDepth = some top.stencil_depth ∧
      op.paint? = some paint ∧
      c.apply op = some ⟨some (g.set cur p1), some cur, top :: rest⟩ ∧
      p1.elements_ = p.elements_ ++ [Element.entity e] ∧
      e.xformation =
        (match op.textPosition? with
         | some position => top.xformation * MatrixOps.MakeTranslation position.toVector3
         | none => top.xformation) ∧
      e.stencil_depth = top.stencil_depth ∧ e.blend_mode = paint.blend_mode := by
  obtain ⟨g, cur, top, rest, p, rfl, hp, _⟩ := WF_destruct (Reachable_WF h)
  have key : ∃ paint e p1, op.paint? = some paint ∧
      Canvas.apply (⟨some g, some cur, top :: rest⟩ : Canvas S M) op =
        some ⟨some (g.set cur p1), some cur, top :: rest⟩ ∧
      p1.elements_ = p.elements_ ++ [Element.entity e] ∧
      e.xformation =
        (match op.textPosition? with
         | some position => top.xformation * MatrixOps.MakeTranslation position.toVector3
         | none => top.xformation) ∧
      e.stencil_depth = top.stencil_depth ∧ e.blend_mode = paint.blend_mode := by
    cases op <;> simp only [Op.Records, Bool.false_eq_true] at hr <;>
      simp only [Op.Callable, Op.paint?] at hc
    case DrawPath path paint =>
      obtain ⟨_, w, _, _, hx⟩ := DrawPath_rec top rest path hp hc
      obtain ⟨e, p1, h1, h2, h3, h4, h5⟩ := record_intro top rest paint top.xformation w p rfl hx
      exact ⟨paint, e, p1, rfl, h1, h2, h3, h4, h5⟩
    case DrawPaint paint =>
      obtain ⟨base, hbase⟩ := CreateContentsForEntity_isSome hc Path.empty true
      obtain ⟨e, p1, h1, h2, h3, h4, h5⟩ := record_intro top rest paint top.xformation base p rfl
        (DrawPaint_mk top rest hp hbase)
      exact ⟨paint, e, p1, rfl, h1, h2, h3, h4, h5⟩
    case DrawRect rect paint =>
      obtain ⟨w, hx⟩ := (shape_rec top rest hp hc).1 rect
      obtain ⟨e, p1, h1, h2, h3, h4, h5⟩ := record_intro top rest paint top.xformation w p rfl hx
      exact ⟨paint, e, p1, rfl, h1, h2, h3, h4, h5⟩
    case DrawRRect rect r paint =>
      obtain ⟨w, hx⟩ := (shape_rec top rest hp hc).2.1 rect r
      obtain ⟨e, p1, h1, h2, h3, h4, h5⟩ := record_intro top rest paint top.xformation w p rfl hx
      exact ⟨paint, e, p1, rfl, h1, h2, h3, h4, h5⟩
    case DrawCircle center r paint =>
      obtain ⟨w, hx⟩ := (shape_rec top rest hp hc).2.2 center r
      obtain ⟨e, p1, h1, h2, h3, h4, h5⟩ := record_intro top rest paint top.xformation w p rfl hx
      exact ⟨paint, e, p1, rfl, h1, h2, h3, h4, h5⟩
    case DrawImage image offset paint sampler =>
      cases image with
      | none => simp at hr
      | some img =>
        simp only [Bool.and_eq_true, Bool.not_eq_true'] at hr
        obtain ⟨w, hw⟩ := WithFilters_isSome (Callable_filters hc)
          (Contents.texture
            (Rect.MakeXYWH offset.x offset.y (Rect.MakeSize img.GetSize : Rect S).size.width
              (Rect.MakeSize img.GetSize : Rect S).size.height)
            img.GetTexture (Rect.MakeSize img.GetSize) sampler paint.color.alpha)
          (some false) (1 : M)
        have hx := DrawImageRect_mk top rest img (Rect.MakeSize img.GetSize)
          (Rect.MakeXYWH offset.x offset.y (Rect.MakeSize img.GetSize : Rect S).size.width
            (Rect.MakeSize img.GetSize : Rect S).size.height) sampler hp hr.1 hr.1 hr.2 hw
        rw [← DrawImage_some] at hx
        obtain ⟨e, p1, h1, h2, h3, h4, h5⟩ :=
          record_intro top rest paint top.xformation w p rfl hx
        exact ⟨paint, e, p1, rfl, h1, h2, h3, h4, h5⟩
    case DrawImageRect image source dest paint sampler =>
      cases image with
      | none => simp at hr
      | some img =>
        simp only [Bool.and_eq_true, Bool.not_eq_true'] at hr
        obtain ⟨w, hw⟩ := WithFilters_isSome (Callable_filters hc)
          (Contents.texture dest img.GetTexture source sampler paint.color.alpha)
          (some false) (1 : M)
        obtain ⟨e, p1, h1, h2, h3, h4, h5⟩ :=
          record_intro top rest paint top.xformation w p rfl
            (DrawImageRect_mk top rest img source dest sampler hp hr.1.1 hr.1.2 hr.2 hw)
        exact ⟨paint, e, p1, rfl, h1, h2, h3, h4, h5⟩
    case DrawTextFrame frame position paint =>
      obtain ⟨w, hw⟩ := WithFilters_isSome (Callable_filters hc)
        (Contents.text frame { pass := cur } paint.color) (some true) (1 : M)
      obtain ⟨e, p1, h1, h2, h3, h4, h5⟩ :=
        record_intro top rest paint
          (top.xformation * MatrixOps.MakeTranslation position.toVector3) w
          (p.AddTextFrame frame) rfl (DrawTextFrame_mk top rest frame position hp hw)
      exact ⟨paint, e, p1, rfl, h1, h2, h3, h4, h5⟩
    case DrawVertices vertices blend_mode paint =>
      rcases optionalEqNullptr_false (Callable_source hc) with hs | ⟨f, hs⟩
      · obtain ⟨w, hw⟩ := WithFilters_isSome (Callable_filters hc)
          (Contents.vertices paint.color blend_mode (Geometry.vertices vertices))
          (some true) (1 : M)
        obtain ⟨e, p1, h1, h2, h3, h4, h5⟩ :=
          record_intro top rest paint top.xformation w p rfl
            (DrawVertices_solid_mk top rest vertices blend_mode hp hs hw)
        exact ⟨paint, e, p1, rfl, h1, h2, h3, h4, h5⟩
      · obtain ⟨w, hw⟩ := WithFilters_isSome (Callable_filters hc)
          (Contents.colorSource
            (((f ()).SetGeometry (Geometry.vertices vertices)).SetAlpha paint.color.alpha))
          (some true) (1 : M)
        obtain ⟨e, p1, h1, h2, h3, h4, h5⟩ :=
          record_intro top rest paint top.xformation w p rfl
            (DrawVertices_source_mk top rest vertices blend_mode hp hs hw)
        exact ⟨paint, e, p1, rfl, h1, h2, h3, h4, h5⟩
    case DrawAtlas atlas transforms texture_coordinates colors blend_mode sampler cull_rect
        paint =>
      cases atlas with
      | none => simp at hr
      | some img =>
        simp only [Bool.not_eq_true'] at hr
        obtain ⟨w, hw⟩ := WithFilters_isSome (Callable_filters hc)
          (Contents.atlas colors transforms texture_coordinates img.GetTexture sampler
            blend_mode cull_rect paint.color.alpha) (some false) (1 : M)
        obtain ⟨e, p1, h1, h2, h3, h4, h5⟩ :=
          record_intro top rest paint top.xformation w p rfl
            (DrawAtlas_mk top rest img transforms texture_coordinates colors blend_mode sampler
              cull_rect hp hr hw)
        exact ⟨paint, e, p1, rfl, h1, h2, h3, h4, h5⟩
  obtain ⟨paint, e, p1, h1, h2, h3, h4, h5, h6⟩ := key
  exact ⟨g, cur, p, top, rest, paint, e, p1, rfl, hp, rfl, rfl, h1, h2, h3, h4, h5, h6⟩

theorem draw_appends_one_record_witness :
    Reachable sampleCanvas ∧
      (Op.Records (Op.DrawTextFrame { id := 1 } { x := 5, y := 7 } samplePaint :
        Op Int IntAffine) = true) ∧
      (Op.Callable (Op.DrawTextFrame { id := 1 } { x := 5, y := 7 } samplePaint :
        Op Int IntAffine) = true) ∧
      ∃ g cur p top rest paint e p1,
        sampleCanvas = ⟨some g, some cur, top :: rest⟩ ∧ g[cur]? = some p ∧
        sampleCanvas.GetCurrentTransformation = some top.xformation ∧
        sampleCanvas.GetStencilDepth = some top.stencil_depth ∧
        Op.paint? (Op.DrawTextFrame { id := 1 } { x := 5, y := 7 } samplePaint :
          Op Int IntAffine) = some paint ∧
        sampleCanvas.apply (Op.DrawTextFrame { id := 1 } { x := 5, y := 7 } samplePaint) =
          some ⟨some (g.set cur p1), some cur, top :: rest⟩ ∧
        p1.elements_ = p.elements_ ++ [Element.entity e] ∧
        e.xformation =
          (match Op.textPosition? (Op.DrawTextFrame { id := 1 } { x := 5, y := 7 } samplePaint :
              Op Int IntAffine) with
           | some position => top.xformation * MatrixOps.MakeTranslation position.toVector3
           | none => top.xformation) ∧
        e.stencil_depth = top.stencil_depth ∧ e.blend_mode = paint.blend_mode :=
  ⟨Reachable_run (Reachable.create rfl) sampleOps rfl, rfl, rfl,
   draw_appends_one_record sampleCanvas
     (Reachable_run (Reachable.create rfl) sampleOps rfl)
     (Op.DrawTextFrame { id := 1 } { x := 5, y := 7 } samplePaint) rfl rfl⟩

end RecordClaims

/-! ## The contents of the record of a drawing call -/

section ContentsClaims
variable {S M : Type} [One M] [Mul M] [ScalarOps S] [MatrixOps S M]

/-- C19, what the code does at the failing input: on the sample canvas
`DrawPaint` with the paint that configures all four effects returns and
appends a record whose contents is the bare drawable
`CreateContentsForEntity({}, true)`, the solid color over the cover geometry.
`WithFilters` of that paint on that drawable is the invert filter over the
color filter over the image filter over the Gaussian blur of it, and on no
drawable and with no override is it the recorded contents. `DrawPath` with the
same paint records its base drawable under all four stages. -/
theorem DrawPaint_skips_the_effect_chain :
    Reachable sampleCanvas ∧ sampleEffectPaint.Callable = true ∧
      sampleEffectPaint.CreateContentsForEntity Path.empty true =
        some (Contents.solidColor Geometry.cover sampleEffectPaint.color) ∧
      ((sampleCanvas.DrawPaint sampleEffectPaint).bind Canvas.lastRecord?).map
          (fun e => e.contents) =
        some (Contents.solidColor Geometry.cover sampleEffectPaint.color) ∧
      sampleEffectPaint.WithFilters
          (Contents.solidColor Geometry.cover sampleEffectPaint.color) none (1 : IntAffine) =
        some (Contents.colorFilter 3
          (Contents.colorFilter 2
            (Contents.filter 1
              (Contents.gaussianBlur
                (Contents.solidColor Geometry.cover sampleEffectPaint.color)
                3 3 (BlurStyle.other 1) TileMode.kDecal 1) 1) false) false) ∧
      (∀ base o, sampleEffectPaint.WithFilters base o (1 : IntAffine) ≠
        some (Contents.solidColor Geometry.cover sampleEffectPaint.color)) ∧
      ((sampleCanvas.DrawPath (Path.user 3) sampleEffectPaint).bind Canvas.lastRecord?).map
          (fun e => e.contents) =
        some (Contents.colorFilter 3
          (Contents.colorFilter 2
            (Contents.filter 1
              (Contents.gaussianBlur
                (Contents.solidColor
                  (Geometry.strokePath (Path.user 3) sampleEffectPaint.stroke_width
                    sampleEffectPaint.stroke_miter sampleEffectPaint.stroke_cap
                    sampleEffectPaint.stroke_join)
                  sampleEffectPaint.color)
                3 3 (BlurStyle.other 1) TileMode.kDecal 1) 1) false) false) := by
  refine ⟨Reachable_run (Reachable.create rfl) sampleOps rfl, rfl, rfl, rfl, rfl, ?_, rfl⟩
  intro base o hx
  rw [WithFilters_eq_chain (by rfl)] at hx
  simp [effectChain, invertStage, colorFilterStage, sampleEffectPaint, samplePaint] at hx

/-- The drawing calls other than `DrawPaint` run the effect chain: on a
reachable state, for a callable paint, the record of such a call is the current
transform (for `DrawTextFrame` times the translation to the position), the
current stencil depth, the blend mode of the paint and a contents that is
`WithFilters` on the base drawable of the call: the path drawable for
`DrawPath`, stroke `DrawRect`, and `DrawRRect` and `DrawCircle` off the fast
path, the rectangle drawable for fill `DrawRect` off the fast path, the
texture, text, vertices and atlas drawables for the other calls. On the fast
path the contents is `WithFilters` of the paint without its mask blur
descriptor on the shadow drawable. -/
theorem draw_contents_is_filtered_base (c : Canvas S M) (h : Reachable c) (paint : Paint S M)
    (hc : paint.Callable = true) :
    ∃ T D cur, c.GetCurrentTransformation = some T ∧ c.GetStencilDepth = some D ∧
      c.GetCurrentPass = some cur ∧
      (∀ e, ∃ c1, c.AddEntity e = some c1) ∧
      (∀ path, ∃ base w, paint.CreateContentsForEntity path false = some base ∧
        paint.WithFilters base none 1 = some w ∧
        c.DrawPath path paint = c.AddEntity
          { xformation := T, stencil_depth := D, blend_mode := paint.blend_mode,
            contents := w }) ∧
      (∀ rect, paint.style = Style.kStroke →
        ∃ base w, paint.CreateContentsForEntity (Path.rect rect) false = some base ∧
          paint.WithFilters base none 1 = some w ∧
          c.DrawRect rect paint = c.AddEntity
            { xformation := T, stencil_depth := D, blend_mode := paint.blend_mode,
              contents := w }) ∧
      (∀ rect, paint.style = Style.kFill → paint.TakesFastPath = false →
        ∃ base w, paint.CreateContentsForGeometry (Geometry.rect rect) = some base ∧
          paint.WithFilters base none 1 = some w ∧
          c.DrawRect rect paint = c.AddEntity
            { xformation := T, stencil_depth := D, blend_mode := paint.blend_mode,
              contents := w }) ∧
      (∀ rect r, paint.TakesFastPath = false →
        ∃ base w, paint.CreateContentsForEntity (Path.roundedRect rect r) false = some base ∧
          paint.WithFilters base none 1 = some w ∧
          c.DrawRRect rect r paint = c.AddEntity
            { xformation := T, stencil_depth := D, blend_mode := paint.blend_mode,
              contents := w }) ∧
      (∀ center r, paint.TakesFastPath = false →
        ∃ base w, paint.CreateContentsForEntity (Path.circle center r) false = some base ∧
          paint.WithFilters base none 1 = some w ∧
          c.DrawCircle center r paint = c.AddEntity
            { xformation := T, stencil_depth := D, blend_mode := paint.blend_mode,
              contents := w }) ∧
      (∀ d, paint.TakesFastPath = true → paint.mask_blur_descriptor = some d →
        (∀ rect, ∃ w,
          ({ paint with mask_blur_descriptor := none } : Paint S M).WithFilters
              (Contents.rrectShadow paint.color d.sigma rect (ScalarOps.ofInt 0)) none 1 =
            some w ∧
          c.DrawRect rect paint = c.AddEntity
            { xformation := T, stencil_depth := D, blend_mode := paint.blend_mode,
              contents := w }) ∧
        (∀ rect r, ∃ w,
          ({ paint with mask_blur_descriptor := none } : Paint S M).WithFilters
              (Contents.rrectShadow paint.color d.sigma rect r) none 1 = some w ∧
          c.DrawRRect rect r paint = c.AddEntity
            { xformation := T, stencil_depth := D, blend_mode := paint.blend_mode,
              contents := w }) ∧
        (∀ center r, ∃ w,
          ({ paint with mask_blur_descriptor := none } : Paint S M).WithFilters
              (Contents.rrectShadow paint.color d.sigma
                { origin := Point.subSize center { width := r, height := r },
                  size := Size.scale { width := r, height := r } (ScalarOps.ofInt 2) } r)
              none 1 = some w ∧
          c.DrawCircle center r paint = c.AddEntity
            { xformation := T, stencil_depth := D, blend_mode := paint.blend_mode,
              contents := w })) ∧
      (∀ (img : Image) (source dest : Rect S) (sampler : SamplerDescriptor),
        source.size.IsEmpty = false → dest.size.IsEmpty = false →
        img.GetSize.IsEmpty S = false →
        ∃ w, paint.WithFilters
            (Contents.texture dest img.GetTexture source sampler paint.color.alpha)
            (some false) 1 = some w ∧
          c.DrawImageRect (some img) source dest paint sampler = c.AddEntity
            { xformation := T, stencil_depth := D, blend_mode := paint.blend_mode,
              contents := w }) ∧
      (∀ (frame : TextFrame) (position : Point S),
        ∃ w c0, paint.WithFilters (Contents.text frame { pass := cur } paint.color)
            (some true) 1 = some w ∧
          c.writeCurrentPass (fun p => p.AddTextFrame frame) = some c0 ∧
          c.DrawTextFrame frame position paint = c0.AddEntity
            { xformation := T * MatrixOps.MakeTranslation position.toVector3,
              stencil_depth := D, blend_mode := paint.blend_mode, contents := w }) ∧
      (∀ (vertices : VerticesGeometry) (blend_mode : BlendMode),
        paint.color_source = none →
        ∃ w, paint.WithFilters
            (Contents.vertices paint.color blend_mode (Geometry.vertices vertices))
            (some true) 1 = some w ∧
          c.DrawVertices vertices blend_mode paint = c.AddEntity
            { xformation := T, stencil_depth := D, blend_mode := paint.blend_mode,
              contents := w }) ∧
      (∀ (vertices : VerticesGeometry) (blend_mode : BlendMode)
          (factory : Unit → ColorSourceContents S),
        paint.color_source = some (StdFunction.target factory) →
        ∃ w, paint.WithFilters
            (Contents.colorSource
              (((factory ()).SetGeometry (Geometry.vertices vertices)).SetAlpha
                paint.color.alpha))
            (some true) 1 = some w ∧
          c.DrawVertices vertices blend_mode paint = c.AddEntity
            { xformation := T, stencil_depth := D, blend_mode := paint.blend_mode,
              contents := w }) ∧
      (∀ (img : Image) (transforms : List M) (texture_coordinates : List (Rect S))
          (colors : List (Color S)) (blend_mode : BlendMode) (sampler : SamplerDescriptor)
          (cull_rect : Option (Rect S)),
        img.GetSize.IsEmpty S = false →
        ∃ w, paint.WithFilters
            (Contents.atlas colors transforms texture_coordinates img.GetTexture sampler
              blend_mode cull_rect paint.color.alpha) (some false) 1 = some w ∧
          c.DrawAtlas (some img) transforms texture_coordinates colors blend_mode sampler
              cull_rect paint = c.AddEntity
            { xformation := T, stencil_depth := D, blend_mode := paint.blend_mode,
              contents := w }) := by
  obtain ⟨g, cur, top, rest, p, rfl, hp, _⟩ := WF_destruct (Reachable_WF h)
  have hfc := Callable_filters hc
  refine ⟨top.xformation, top.stencil_depth, cur, rfl, rfl, rfl, fun e => ⟨_, AddEntity_mk _ e hp⟩,
    ?_, ?_, ?_, ?_, ?_, ?_, ?_, ?_, ?_, ?_, ?_⟩
  · intro path
    obtain ⟨base, w, hbase, hw, hx⟩ := DrawPath_rec top rest path hp hc
    exact ⟨base, w, hbase, hw, by rw [hx, AddEntity_mk _ _ hp]⟩
  · intro rect hs
    obtain ⟨base, w, hbase, hw, hx⟩ := DrawPath_rec top rest (Path.rect rect) hp hc
    exact ⟨base, w, hbase, hw, by rw [DrawRect_stroke _ rect hs, hx, AddEntity_mk _ _ hp]⟩
  · intro rect hs hf
    obtain ⟨base, hbase⟩ := CreateContentsForGeometry_isSome hc (Geometry.rect rect)
    obtain ⟨w, hw⟩ := WithFilters_isSome hfc base none (1 : M)
    exact ⟨base, w, hbase, hw,
      by rw [DrawRect_slow_mk top rest rect hp hs hf hbase hw, AddEntity_mk _ _ hp]⟩
  · intro rect r hf
    obtain ⟨base, w, hbase, hw, hx⟩ := DrawPath_rec top rest (Path.roundedRect rect r) hp hc
    exact ⟨base, w, hbase, hw, by rw [DrawRRect_slow _ rect r hf, hx, AddEntity_mk _ _ hp]⟩
  · intro center r hf
    obtain ⟨base, w, hbase, hw, hx⟩ := DrawPath_rec top rest (Path.circle center r) hp hc
    exact ⟨base, w, hbase, hw, by rw [DrawCircle_slow _ center r hf, hx, AddEntity_mk _ _ hp]⟩
  · intro d hf hd
    refine ⟨fun rect => ?_, fun rect r => ?_, fun center r => ?_⟩
    · obtain ⟨w, hw, hx⟩ := fast_rec top rest rect (ScalarOps.ofInt 0) hp hc hf hd
      exact ⟨w, hw, by rw [DrawRect_fast _ rect hf hx, AddEntity_mk _ _ hp]⟩
    · obtain ⟨w, hw, hx⟩ := fast_rec top rest rect r hp hc hf hd
      exact ⟨w, hw, by rw [DrawRRect_fast _ rect r hx, AddEntity_mk _ _ hp]⟩
    · obtain ⟨w, hw, hx⟩ := fast_rec top rest
        { origin := center.subSize { width := r, height := r },
          size := Size.scale { width := r, height := r } (ScalarOps.ofInt 2) } r hp hc hf hd
      exact ⟨w, hw, by rw [DrawCircle_fast _ center r hx, AddEntity_mk _ _ hp]⟩
  · intro img source dest sampler h1 h2 h3
    obtain ⟨w, hw⟩ := WithFilters_isSome hfc
      (Contents.texture dest img.GetTexture source sampler paint.color.alpha)
      (some false) (1 : M)
    exact ⟨w, hw,
      by rw [DrawImageRect_mk top rest img source dest sampler hp h1 h2 h3 hw,
        AddEntity_mk _ _ hp]⟩
  · intro frame position
    obtain ⟨w, hw⟩ := WithFilters_isSome hfc
      (Contents.text frame { pass := cur } paint.color) (some true) (1 : M)
    have hlt := lt_of_getElem? g cur p hp
    have hp1 : (g.set cur (p.AddTextFrame frame))[cur]? = some (p.AddTextFrame frame) := by
      simp [List.getElem?_set, hlt]
    refine ⟨w, _, hw, writeCurrentPass_mk _ _ hp, ?_⟩
    rw [DrawTextFrame_mk top rest frame position hp hw, AddEntity_mk _ _ hp1]
    simp
  · intro vertices blend_mode hs
    obtain ⟨w, hw⟩ := WithFilters_isSome hfc
      (Contents.vertices paint.color blend_mode (Geometry.vertices vertices))
      (some true) (1 : M)
    exact ⟨w, hw,
      by rw [DrawVertices_solid_mk top rest vertices blend_mode hp hs hw, AddEntity_mk _ _ hp]⟩
  · intro vertices blend_mode factory hs
    obtain ⟨w, hw⟩ := WithFilters_isSome hfc
      (Contents.colorSource
        (((factory ()).SetGeometry (Geometry.vertices vertices)).SetAlpha paint.color.alpha))
      (some true) (1 : M)
    exact ⟨w, hw,
      by rw [DrawVertices_source_mk top rest vertices blend_mode hp hs hw, AddEntity_mk _ _ hp]⟩
  · intro img transforms texture_coordinates colors blend_mode sampler cull_rect hi
    obtain ⟨w, hw⟩ := WithFilters_isSome hfc
      (Contents.atlas colors transforms texture_coordinates img.GetTexture sampler
        blend_mode cull_rect paint.color.alpha) (some false) (1 : M)
    exact ⟨w, hw,
      by rw [DrawAtlas_mk top rest img transforms texture_coordinates colors blend_mode sampler
        cull_rect hp hi hw, AddEntity_mk _ _ hp]⟩

theorem draw_contents_is_filtered_base_witness :
    Reachable sampleCanvas ∧ sampleEffectPaint.Callable = true ∧
      ∃ T D cur, sampleCanvas.GetCurrentTransformation = some T ∧ sampleCanvas.GetStencilDepth = some D ∧
        sampleCanvas.GetCurrentPass = some cur ∧
        (∀ e, ∃ c1, sampleCanvas.AddEntity e = some c1) ∧
        (∀ path, ∃ base w, sampleEffectPaint.CreateContentsForEntity path false = some base ∧
          sampleEffectPaint.WithFilters base none 1 = some w ∧
          sampleCanvas.DrawPath path sampleEffectPaint = sampleCanvas.AddEntity
            { xformation := T, stencil_depth := D, blend_mode := sampleEffectPaint.blend_mode,
              contents := w }) ∧
        (∀ rect, sampleEffectPaint.style = Style.kStroke →
          ∃ base w, sampleEffectPaint.CreateContentsForEntity (Path.rect rect) false = some base ∧
            sampleEffectPaint.WithFilters base none 1 = some w ∧
            sampleCanvas.DrawRect rect sampleEffectPaint = sampleCanvas.AddEntity
              { xformation := T, stencil_depth := D, blend_mode := sampleEffectPaint.blend_mode,
                contents := w }) ∧
        (∀ rect, sampleEffectPaint.style = Style.kFill → sampleEffectPaint.TakesFastPath = false →
          ∃ base w, sampleEffectPaint.CreateContentsForGeometry (Geometry.rect rect) = some base ∧
            sampleEffectPaint.WithFilters base none 1 = some w ∧
            sampleCanvas.DrawRect rect sampleEffectPaint = sampleCanvas.AddEntity
              { xformation := T, stencil_depth := D, blend_mode := sampleEffectPaint.blend_mode,
                contents := w }) ∧
        (∀ rect r, sampleEffectPaint.TakesFastPath = false →
          ∃ base w, sampleEffectPaint.CreateContentsForEntity (Path.roundedRect rect r) false = some base ∧
            sampleEffectPaint.WithFilters base none 1 = some w ∧
            sampleCanvas.DrawRRect rect r sampleEffectPaint = sampleCanvas.AddEntity
              { xformation := T, stencil_depth := D, blend_mode := sampleEffectPaint.blend_mode,
                contents := w }) ∧
        (∀ center r, sampleEffectPaint.TakesFastPath = false →
          ∃ base w, sampleEffectPaint.CreateContentsForEntity (Path.circle center r) false = some base ∧
            sampleEffectPaint.WithFilters base none 1 = some w ∧
            sampleCanvas.DrawCircle center r sampleEffectPaint = sampleCanvas.AddEntity
              { xformation := T, stencil_depth := D, blend_mode := sampleEffectPaint.blend_mode,
                contents := w }) ∧
        (∀ d, sampleEffectPaint.TakesFastPath = true → sampleEffectPaint.mask_blur_descriptor = some d →
          (∀ rect, ∃ w,
            ({ sampleEffectPaint with mask_blur_descriptor := none } : Paint Int IntAffine).WithFilters
                (Contents.rrectShadow sampleEffectPaint.color d.sigma rect (ScalarOps.ofInt 0)) none 1 =
              some w ∧
            sampleCanvas.DrawRect rect sampleEffectPaint = sampleCanvas.AddEntity
              { xformation := T, stencil_depth := D, blend_mode := sampleEffectPaint.blend_mode,
                contents := w }) ∧
          (∀ rect r, ∃ w,
            ({ sampleEffectPaint with mask_blur_descriptor := none } : Paint Int IntAffine).WithFilters
                (Contents.rrectShadow sampleEffectPaint.color d.sigma rect r) none 1 = some w ∧
            sampleCanvas.DrawRRect rect r sampleEffectPaint = sampleCanvas.AddEntity
              { xformation := T, stencil_depth := D, blend_mode := sampleEffectPaint.blend_mode,
                contents := w }) ∧
          (∀ center r, ∃ w,
            ({ sampleEffectPaint with mask_blur_descriptor := none } : Paint Int IntAffine).WithFilters
                (Contents.rrectShadow sampleEffectPaint.color d.sigma
                  { origin := Point.subSize center { width := r, height := r },
                    size := Size.scale { width := r, height := r } (ScalarOps.ofInt 2) } r)
                none 1 = some w ∧
            sampleCanvas.DrawCircle center r sampleEffectPaint = sampleCanvas.AddEntity
              { xformation := T, stencil_depth := D, blend_mode := sampleEffectPaint.blend_mode,
                contents := w })) ∧
        (∀ (img : Image) (source dest : Rect Int) (sampler : SamplerDescriptor),
          source.size.IsEmpty = false → dest.size.IsEmpty = false →
          img.GetSize.IsEmpty Int = false →
          ∃ w, sampleEffectPaint.WithFilters
              (Contents.texture dest img.GetTexture source sampler sampleEffectPaint.color.alpha)
              (some false) 1 = some w ∧
            sampleCanvas.DrawImageRect (some img) source dest sampleEffectPaint sampler = sampleCanvas.AddEntity
              { xformation := T, stencil_depth := D, blend_mode := sampleEffectPaint.blend_mode,
                contents := w }) ∧
        (∀ (frame : TextFrame) (position : Point Int),
          ∃ w c0, sampleEffectPaint.WithFilters (Contents.text frame { pass := cur } sampleEffectPaint.color)
              (some true) 1 = some w ∧
            sampleCanvas.writeCurrentPass (fun p => p.AddTextFrame frame) = some c0 ∧
            sampleCanvas.DrawTextFrame frame position sampleEffectPaint = c0.AddEntity
              { xformation := T * MatrixOps.MakeTranslation position.toVector3,
                stencil_depth := D, blend_mode := sampleEffectPaint.blend_mode, contents := w }) ∧
        (∀ (vertices : VerticesGeometry) (blend_mode : BlendMode),
          sampleEffectPaint.color_source = none →
          ∃ w, sampleEffectPaint.WithFilters
              (Contents.vertices sampleEffectPaint.color blend_mode (Geometry.vertices vertices))
              (some true) 1 = some w ∧
            sampleCanvas.DrawVertices vertices blend_mode sampleEffectPaint = sampleCanvas.AddEntity
              { xformation := T, stencil_depth := D, blend_mode := sampleEffectPaint.blend_mode,
                contents := w }) ∧
        (∀ (vertices : VerticesGeometry) (blend_mode : BlendMode)
            (factory : Unit → ColorSourceContents Int),
          sampleEffectPaint.color_source = some (StdFunction.target factory) →
          ∃ w, sampleEffectPaint.WithFilters
              (Contents.colorSource
                (((factory ()).SetGeometry (Geometry.vertices vertices)).SetAlpha
                  sampleEffectPaint.color.alpha))
              (some true) 1 = some w ∧
            sampleCanvas.DrawVertices vertices blend_mode sampleEffectPaint = sampleCanvas.AddEntity
              { xformation := T, stencil_depth := D, blend_mode := sampleEffectPaint.blend_mode,
                contents := w }) ∧
        (∀ (img : Image) (transforms : List IntAffine) (texture_coordinates : List (Rect Int))
            (colors : List (Color Int)) (blend_mode : BlendMode) (sampler : SamplerDescriptor)
            (cull_rect : Option (Rect Int)),
          img.GetSize.IsEmpty Int = false →
          ∃ w, sampleEffectPaint.WithFilters
              (Contents.atlas colors transforms texture_coordinates img.GetTexture sampler
                blend_mode cull_rect sampleEffectPaint.color.alpha) (some false) 1 = some w ∧
            sampleCanvas.DrawAtlas (some img) transforms texture_coordinates colors blend_mode sampler
                cull_rect sampleEffectPaint = sampleCanvas.AddEntity
              { xformation := T, stencil_depth := D, blend_mode := sampleEffectPaint.blend_mode,
                contents := w }) :=
  ⟨Reachable_run (Reachable.create rfl) sampleOps rfl, rfl,
   draw_contents_is_filtered_base sampleCanvas
     (Reachable_run (Reachable.create rfl) sampleOps rfl) sampleEffectPaint rfl⟩

end ContentsClaims

/-! ## Blurred shapes off the fast path -/

section SlowPathClaims
variable {S M : Type} [One M] [Mul M] [ScalarOps S] [MatrixOps S M]

end SlowPathClaims

/-! ## `Save` with and without a subpass -/

section SaveClaims
variable {S M : Type} [One M] [Mul M] [ScalarOps S] [MatrixOps S M]

/-- C22: on a reachable state `Save(true, blend_mode, backdrop_filter)` returns
and appends exactly one pass to the render graph, as the last child of the pass
that was current: the parent of the new pass is that pass, its transform and
stencil depth are those of the top entry at the call, its blend mode and
backdrop filter are the given ones, and it holds no record. The new pass is
current afterwards and the pushed entry is marked `is_subpass`. The records of
the pass that was current are the ones from before the call, and every other
pass is unchanged. `Save(false, ...)` and `Save()` push an entry that is not
marked and leave the render graph and the current pass as they were. -/
theorem Save_subpass_attaches_child (c : Canvas S M) (h : Reachable c)
    (blend_mode : BlendMode) (backdrop_filter : Option (ImageFilterProc S M)) :
    ∃ g cur p top rest c1 p1 node entry,
      c = ⟨some g, some cur, top :: rest⟩ ∧ g[cur]? = some p ∧
      c.SaveWith true blend_mode backdrop_filter = some c1 ∧
      c1.base_pass_ = some (g.set cur p1 ++ [node]) ∧
      c1.current_pass_ = some g.length ∧
      (g.set cur p1 ++ [node])[g.length]? = some node ∧
      (∀ i, i ≠ cur → i < g.length → (g.set cur p1 ++ [node])[i]? = g[i]?) ∧
      p1.elements_ = p.elements_ ++ [Element.subpass g.length] ∧
      p1.entities = p.entities ∧ p1.subpasses = p.subpasses ++ [g.length] ∧
      node.GetSuperpass = some cur ∧ node.elements_ = [] ∧
      node.xformation_ = top.xformation ∧ node.stencil_depth_ = top.stencil_depth ∧
      node.blend_mode_ = blend_mode ∧ node.backdrop_filter_proc_ = backdrop_filter ∧
      c1.xformation_stack_ = entry :: top :: rest ∧ entry.is_subpass = true ∧
      entry.xformation = top.xformation ∧ entry.stencil_depth = top.stencil_depth ∧
      c.SaveWith false blend_mode backdrop_filter =
        some ⟨some g, some cur,
          { xformation := top.xformation, stencil_depth := top.stencil_depth,
            is_subpass := false, contains_clips := false } :: top :: rest⟩ ∧
      c.Save =
        some ⟨some g, some cur,
          { xformation := top.xformation, stencil_depth := top.stencil_depth,
            is_subpass := false, contains_clips := false } :: top :: rest⟩ := by
  obtain ⟨g, cur, top, rest, p, rfl, hp, _⟩ := WF_destruct (Reachable_WF h)
  have hlt := lt_of_getElem? g cur p hp
  refine ⟨g, cur, p, top, rest, _,
    { p with elements_ := p.elements_ ++ [Element.subpass g.length] }, _, _, rfl, hp,
    SaveWith_mk top rest blend_mode backdrop_filter hp, rfl, rfl, ?_, ?_, rfl, ?_, ?_, rfl, rfl,
    rfl, rfl, rfl, rfl, rfl, rfl, rfl, rfl, Save_mk _ _ _ _ _ _, Save_mk _ _ _ _ _ _⟩
  · simp [List.getElem?_append_right]
  · intro i hi hil
    rw [List.getElem?_append_left (by simpa using hil)]
    simp [List.getElem?_set, Ne.symm hi]
  · simp [EntityPass.entities, List.filterMap_append, Element.entity?]
  · simp [EntityPass.subpasses, List.filterMap_append, Element.subpass?]

theorem Save_subpass_attaches_child_witness :
    Reachable sampleCanvas ∧
      ∃ g cur p top rest c1 p1 node entry,
        sampleCanvas = ⟨some g, some cur, top :: rest⟩ ∧ g[cur]? = some p ∧
        sampleCanvas.SaveWith true BlendMode.kSourceOver none = some c1 ∧
        c1.base_pass_ = some (g.set cur p1 ++ [node]) ∧
        c1.current_pass_ = some g.length ∧
        (g.set cur p1 ++ [node])[g.length]? = some node ∧
        (∀ i, i ≠ cur → i < g.length → (g.set cur p1 ++ [node])[i]? = g[i]?) ∧
        p1.elements_ = p.elements_ ++ [Element.subpass g.length] ∧
        p1.entities = p.entities ∧ p1.subpasses = p.subpasses ++ [g.length] ∧
        node.GetSuperpass = some cur ∧ node.elements_ = [] ∧
        node.xformation_ = top.xformation ∧ node.stencil_depth_ = top.stencil_depth ∧
        node.blend_mode_ = BlendMode.kSourceOver ∧ node.backdrop_filter_proc_ = none ∧
        c1.xformation_stack_ = entry :: top :: rest ∧ entry.is_subpass = true ∧
        entry.xformation = top.xformation ∧ entry.stencil_depth = top.stencil_depth ∧
        sampleCanvas.SaveWith false BlendMode.kSourceOver none =
          some ⟨some g, some cur,
            { xformation := top.xformation, stencil_depth := top.stencil_depth,
              is_subpass := false, contains_clips := false } :: top :: rest⟩ ∧
        sampleCanvas.Save =
          some ⟨some g, some cur,
            { xformation := top.xformation, stencil_depth := top.stencil_depth,
              is_subpass := false, contains_clips := false } :: top :: rest⟩ :=
  ⟨Reachable_run (Reachable.create rfl) sampleOps rfl,
   Save_subpass_attaches_child sampleCanvas
     (Reachable_run (Reachable.create rfl) sampleOps rfl) BlendMode.kSourceOver none⟩

end SaveClaims

/-! ## The effect of a call on the stack -/

section StackEffect
variable {S M : Type} [One M] [Mul M] [ScalarOps S] [MatrixOps S M]

theorem depthClips_le_one (op : Op S M) : op.depthClips ≤ 1 := by
  cases op <;> simp only [Op.depthClips, Nat.zero_le, le_refl]
  next paint bounds bf =>
    cases bounds with
    | none => simp
    | some b => simp only; split <;> simp

theorem local_effect {c c1 : Canvas S M} (hwf : c.WF) (op : Op S M) (hl : op.IsLocal = true)
    (h : c.apply op = some c1) {top : CanvasStackEntry M} {rest : List (CanvasStackEntry M)}
    (hst : c.xformation_stack_ = top :: rest) :
    ∃ top1, c1.xformation_stack_ = top1 :: rest ∧
      top1.stencil_depth = top.stencil_depth + op.depthClips ∧
      top1.contains_clips = (top.contains_clips || (op.depthClips == 1)) ∧
      top1.is_subpass = top.is_subpass := by
  by_cases hd : op.IsDraw = true
  · have hst1 : c1.xformation_stack_ = c.xformation_stack_ := by
      rcases draw_effect op hd h with rfl | ⟨f, _, hw⟩
      · rfl
      · exact (writeCurrentPass_stack hw).1
    refine ⟨top, by rw [hst1, hst], ?_, ?_, rfl⟩ <;>
      (cases op <;> simp [Op.IsDraw] at hd <;> simp [Op.depthClips])
  by_cases ht : op.IsTransform = true
  · obtain ⟨g, cur, top0, rest0, p, rfl, hp, hch⟩ := (WF_destruct hwf)
    simp only [List.cons.injEq] at hst
    obtain ⟨rfl, rfl⟩ := hst
    obtain ⟨t, hap⟩ := transform_mk (some g) (some cur) top0 rest0 op ht
    rw [hap] at h
    cases h
    refine ⟨_, rfl, ?_, ?_, rfl⟩ <;>
      (cases op <;> simp [Op.IsTransform] at ht <;> simp [Op.depthClips])
  · cases op <;> simp [Op.IsLocal, Op.IsDraw, Op.IsTransform, Op.clips] at hl hd ht
    next path clip_op =>
      obtain ⟨c2, top0, rest0, hr, _, hst0, hst1⟩ := ClipPath_spec hwf path clip_op
      rw [Canvas.apply, hr] at h
      cases h
      rw [hst] at hst0
      simp only [List.cons.injEq] at hst0
      obtain ⟨rfl, rfl⟩ := hst0
      exact ⟨_, hst1, by simp [Op.depthClips], by simp [Op.depthClips], rfl⟩

theorem save_effect {c c1 : Canvas S M} (hwf : c.WF) (op : Op S M) (hs : op.IsSave = true)
    (h : c.apply op = some c1) {top : CanvasStackEntry M} {rest : List (CanvasStackEntry M)}
    (hst : c.xformation_stack_ = top :: rest) :
    ∃ e, c1.xformation_stack_ = e :: top :: rest ∧
      e.stencil_depth = top.stencil_depth + op.depthClips ∧
      e.contains_clips = (op.depthClips == 1) := by
  obtain ⟨g, cur, top0, rest0, p, rfl, hp, _⟩ := WF_destruct hwf
  simp only [List.cons.injEq] at hst
  obtain ⟨rfl, rfl⟩ := hst
  cases op <;> simp [Op.IsSave] at hs
  case Save =>
    rw [Canvas.apply, Canvas.Save, Save_mk] at h
    cases h
    exact ⟨_, rfl, rfl, rfl⟩
  case SaveWith b bm bf =>
    cases b
    · rw [Canvas.apply, Save_mk] at h
      cases h
      exact ⟨_, rfl, rfl, rfl⟩
    · rw [Canvas.apply, SaveWith_mk top0 rest0 bm bf hp] at h
      cases h
      exact ⟨_, rfl, rfl, rfl⟩
  case SaveLayer paint bounds bf =>
    rw [Canvas.apply, SaveLayer_mk top0 rest0 paint bounds bf hp] at h
    cases h
    refine ⟨_, rfl, ?_, ?_⟩
    · cases bounds with
      | none => simp [Op.depthClips]
      | some b => cases hbf : bf.isSome <;> simp [Op.depthClips, hbf]
    · cases bounds with
      | none => simp [Op.depthClips]
      | some b => cases hbf : bf.isSome <;> simp [Op.depthClips, hbf]

/-- The effect of a call that returns on the stack of a well-formed state, by
the kind of the call. -/
theorem apply_stack {c c1 : Canvas S M} (hwf : c.WF) (op : Op S M)
    (h : c.apply op = some c1) :
    ∃ top rest, c.xformation_stack_ = top :: rest ∧
      ((op.IsSave = true ∧ ∃ e, c1.xformation_stack_ = e :: top :: rest ∧
          e.stencil_depth = top.stencil_depth + op.depthClips ∧
          e.contains_clips = (op.depthClips == 1)) ∨
       (op.IsLocal = true ∧ ∃ top1, c1.xformation_stack_ = top1 :: rest ∧
          top1.stencil_depth = top.stencil_depth + op.depthClips ∧
          top1.contains_clips = (top.contains_clips || (op.depthClips == 1)) ∧
          top1.is_subpass = top.is_subpass) ∨
       (op = Op.Restore ∧
          ((rest = [] ∧ c1 = c) ∨ (rest ≠ [] ∧ c1.xformation_stack_ = rest))) ∨
       ((∃ count, op = Op.RestoreToCount count ∧
            c1.GetSaveCount =
              (if c.GetSaveCount ≤ count then c.GetSaveCount else max count 1)) ∧
          c1.xformation_stack_ <:+ c.xformation_stack_ ∧ c1.xformation_stack_ ≠ []) ∨
       (op = Op.EndRecordingAsPicture ∧ c1 = Canvas.fresh)) := by
  obtain ⟨g, cur, top, rest, p, hc, hp, _⟩ := WF_destruct hwf
  have hst : c.xformation_stack_ = top :: rest := by rw [hc]
  refine ⟨top, rest, hst, ?_⟩
  cases op
  case Save => exact Or.inl ⟨rfl, save_effect hwf _ (by rfl) h hst⟩
  case SaveWith b bm bf => exact Or.inl ⟨rfl, save_effect hwf _ (by rfl) h hst⟩
  case SaveLayer paint bounds bf => exact Or.inl ⟨rfl, save_effect hwf _ (by rfl) h hst⟩
  case Restore =>
    refine Or.inr (Or.inr (Or.inl ⟨rfl, ?_⟩))
    obtain ⟨b, c2, hr, _, hcase⟩ := Restore_spec hwf
    rw [Canvas.apply, hr] at h
    cases h
    rcases hcase with ⟨_, hcc, hone⟩ | ⟨_, back, hst1⟩
    · refine Or.inl ⟨?_, hcc⟩
      simp only [Canvas.GetSaveCount, hst, List.length_cons] at hone
      exact List.eq_nil_of_length_eq_zero (by omega)
    · rw [hst] at hst1
      simp only [List.cons.injEq] at hst1
      have hwf2 : 1 ≤ c2.GetSaveCount := WF_saveCount_pos (by assumption)
      refine Or.inr ⟨?_, hst1.2.symm⟩
      intro hnil
      rw [Canvas.GetSaveCount, ← hst1.2, hnil] at hwf2
      simp at hwf2
  case RestoreToCount count =>
    refine Or.inr (Or.inr (Or.inr (Or.inl ?_)))
    obtain ⟨c2, hr, hwf2, hcount, _, _, hsuf⟩ := RestoreToCount_spec hwf count
    rw [Canvas.apply, hr] at h
    cases h
    refine ⟨⟨count, rfl, hcount⟩, hsuf, ?_⟩
    intro hnil
    have := WF_saveCount_pos hwf2
    simp [Canvas.GetSaveCount, hnil] at this
  case EndRecordingAsPicture =>
    rw [Canvas.apply, EndRecordingAsPicture_eq] at h
    cases h
    exact Or.inr (Or.inr (Or.inr (Or.inr ⟨rfl, rfl⟩)))
  all_goals exact Or.inr (Or.inl ⟨rfl, local_effect hwf _ (by rfl) h hst⟩)

end StackEffect

/-! ## Stencil depths: the order along the stack, the bottom entry, the top entry -/

section DepthOrderClaims
variable {S M : Type} [One M] [Mul M] [ScalarOps S] [MatrixOps S M]

theorem levelAfter_save {op : Op S M} (hs : op.IsSave = true) (level : Nat) :
    op.levelAfter level = level + 1 := by
  cases op <;> simp [Op.IsSave] at hs <;> rfl

theorem levelAfter_local {op : Op S M} (hl : op.IsLocal = true) (level : Nat) :
    op.levelAfter level = level := by
  cases op <;> simp [Op.IsLocal, Op.IsDraw, Op.IsTransform, Op.clips] at hl <;> rfl

theorem baseClipsAfter_save {op : Op S M} (hs : op.IsSave = true) (level n : Nat) :
    op.baseClipsAfter level n = n := by
  cases op <;> simp [Op.IsSave] at hs <;> rfl

theorem baseClipsAfter_local {op : Op S M} (hl : op.IsLocal = true) (level n : Nat) :
    op.baseClipsAfter level n = if level = 1 then n + op.depthClips else n := by
  cases op <;> simp [Op.IsLocal, Op.IsDraw, Op.IsTransform, Op.clips] at hl <;>
    simp [Op.baseClipsAfter, Op.depthClips]

theorem bottomDepth_cons_cons (a b : CanvasStackEntry M) (rest : List (CanvasStackEntry M)) :
    bottomDepth (a :: b :: rest) = bottomDepth (b :: rest) := by
  simp [bottomDepth, List.getLast?_cons_cons]

theorem bottomDepth_suffix {st st1 : List (CanvasStackEntry M)} (hsuf : st1 <:+ st)
    (hne : st1 ≠ []) : bottomDepth st1 = bottomDepth st := by
  obtain ⟨more, rfl⟩ := hsuf
  induction more with
  | nil => rfl
  | cons a more ih =>
    cases hm : more ++ st1 with
    | nil => simp [hne] at hm
    | cons b t =>
      rw [List.cons_append, hm, bottomDepth_cons_cons, ← hm]
      exact ih

theorem apply_level {c c1 : Canvas S M} (hwf : c.WF) (op : Op S M)
    (h : c.apply op = some c1) {n : Nat} (hn : bottomDepth c.xformation_stack_ = some n) :
    c1.GetSaveCount = op.levelAfter c.GetSaveCount ∧
      bottomDepth c1.xformation_stack_ = some (op.baseClipsAfter c.GetSaveCount n) := by
  obtain ⟨top, rest, hst, hcase⟩ := apply_stack hwf op h
  rcases hcase with ⟨hs, e, hst1, _, _⟩ | ⟨hl, top1, hst1, hd1, _, _⟩ | ⟨rfl, hr⟩ |
    ⟨⟨count, rfl, hcount⟩, hsuf, hne⟩ | ⟨rfl, rfl⟩
  · rw [levelAfter_save hs, baseClipsAfter_save hs]
    refine ⟨by simp [Canvas.GetSaveCount, hst, hst1], ?_⟩
    rw [hst1, bottomDepth_cons_cons, ← hst]
    exact hn
  · rw [levelAfter_local hl, baseClipsAfter_local hl]
    refine ⟨by simp [Canvas.GetSaveCount, hst, hst1], ?_⟩
    rw [hst] at hn
    rw [hst1]
    cases rest with
    | nil =>
      simp only [bottomDepth, List.getLast?_singleton, Option.map_some',
        Option.some.injEq] at hn
      simp [bottomDepth, Canvas.GetSaveCount, hst, hd1, hn]
    | cons r rs =>
      rw [bottomDepth_cons_cons] at hn ⊢
      simp [Canvas.GetSaveCount, hst, hn]
  · rcases hr with ⟨hnil, rfl⟩ | ⟨hne, hst1⟩
    · subst hnil
      rw [hst] at hn
      simp [Op.levelAfter, Op.baseClipsAfter, Canvas.GetSaveCount, hst, hn]
    · cases rest with
      | nil => exact absurd rfl hne
      | cons r rs =>
        rw [hst, bottomDepth_cons_cons] at hn
        simp [Op.levelAfter, Op.baseClipsAfter, Canvas.GetSaveCount, hst, hst1, hn]
  · refine ⟨by rw [hcount]; rfl, ?_⟩
    rw [bottomDepth_suffix hsuf hne, hn]
    rfl
  · exact ⟨rfl, rfl⟩

theorem run_level :
    ∀ (ops : List (Op S M)) (c c1 : Canvas S M) (n : Nat), c.WF →
      bottomDepth c.xformation_stack_ = some n → c.run ops = some c1 →
      c1.GetSaveCount = saveLevel ops c.GetSaveCount ∧
        bottomDepth c1.xformation_stack_ = some (baseClips ops c.GetSaveCount n) := by
  intro ops
  induction ops with
  | nil =>
    intro c c1 n _ hn h
    simp only [Canvas.run, Option.some.injEq] at h
    subst h
    exact ⟨rfl, hn⟩
  | cons op ops ih =>
    intro c c1 n hwf hn h
    simp only [Canvas.run] at h
    cases hap : c.apply op with
    | none => simp [hap] at h
    | some c0 =>
      simp only [hap] at h
      obtain ⟨hlv, hbd⟩ := apply_level hwf op hap hn
      obtain ⟨h1, h2⟩ := ih c0 c1 _ (apply_WF hwf op hap) hbd h
      rw [hlv] at h1 h2
      exact ⟨h1, h2⟩

theorem monotone_index {st : List (CanvasStackEntry M)} (hm : StencilMonotone st) :
    ∀ (i j : Nat) (upper lower : CanvasStackEntry M), i ≤ j → st[i]? = some upper →
      st[j]? = some lower → lower.stencil_depth ≤ upper.stencil_depth := by
  induction st with
  | nil => intro i j upper lower _ hi; simp at hi
  | cons a t ih =>
    unfold StencilMonotone at hm
    rw [List.pairwise_cons] at hm
    intro i j upper lower hij hi hj
    cases i with
    | zero =>
      simp only [List.getElem?_cons_zero, Option.some.injEq] at hi
      subst hi
      cases j with
      | zero =>
        simp only [List.getElem?_cons_zero, Option.some.injEq] at hj
        subst hj
        exact le_refl _
      | succ j =>
        simp only [List.getElem?_cons_succ] at hj
        obtain ⟨hlt, hget⟩ := List.getElem?_eq_some_iff.mp hj
        exact hm.1 lower (hget ▸ List.getElem_mem hlt)
    | succ i =>
      cases j with
      | zero => omega
      | succ j =>
        simp only [List.getElem?_cons_succ] at hi hj
        exact ih hm.2 i j upper lower (by omega) hi hj

theorem apply_top_depth {c c1 : Canvas S M} (hwf : c.WF)
    (hm : StencilMonotone c.xformation_stack_) (op : Op S M) (h : c.apply op = some c1) :
    ∃ d d1, c.GetStencilDepth = some d ∧ c1.GetStencilDepth = some d1 ∧
      (op.depthClips = 1 → d1 = d + 1) ∧ (op.depthClips = 0 → d1 ≤ d) := by
  obtain ⟨top, rest, hst, hcase⟩ := apply_stack hwf op h
  have hd : c.GetStencilDepth = some top.stencil_depth := by
    simp [Canvas.GetStencilDepth, Canvas.back, hst]
  refine ⟨top.stencil_depth, ?_⟩
  rcases hcase with ⟨_, e, hst1, hd1, _⟩ | ⟨_, top1, hst1, hd1, _, _⟩ | ⟨rfl, hr⟩ |
    ⟨⟨count, rfl, _⟩, hsuf, hne⟩ | ⟨rfl, rfl⟩
  · refine ⟨e.stencil_depth, hd, by simp [Canvas.GetStencilDepth, Canvas.back, hst1], ?_, ?_⟩
    · intro h1; rw [hd1, h1]
    · intro h0; rw [hd1, h0]; exact le_refl _
  · refine ⟨top1.stencil_depth, hd, by simp [Canvas.GetStencilDepth, Canvas.back, hst1],
      ?_, ?_⟩
    · intro h1; rw [hd1, h1]
    · intro h0; rw [hd1, h0]; exact le_refl _
  · rcases hr with ⟨_, rfl⟩ | ⟨hne, hst1⟩
    · exact ⟨top.stencil_depth, hd, hd, by simp [Op.depthClips], fun _ => le_refl _⟩
    · cases rest with
      | nil => exact absurd rfl hne
      | cons r rs =>
        refine ⟨r.stencil_depth, hd, by simp [Canvas.GetStencilDepth, Canvas.back, hst1],
          by simp [Op.depthClips], fun _ => ?_⟩
        rw [hst] at hm
        unfold StencilMonotone at hm
        rw [List.pairwise_cons] at hm
        exact hm.1 r (by simp)
  · cases hst1 : c1.xformation_stack_ with
    | nil => exact absurd hst1 hne
    | cons t1 r1 =>
      refine ⟨t1.stencil_depth, hd, by simp [Canvas.GetStencilDepth, Canvas.back, hst1],
        by simp [Op.depthClips], fun _ => ?_⟩
      obtain ⟨more, hmore⟩ := hsuf
      rw [hst1] at hmore
      rw [← hmore] at hm
      obtain ⟨head, tail, hht, hle⟩ := head_depth_ge hm
      rw [hmore, hst] at hht
      simp only [List.cons.injEq] at hht
      rw [hht.1]
      exact hle
  · exact ⟨0, hd, rfl, by simp [Op.depthClips], fun _ => Nat.zero_le _⟩

/-- C21: on a reachable state the stencil depths do not decrease from the
bottom of the stack to the top: an entry is at least as deep as every entry
below it. When the state is reached from a new canvas by the calls `ops`, the
depth of the bottom entry is the number of `ClipPath` calls of `ops` made at
save count 1 (since the last `EndRecordingAsPicture`). A call that returns
raises the stencil depth of the top entry only when it is `ClipPath` or a
`SaveLayer` with bounds and without backdrop filter, and then by exactly 1;
after any other call the depth is at most the one before. Both raising calls
return on every reachable state. -/
theorem stencil_depth_nondecreasing (c : Canvas S M) (h : Reachable c) :
    StencilMonotone c.xformation_stack_ ∧
      (∀ (i j : Nat) (upper lower : CanvasStackEntry M), i ≤ j →
        c.xformation_stack_[i]? = some upper → c.xformation_stack_[j]? = some lower →
        lower.stencil_depth ≤ upper.stencil_depth) ∧
      (∀ ops : List (Op S M), Canvas.fresh.run ops = some c →
        c.GetSaveCount = saveLevel ops 1 ∧
          bottomDepth c.xformation_stack_ = some (baseClips ops 1 0)) ∧
      (∀ (op : Op S M) (c1 : Canvas S M), c.apply op = some c1 →
        ∃ d d1, c.GetStencilDepth = some d ∧ c1.GetStencilDepth = some d1 ∧
          (op.depthClips = 1 → d1 = d + 1) ∧ (op.depthClips = 0 → d1 ≤ d) ∧
          op.depthClips ≤ 1) ∧
      (∀ path clip_op, ∃ c1, c.apply (Op.ClipPath path clip_op) = some c1) ∧
      (∀ paint bounds backdrop_filter,
        ∃ c1, c.apply (Op.SaveLayer paint bounds backdrop_filter) = some c1) := by
  have hwf := Reachable_WF h
  have hm := Reachable_monotone h
  refine ⟨hm, monotone_index hm, ?_, ?_, ?_, ?_⟩
  · intro ops hrun
    exact run_level ops Canvas.fresh c 0 fresh_WF rfl hrun
  · intro op c1 hap
    obtain ⟨d, d1, h1, h2, h3, h4⟩ := apply_top_depth hwf hm op hap
    exact ⟨d, d1, h1, h2, h3, h4, depthClips_le_one op⟩
  · intro path clip_op
    obtain ⟨c1, _, _, hr, _⟩ := ClipPath_spec hwf path clip_op
    exact ⟨c1, hr⟩
  · intro paint bounds bf
    obtain ⟨c1, _, _, _, hr, _⟩ := SaveLayer_spec hwf paint bounds bf
    exact ⟨c1, hr⟩

theorem stencil_depth_nondecreasing_witness :
    Reachable sampleNestedCanvas ∧
      (Canvas.fresh.run sampleNestedOps = some sampleNestedCanvas ∧
        saveLevel sampleNestedOps 1 = 2 ∧ baseClips sampleNestedOps 1 0 = 2) ∧
      StencilMonotone sampleNestedCanvas.xformation_stack_ ∧
      (∀ (i j : Nat) (upper lower : CanvasStackEntry IntAffine), i ≤ j →
        sampleNestedCanvas.xformation_stack_[i]? = some upper →
        sampleNestedCanvas.xformation_stack_[j]? = some lower →
        lower.stencil_depth ≤ upper.stencil_depth) ∧
      (∀ ops : List (Op Int IntAffine), Canvas.fresh.run ops = some sampleNestedCanvas →
        sampleNestedCanvas.GetSaveCount = saveLevel ops 1 ∧
          bottomDepth sampleNestedCanvas.xformation_stack_ = some (baseClips ops 1 0)) ∧
      (∀ (op : Op Int IntAffine) (c1 : Canvas Int IntAffine),
        sampleNestedCanvas.apply op = some c1 →
        ∃ d d1, sampleNestedCanvas.GetStencilDepth = some d ∧ c1.GetStencilDepth = some d1 ∧
          (op.depthClips = 1 → d1 = d + 1) ∧ (op.depthClips = 0 → d1 ≤ d) ∧
          op.depthClips ≤ 1) ∧
      (∀ path clip_op, ∃ c1, sampleNestedCanvas.apply (Op.ClipPath path clip_op) = some c1) ∧
      (∀ paint bounds backdrop_filter,
        ∃ c1,
          sampleNestedCanvas.apply (Op.SaveLayer paint bounds backdrop_filter) = some c1) :=
  ⟨Reachable_run (Reachable.create rfl) sampleNestedOps rfl, ⟨rfl, rfl, rfl⟩,
   stencil_depth_nondecreasing sampleNestedCanvas
     (Reachable_run (Reachable.create rfl) sampleNestedOps rfl)⟩

end DepthOrderClaims

/-! ## Clip restores and save levels -/

section ClipRestoreClaims
variable {S M : Type} [One M] [Mul M] [ScalarOps S] [MatrixOps S M]

theorem depthClips_local {op : Op S M} (hl : op.IsLocal = true) : op.depthClips = op.clips := by
  cases op <;> simp [Op.IsLocal, Op.IsDraw, Op.IsTransform, Op.clips] at hl <;> rfl

theorem run_cons_eq_some {c c2 : Canvas S M} {op : Op S M} {ops : List (Op S M)}
    (h : c.run (op :: ops) = some c2) :
    ∃ c1, c.apply op = some c1 ∧ c1.run ops = some c2 := by
  simp only [Canvas.run] at h
  cases hap : c.apply op with
  | none => simp [hap] at h
  | some c1 =>
    simp only [hap] at h
    exact ⟨c1, rfl, h⟩

theorem run_WF : ∀ (ops : List (Op S M)) (c c1 : Canvas S M), c.WF →
    c.run ops = some c1 → c1.WF := by
  intro ops
  induction ops with
  | nil =>
    intro c c1 hwf h
    simp only [Canvas.run, Option.some.injEq] at h
    subst h
    exact hwf
  | cons op ops ih =>
    intro c c1 hwf h
    obtain ⟨c0, hap, hrun⟩ := run_cons_eq_some h
    exact ih c0 c1 (apply_WF hwf op hap) hrun

theorem run_balanced_flag {ops : List (Op S M)} {n : Nat} (hb : Balanced ops n) :
    ∀ (c c1 : Canvas S M) (top : CanvasStackEntry M) (rest : List (CanvasStackEntry M)),
      c.WF → c.xformation_stack_ = top :: rest → c.run ops = some c1 →
      ∃ top1, c1.xformation_stack_ = top1 :: rest ∧
        top1.contains_clips = (top.contains_clips || decide (0 < n)) := by
  induction hb with
  | nil =>
    intro c c1 top rest _ hst h
    simp only [Canvas.run, Option.some.injEq] at h
    subst h
    exact ⟨top, hst, by simp⟩
  | @cons op ops n hl _ ih =>
    intro c c2 top rest hwf hst h
    obtain ⟨c1, hap, hrun⟩ := run_cons_eq_some h
    obtain ⟨top1, hst1, _, hf1, _⟩ := local_effect hwf op hl hap hst
    obtain ⟨top2, hst2, hf2⟩ := ih c1 c2 top1 rest (apply_WF hwf op hap) hst1 hrun
    refine ⟨top2, hst2, ?_⟩
    rw [hf2, hf1, depthClips_local hl]
    have hle := depthClips_le_one op
    rw [depthClips_local hl] at hle
    rcases Nat.le_one_iff_eq_zero_or_eq_one.mp hle with h0 | h1
    · simp [h0]
    · simp [h1]
  | @nest opener body rest0 m n hs _ _ ihb ihr =>
    intro c c4 top rest hwf hst h
    obtain ⟨c1, hap, hrun⟩ := run_cons_eq_some h
    rw [run_append] at hrun
    cases hbody : c1.run body with
    | none => simp [hbody] at hrun
    | some c2 =>
      simp only [hbody, Option.some_bind] at hrun
      obtain ⟨c3, hap3, hrun3⟩ := run_cons_eq_some hrun
      have hwf1 := apply_WF hwf opener hap
      obtain ⟨e, hst1, _, _⟩ := save_effect hwf opener hs hap hst
      obtain ⟨e2, hst2, _⟩ := ihb c1 c2 e (top :: rest) hwf1 hst1 hbody
      have hwf2 := run_WF body c1 c2 hwf1 hbody
      obtain ⟨c3x, hr, hwf3, hst3⟩ := Restore_of_two hwf2 hst2
      rw [Canvas.apply, hr] at hap3
      simp only [Option.map_some', Option.some.injEq] at hap3
      subst hap3
      exact ihr c3x c4 top rest hwf3 hst3 hrun3

/-- C23: from a reachable state, `Save` in each of its forms pushes an entry
with `contains_clips` false, whatever the flag of the entry below. After a save
call `opener` and a balanced sequence `body` with `n` clips of its own level,
the flag of the pushed entry is set exactly when at least one clip was recorded
at that level (a `ClipPath` of the body outside nested pairs, or the bounds
clip of `SaveLayer`), and the matching `Restore` returns true, gives back the
stack from before the save call and appends exactly one clip-restore record to
the pass that is current after the pop when the flag is set, and no record when
it is not. At save count 1 `Restore` returns false and `RestoreToCount` returns,
both with the state unchanged, so no clip-restore record follows the clips of
the base level. -/
theorem Restore_emits_iff_level_clipped (c : Canvas S M) (h : Reachable c) (opener : Op S M)
    (hs : opener.IsSave = true) (body : List (Op S M)) (n : Nat) (hb : Balanced body n)
    (hcall : ∀ op ∈ body, op.Callable = true) :
      (∀ create_subpass blend_mode backdrop_filter,
        ∃ c0 e, c.SaveWith create_subpass blend_mode backdrop_filter = some c0 ∧
          c0.xformation_stack_ = e :: c.xformation_stack_ ∧ e.contains_clips = false) ∧
      (∃ c0 entry0 c1 entry c2 g1 cur1 p1 next,
        c.apply opener = some c0 ∧
        c0.xformation_stack_ = entry0 :: c.xformation_stack_ ∧
        entry0.contains_clips = (Op.depthClips opener == 1) ∧
        c0.run body = some c1 ∧
        c1.xformation_stack_ = entry :: c.xformation_stack_ ∧
        entry.contains_clips = decide (0 < Op.depthClips opener + n) ∧
        c1.Restore = some (true, c2) ∧
        c2.xformation_stack_ = c.xformation_stack_ ∧
        c.xformation_stack_.head? = some next ∧
        c1.base_pass_ = some g1 ∧ c2.current_pass_ = some cur1 ∧ g1[cur1]? = some p1 ∧
        c2.base_pass_ = some
          (if 0 < Op.depthClips opener + n then
            g1.set cur1 { p1 with elements_ := p1.elements_ ++
              [Element.entity
                { xformation := next.xformation, stencil_depth := next.stencil_depth,
                  blend_mode := BlendMode.kSourceOver,
                  contents := Contents.clipRestore }] }
          else g1)) ∧
      (c.GetSaveCount = 1 →
        c.Restore = some (false, c) ∧
          ∀ count, c.RestoreToCount count = some c) := by
  have hwf := Reachable_WF h
  obtain ⟨g, cur, top, rest, p, rfl, hp, _⟩ := WF_destruct hwf
  refine ⟨?_, ?_, ?_⟩
  · intro b bm bf
    obtain ⟨c0, top0, rest0, hsv, _, hst0, hst1⟩ := SaveWith_spec hwf b bm bf
    simp only [List.cons.injEq] at hst0
    obtain ⟨rfl, rfl⟩ := hst0
    exact ⟨c0, _, hsv, hst1, rfl⟩
  · obtain ⟨c0, hap⟩ := apply_progress hwf opener (by
      cases opener <;> simp [Op.IsSave] at hs <;> rfl)
    have hwf0 := apply_WF hwf opener hap
    obtain ⟨e0, hst0, _, hf0⟩ := save_effect hwf opener hs hap rfl
    obtain ⟨c1, e1, hrun, hwf1, hst1, _⟩ := run_balanced hb c0 e0 (top :: rest) hwf0 hst0 hcall
    obtain ⟨e1x, hst1x, hf1⟩ := run_balanced_flag hb c0 c1 e0 (top :: rest) hwf0 hst0 hrun
    rw [hst1] at hst1x
    simp only [List.cons.injEq, and_true] at hst1x
    subst hst1x
    obtain ⟨g1, cur1x, top1, rest1, p1x, hc1, hp1x, _⟩ := WF_destruct hwf1
    subst hc1
    simp only [List.cons.injEq] at hst1
    obtain ⟨rfl, rfl⟩ := hst1
    obtain ⟨cur1, p1, hp1, _, _, _, hr⟩ := Restore_pop hwf1
    have hflag : top1.contains_clips = decide (0 < opener.depthClips + n) := by
      rw [hf1, hf0]
      rcases Nat.le_one_iff_eq_zero_or_eq_one.mp (depthClips_le_one opener) with h0 | h1
      · simp [h0]
      · simp [h1]
    refine ⟨c0, e0, _, top1, _, g1, cur1, p1, top, hap, hst0, hf0, hrun, rfl, hflag, hr, rfl, rfl,
      rfl, rfl, hp1, ?_⟩
    by_cases hpos : 0 < opener.depthClips + n
    · have : top1.contains_clips = true := by rw [hflag]; simpa using hpos
      simp [this, hpos, EntityPass.AddEntity]
    · have : top1.contains_clips = false := by rw [hflag]; simpa using hpos
      simp [this, hpos]
  · intro hone
    have hrest : rest = [] := by
      simp only [Canvas.GetSaveCount, List.length_cons] at hone
      exact List.eq_nil_of_length_eq_zero (by omega)
    subst hrest
    refine ⟨Restore_single _ _ _, fun count => ?_⟩
    obtain ⟨c1, hr, _, _, hle, htimes, _⟩ := RestoreToCount_spec hwf count
    have hpos := WF_saveCount_pos (by assumption : c1.WF)
    have hz : Canvas.GetSaveCount (⟨some g, some cur, [top]⟩ : Canvas S M) - c1.GetSaveCount =
        0 := by
      have h1 : Canvas.GetSaveCount (⟨some g, some cur, [top]⟩ : Canvas S M) = 1 := rfl
      omega
    rw [hz] at htimes
    simp only [Canvas.restoreTimes, Option.some.injEq] at htimes
    rw [hr, ← htimes]

theorem sampleClipBody_balanced : Balanced sampleClipBody 2 :=
  @Balanced.cons Int IntAffine _ _ 1 rfl
    (@Balanced.cons Int IntAffine _ _ 1 rfl
      (@Balanced.cons Int IntAffine _ _ 0 rfl Balanced.nil))

theorem sampleClipBody_callable : ∀ op ∈ sampleClipBody, op.Callable = true := by
  intro op hop
  simp only [sampleClipBody, List.mem_cons, List.mem_singleton, List.not_mem_nil,
    or_false] at hop
  rcases hop with rfl | rfl | rfl <;> rfl

theorem Restore_emits_iff_level_clipped_witness :
    Reachable sampleBaseCanvas ∧
      (Op.IsSave (Op.Save : Op Int IntAffine) = true) ∧ Balanced sampleClipBody 2 ∧
      (∀ op ∈ sampleClipBody, op.Callable = true) ∧
      sampleBaseCanvas.GetSaveCount = 1 ∧
      (∀ create_subpass blend_mode backdrop_filter,
        ∃ c0 e, sampleBaseCanvas.SaveWith create_subpass blend_mode backdrop_filter = some c0 ∧
          c0.xformation_stack_ = e :: sampleBaseCanvas.xformation_stack_ ∧ e.contains_clips = false) ∧
      (∃ c0 entry0 c1 entry c2 g1 cur1 p1 next,
        sampleBaseCanvas.apply (Op.Save : Op Int IntAffine) = some c0 ∧
        c0.xformation_stack_ = entry0 :: sampleBaseCanvas.xformation_stack_ ∧
        entry0.contains_clips = (Op.depthClips (Op.Save : Op Int IntAffine) == 1) ∧
        c0.run sampleClipBody = some c1 ∧
        c1.xformation_stack_ = entry :: sampleBaseCanvas.xformation_stack_ ∧
        entry.contains_clips = decide (0 < Op.depthClips (Op.Save : Op Int IntAffine) + 2) ∧
        c1.Restore = some (true, c2) ∧
        c2.xformation_stack_ = sampleBaseCanvas.xformation_stack_ ∧
        sampleBaseCanvas.xformation_stack_.head? = some next ∧
        c1.base_pass_ = some g1 ∧ c2.current_pass_ = some cur1 ∧ g1[cur1]? = some p1 ∧
        c2.base_pass_ = some
          (if 0 < Op.depthClips (Op.Save : Op Int IntAffine) + 2 then
            g1.set cur1 { p1 with elements_ := p1.elements_ ++
              [Element.entity
                { xformation := next.xformation, stencil_depth := next.stencil_depth,
                  blend_mode := BlendMode.kSourceOver,
                  contents := Contents.clipRestore }] }
          else g1)) ∧
      (sampleBaseCanvas.GetSaveCount = 1 →
        sampleBaseCanvas.Restore = some (false, sampleBaseCanvas) ∧
          ∀ count, sampleBaseCanvas.RestoreToCount count = some sampleBaseCanvas) :=
  ⟨Reachable_run (Reachable.create rfl) sampleBaseOps rfl, rfl, sampleClipBody_balanced,
   sampleClipBody_callable, rfl,
   Restore_emits_iff_level_clipped sampleBaseCanvas
     (Reachable_run (Reachable.create rfl) sampleBaseOps rfl) Op.Save rfl sampleClipBody 2
     sampleClipBody_balanced sampleClipBody_callable⟩

end ClipRestoreClaims

end impeller
